import Mathlib

/-!
TubeCity DSP kernel: a shallow embedding of `TubeCityExtensionDSPKernel` (file
`TubeCityExtension/DSP/TubeCityExtensionDSPKernel.hpp`) and of the parameter
addresses of `TubeCityExtensionParameterAddresses.h`.

Conventions of the embedding:

* `float` / `double` / `AUValue` values are rationals and the arithmetic on
  them is exact: rounding, infinities and NaN are not modelled.  The decimal
  literals of the source (`0.7f`, `0.9995f`, ...) are the rationals they
  denote.  Where the source would leave the finite range of `float` (a
  division by a zero sample rate, an overflow in the filter sum) the
  definitions do not stand for it; the statements that depend on it carry a
  hypothesis that excludes it (a non-zero sample rate, `PreEQInRange`).
* A member array `float m[8]` is a function `Nat → ℚ` indexed by channel and
  an assignment `m[channel] = v` is `Function.update m channel v`.  The source
  is only defined for channel indices below 8, that is for `process` calls
  with at most 8 buffers: beyond that it indexes the arrays out of bounds,
  where the definitions here have independent cells.  The statements whose
  content rests on the channels being separate cells (channel independence,
  silence, the output bound) carry that bound.
* An input buffer (`float const*`) is a function `Nat → ℚ` from frame index to
  sample.  `process` returns, for every channel in order, the list of the
  `frameCount` samples it stores in the output buffer of that channel.
* A member function that mutates the kernel returns the new kernel next to its
  C++ return value.
-/

namespace TubeCity

/-! ## Parameter addresses -/

/-- Enumerator `tubegain = 0` of `TubeCityExtensionParameterAddress`. -/
def tubegain : Nat := 0

/-- Enumerator `bypass = 1` of `TubeCityExtensionParameterAddress`. -/
def bypass : Nat := 1

/-- Enumerator `neutraltube = 2` of `TubeCityExtensionParameterAddress`. -/
def neutraltube : Nat := 2

/-- Enumerator `warmtube = 3` of `TubeCityExtensionParameterAddress`. -/
def warmtube : Nat := 3

/-- Enumerator `aggressivetube = 4` of `TubeCityExtensionParameterAddress`. -/
def aggressivetube : Nat := 4

/-! ## What the kernel uses but the two source files do not define -/

/-- Everything the kernel header names without defining it.

* `TubeSaturation`, `TaylorWarmTube`, `TaylorAggressiveTube` are the three tube
  classes (`TubeSaturation.hpp`, `TaylorWarmTube.hpp`,
  `TaylorAggressiveTube.hpp`): a state type, `processSample` returning the
  output sample with the new state, and `setSampleRate`.
* `ContextBlock` is the type of the host callback `AUHostMusicalContextBlock`.
* `cos` and `sin` are `std::cos` and `std::sin` on `float`.
* `outputvolume` and `signallevel` are the two enumerators that the kernel
  uses in its `switch` statements and that the address header does not
  declare.  `labels_nodup` records that the seven `case` labels of
  `getParameter` are pairwise different, which C++ requires of the labels of
  one `switch`. -/
structure Env where
  TubeSaturation : Type
  TaylorWarmTube : Type
  TaylorAggressiveTube : Type
  ContextBlock : Type
  neutralProcessSample : TubeSaturation → ℚ → ℚ × TubeSaturation
  warmProcessSample : TaylorWarmTube → ℚ → ℚ × TaylorWarmTube
  aggressiveProcessSample : TaylorAggressiveTube → ℚ → ℚ × TaylorAggressiveTube
  neutralSetSampleRate : TubeSaturation → ℚ → TubeSaturation
  warmSetSampleRate : TaylorWarmTube → ℚ → TaylorWarmTube
  aggressiveSetSampleRate : TaylorAggressiveTube → ℚ → TaylorAggressiveTube
  cos : ℚ → ℚ
  sin : ℚ → ℚ
  outputvolume : Nat
  signallevel : Nat
  labels_nodup :
    [outputvolume, tubegain, bypass, neutraltube, warmtube, aggressivetube, signallevel].Nodup

/-! ## The kernel state -/

/-- The member variables of `TubeCityExtensionDSPKernel`, in declaration order. -/
@[ext]
structure Kernel (E : Env) where
  mMusicalContextBlock : E.ContextBlock
  mSampleRate : ℚ
  mOutputVolume : ℚ
  mTubeGain : ℚ
  mBypassed : Bool
  mMaxFramesToRender : Nat
  mNeutralTube : E.TubeSaturation
  mWarmTube : E.TaylorWarmTube
  mAggressiveTube : E.TaylorAggressiveTube
  mNeutralTubeAmount : ℚ
  mWarmTubeAmount : ℚ
  mAggressiveTubeAmount : ℚ
  mLastSample : Nat → ℚ
  mDcBlockerZ1 : Nat → ℚ
  mDcBlockerOutput : Nat → ℚ
  mHPF_b0 : ℚ
  mHPF_b1 : ℚ
  mHPF_b2 : ℚ
  mHPF_a0 : ℚ
  mHPF_a1 : ℚ
  mHPF_a2 : ℚ
  mHPF_x1 : Nat → ℚ
  mHPF_x2 : Nat → ℚ
  mHPF_y1 : Nat → ℚ
  mHPF_y2 : Nat → ℚ
  mSignalLevel : ℚ

/-- A freshly constructed kernel: every member has its default member
initializer; the members without one (the three tube objects and the context
block) are given by the caller. -/
def Kernel.fresh (E : Env) (ctx : E.ContextBlock) (neutral : E.TubeSaturation)
    (warm : E.TaylorWarmTube) (aggressive : E.TaylorAggressiveTube) : Kernel E where
  mMusicalContextBlock := ctx
  mSampleRate := 44100
  mOutputVolume := 1
  mTubeGain := 1
  mBypassed := false
  mMaxFramesToRender := 1024
  mNeutralTube := neutral
  mWarmTube := warm
  mAggressiveTube := aggressive
  mNeutralTubeAmount := 0
  mWarmTubeAmount := 0
  mAggressiveTubeAmount := 0
  mLastSample := fun _ => 0
  mDcBlockerZ1 := fun _ => 0
  mDcBlockerOutput := fun _ => 0
  mHPF_b0 := 0
  mHPF_b1 := 0
  mHPF_b2 := 0
  mHPF_a0 := 1
  mHPF_a1 := 0
  mHPF_a2 := 0
  mHPF_x1 := fun _ => 0
  mHPF_x2 := fun _ => 0
  mHPF_y1 := fun _ => 0
  mHPF_y2 := fun _ => 0
  mSignalLevel := 0

variable {E : Env}

/-! ## Initialisation -/

/-- The macro `M_PI` of `<math.h>`. -/
def M_PI : ℚ := 314159265358979323846 / 100000000000000000000

/-- `initializeEQ(sampleRate)`: the high-pass coefficients, then their
normalisation by `mHPF_a0` (which itself is left at `1 + alpha`).  The
definition stands for the source at non-zero sample rates only: at
`sampleRate = 0` the source computes `75.0f / 0.0`, an infinity, and installs
NaN coefficients, where the division of `ℚ` gives `75 / 0 = 0`. -/
def initializeEQ (k : Kernel E) (sampleRate : ℚ) : Kernel E :=
  let fc : ℚ := 75 / sampleRate
  let Q : ℚ := 707 / 1000
  let w0 : ℚ := 2 * M_PI * fc
  let cosw0 : ℚ := E.cos w0
  let sinw0 : ℚ := E.sin w0
  let alpha : ℚ := sinw0 / (2 * Q)
  let a0 : ℚ := 1 + alpha
  { k with
    mHPF_b0 := ((1 + cosw0) / 2) / a0
    mHPF_b1 := (-(1 + cosw0)) / a0
    mHPF_b2 := ((1 + cosw0) / 2) / a0
    mHPF_a0 := a0
    mHPF_a1 := (-2 * cosw0) / a0
    mHPF_a2 := (1 - alpha) / a0 }

/-- The member function `initialize(inputChannelCount, outputChannelCount,
inSampleRate)`; the source name is a reserved word of Lean. -/
def initializeKernel (k : Kernel E) (_inputChannelCount _outputChannelCount : Int)
    (inSampleRate : ℚ) : Kernel E :=
  let k1 : Kernel E := { k with mSampleRate := inSampleRate }
  let k2 : Kernel E := initializeEQ k1 inSampleRate
  let k3 : Kernel E := { k2 with mNeutralTube := E.neutralSetSampleRate k2.mNeutralTube inSampleRate }
  let k4 : Kernel E := { k3 with mWarmTube := E.warmSetSampleRate k3.mWarmTube inSampleRate }
  { k4 with mAggressiveTube := E.aggressiveSetSampleRate k4.mAggressiveTube inSampleRate }

/-! ## Pre-emphasis filter -/

/-- `applyPreEQ(input, channel)`: the returned sample and the kernel with the
shifted history of `channel`. -/
def applyPreEQ (k : Kernel E) (input : ℚ) (channel : Nat) : ℚ × Kernel E :=
  let hpf : ℚ := k.mHPF_b0 * input + k.mHPF_b1 * k.mHPF_x1 channel
    + k.mHPF_b2 * k.mHPF_x2 channel
    - k.mHPF_a1 * k.mHPF_y1 channel - k.mHPF_a2 * k.mHPF_y2 channel
  (hpf,
   { k with
     mHPF_x2 := Function.update k.mHPF_x2 channel (k.mHPF_x1 channel)
     mHPF_x1 := Function.update k.mHPF_x1 channel input
     mHPF_y2 := Function.update k.mHPF_y2 channel (k.mHPF_y1 channel)
     mHPF_y1 := Function.update k.mHPF_y1 channel hpf })

/-! ## Bypass -/

/-- `isBypassed()`. -/
def isBypassed (k : Kernel E) : Bool := k.mBypassed

/-- `setBypass(shouldBypass)`. -/
def setBypass (k : Kernel E) (shouldBypass : Bool) : Kernel E :=
  { k with mBypassed := shouldBypass }

/-! ## Oversampling helpers -/

/-- `upsample4x(input, out, channel)`: the four values stored in `out[0..3]`
and the kernel with the new last sample of `channel`. -/
def upsample4x (k : Kernel E) (input : ℚ) (channel : Nat) : (ℚ × ℚ × ℚ × ℚ) × Kernel E :=
  let prev : ℚ := k.mLastSample channel
  ((prev + (input - prev) * (25 / 100),
    prev + (input - prev) * (50 / 100),
    prev + (input - prev) * (75 / 100),
    input),
   { k with mLastSample := Function.update k.mLastSample channel input })

/-- `downsample4x(sample1, sample2, sample3, sample4, channel)`. -/
def downsample4x (k : Kernel E) (sample1 sample2 sample3 sample4 : ℚ) (channel : Nat) :
    ℚ × Kernel E :=
  let downsampled : ℚ := (sample1 + sample2 + sample3 + sample4) * (25 / 100)
  let dcBlocked : ℚ :=
    downsampled - k.mDcBlockerZ1 channel + (995 / 1000) * k.mDcBlockerOutput channel
  (dcBlocked,
   { k with
     mDcBlockerZ1 := Function.update k.mDcBlockerZ1 channel downsampled
     mDcBlockerOutput := Function.update k.mDcBlockerOutput channel dcBlocked })

/-- `applyClipping(sample)`. -/
def applyClipping (k : Kernel E) (sample : ℚ) : ℚ :=
  let driveAmount0 : ℚ := (k.mTubeGain - 1) * (1 / 2)
  let driveAmount : ℚ := if driveAmount0 > 0 then driveAmount0 else 0
  let positiveThreshold : ℚ := 7 / 10 - driveAmount * (60 / 100)
  let negativeThreshold : ℚ := 8 / 10 - driveAmount * (60 / 100)
  if sample > positiveThreshold then positiveThreshold
  else if sample < -negativeThreshold then -negativeThreshold
  else sample

/-! ## Parameter getter / setter -/

/-- `setParameter(address, value)`: a `switch` over the six writable addresses
without a `default` label. -/
def setParameter (k : Kernel E) (address : Nat) (value : ℚ) : Kernel E :=
  if address = E.outputvolume then { k with mOutputVolume := value }
  else if address = tubegain then { k with mTubeGain := value }
  else if address = bypass then { k with mBypassed := decide (value ≥ 1 / 2) }
  else if address = neutraltube then { k with mNeutralTubeAmount := value }
  else if address = warmtube then { k with mWarmTubeAmount := value }
  else if address = aggressivetube then { k with mAggressiveTubeAmount := value }
  else k

/-- `getParameter(address)`: a `switch` over the seven addresses with
`default: return 0.f`. -/
def getParameter (k : Kernel E) (address : Nat) : ℚ :=
  if address = E.outputvolume then k.mOutputVolume
  else if address = tubegain then k.mTubeGain
  else if address = bypass then (if k.mBypassed then 1 else 0)
  else if address = neutraltube then k.mNeutralTubeAmount
  else if address = warmtube then k.mWarmTubeAmount
  else if address = aggressivetube then k.mAggressiveTubeAmount
  else if address = E.signallevel then k.mSignalLevel
  else 0

/-- `getSignalLevel()`. -/
def getSignalLevel (k : Kernel E) : ℚ := k.mSignalLevel

/-! ## Block processing -/

/-- The meter update at the end of the loop body of `process`: the new value of
`mSignalLevel` from the old one and the output sample. -/
def meterUpdate (level output : ℚ) : ℚ :=
  if |output| > level then |output| else level * (9995 / 10000)

/-- The neutral stage of the loop body of `process`: given `clipped`, the value
of `tubeProcessed` after the first `if` and the kernel after it. -/
def neutralStage (k : Kernel E) (clipped : ℚ) : ℚ × Kernel E :=
  if k.mNeutralTubeAmount > 0 then
    let r := E.neutralProcessSample k.mNeutralTube clipped
    (clipped + (r.1 - clipped) * k.mNeutralTubeAmount, { k with mNeutralTube := r.2 })
  else (clipped, k)

/-- The warm stage of the loop body of `process`. -/
def warmStage (k : Kernel E) (tubeProcessed : ℚ) : ℚ × Kernel E :=
  if k.mWarmTubeAmount > 0 then
    let r := E.warmProcessSample k.mWarmTube tubeProcessed
    (tubeProcessed + (r.1 - tubeProcessed) * k.mWarmTubeAmount, { k with mWarmTube := r.2 })
  else (tubeProcessed, k)

/-- The aggressive stage of the loop body of `process`. -/
def aggressiveStage (k : Kernel E) (tubeProcessed : ℚ) : ℚ × Kernel E :=
  if k.mAggressiveTubeAmount > 0 then
    let r := E.aggressiveProcessSample k.mAggressiveTube tubeProcessed
    (tubeProcessed + (r.1 - tubeProcessed) * k.mAggressiveTubeAmount,
     { k with mAggressiveTube := r.2 })
  else (tubeProcessed, k)

/-- The oversampled clipping chain of the loop body of `process`, from the
input sample to `clipped` (the result of `downsample4x`). -/
def clipStage (k : Kernel E) (channel : Nat) (input : ℚ) : ℚ × Kernel E :=
  let e := applyPreEQ k input channel
  let gained : ℚ := e.1 * e.2.mTubeGain
  let u := upsample4x e.2 gained channel
  let clipped1 := applyClipping u.2 u.1.1
  let clipped2 := applyClipping u.2 u.1.2.1
  let clipped3 := applyClipping u.2 u.1.2.2.1
  let clipped4 := applyClipping u.2 u.1.2.2.2
  downsample4x u.2 clipped1 clipped2 clipped3 clipped4 channel

/-- The body of the inner loop of `process` for one frame of one channel: the
sample stored in the output buffer and the kernel after the frame. -/
def processFrame (k : Kernel E) (channel : Nat) (input : ℚ) : ℚ × Kernel E :=
  let c := clipStage k channel input
  let n := neutralStage c.2 c.1
  let w := warmStage n.2 n.1
  let a := aggressiveStage w.2 w.1
  let makeupGain : ℚ := 25 / 10
  let output : ℚ := a.1 * makeupGain * a.2.mOutputVolume
  (output, { a.2 with mSignalLevel := meterUpdate a.2.mSignalLevel output })

/-- The inner loop of `process` over the samples of one channel, in frame
order: the samples written and the kernel after the last frame. -/
def processSamples (channel : Nat) : Kernel E → List ℚ → List ℚ × Kernel E
  | k, [] => ([], k)
  | k, input :: rest =>
    let r := processFrame k channel input
    let t := processSamples channel r.2 rest
    (r.1 :: t.1, t.2)

/-- The first `frameCount` samples of a buffer. -/
def readFrames (buffer : Nat → ℚ) (frameCount : Nat) : List ℚ :=
  (List.range frameCount).map buffer

/-- The outer loop of `process` from channel index `channel` on. -/
def processChannels (frameCount : Nat) : Kernel E → Nat → List (Nat → ℚ) → List (List ℚ) × Kernel E
  | k, _, [] => ([], k)
  | k, channel, buffer :: rest =>
    let r := processSamples channel k (readFrames buffer frameCount)
    let t := processChannels frameCount r.2 (channel + 1) rest
    (r.1 :: t.1, t.2)

/-- `process(inputBuffers, outputBuffers, bufferStartTime, frameCount)`: the
samples written to each output buffer and the kernel after the call.  The
output buffers are paired with the input buffers by index (the `assert` of the
source); `bufferStartTime` is not used by the source. -/
def process (k : Kernel E) (inputBuffers : List (Nat → ℚ)) (frameCount : Nat) :
    List (List ℚ) × Kernel E :=
  if k.mBypassed then
    (inputBuffers.map (fun buffer => readFrames buffer frameCount),
     { k with mSignalLevel := 0 })
  else processChannels frameCount k 0 inputBuffers

/-! ## Reference definitions written from the specification -/

/-- The drive amount of the spec: `driveAmount = max(0, (driveGain - 1.0) * 0.5)`. -/
def specDriveAmount (driveGain : ℚ) : ℚ := max 0 ((driveGain - 1) * (5 / 10))

/-- The positive threshold of the spec: `0.7 - 0.60*driveAmount`. -/
def specPositiveThreshold (driveGain : ℚ) : ℚ := 7 / 10 - (60 / 100) * specDriveAmount driveGain

/-- The negative threshold of the spec: `0.8 - 0.60*driveAmount`. -/
def specNegativeThreshold (driveGain : ℚ) : ℚ := 8 / 10 - (60 / 100) * specDriveAmount driveGain

/-- The reference clamp of the spec: values outside
`[-negThreshold, +posThreshold]` are clamped to the respective threshold and
values inside pass unchanged. -/
def specClip (driveGain x : ℚ) : ℚ :=
  if x > specPositiveThreshold driveGain then specPositiveThreshold driveGain
  else if x < -specNegativeThreshold driveGain then -specNegativeThreshold driveGain
  else x

/-- The signal path of the spec with the tube stages removed, for one frame
of one channel: `output = downsample4x(clip of the 4 upsampled values of
applyPreEQ(input) * tubeGain) * 2.5 * outputVolume`, metered like every
output sample.  No tube unit appears in it. -/
def specFrameNoTubes (k : Kernel E) (channel : Nat) (input : ℚ) : ℚ × Kernel E :=
  let e := applyPreEQ k input channel
  let u := upsample4x e.2 (e.1 * k.mTubeGain) channel
  let d := downsample4x u.2 (applyClipping k u.1.1) (applyClipping k u.1.2.1)
    (applyClipping k u.1.2.2.1) (applyClipping k u.1.2.2.2) channel
  let output : ℚ := d.1 * (25 / 10) * k.mOutputVolume
  (output, { d.2 with mSignalLevel := meterUpdate k.mSignalLevel output })

/-- The path without tube stages over the frames of one channel. -/
def specSamplesNoTubes (channel : Nat) : Kernel E → List ℚ → List ℚ × Kernel E
  | k, [] => ([], k)
  | k, input :: rest =>
    let r := specFrameNoTubes k channel input
    let t := specSamplesNoTubes channel r.2 rest
    (r.1 :: t.1, t.2)

/-- The path without tube stages over the channels from index `channel` on. -/
def specChannelsNoTubes (frameCount : Nat) :
    Kernel E → Nat → List (Nat → ℚ) → List (List ℚ) × Kernel E
  | k, _, [] => ([], k)
  | k, channel, buffer :: rest =>
    let r := specSamplesNoTubes channel k (readFrames buffer frameCount)
    let t := specChannelsNoTubes frameCount r.2 (channel + 1) rest
    (r.1 :: t.1, t.2)

/-- The path without tube stages over a whole block (bypass off). -/
def specProcessNoTubes (k : Kernel E) (inputBuffers : List (Nat → ℚ)) (frameCount : Nat) :
    List (List ℚ) × Kernel E :=
  specChannelsNoTubes frameCount k 0 inputBuffers

/-- A sequence of `setParameter(address, value)` calls applied in order. -/
def setParameters (k : Kernel E) (calls : List (Nat × ℚ)) : Kernel E :=
  calls.foldl (fun kernel call => setParameter kernel call.1 call.2) k

/-- The value of the most recent call in `calls` (a list of `(address, value)`
in call order) whose address is `address`, if there is one. -/
def lastValueSet (address : Nat) : List (Nat × ℚ) → Option ℚ
  | [] => none
  | call :: rest =>
    match lastValueSet address rest with
    | some value => some value
    | none => if call.1 = address then some call.2 else none

/-! ## Relations between kernel states -/

/-- The members that hold settings (parameters, coefficients, configuration)
are the same in both kernels. -/
def SameSettings (k k2 : Kernel E) : Prop :=
  k2.mMusicalContextBlock = k.mMusicalContextBlock ∧ k2.mSampleRate = k.mSampleRate ∧
  k2.mOutputVolume = k.mOutputVolume ∧ k2.mTubeGain = k.mTubeGain ∧
  k2.mBypassed = k.mBypassed ∧ k2.mMaxFramesToRender = k.mMaxFramesToRender ∧
  k2.mNeutralTubeAmount = k.mNeutralTubeAmount ∧ k2.mWarmTubeAmount = k.mWarmTubeAmount ∧
  k2.mAggressiveTubeAmount = k.mAggressiveTubeAmount ∧
  k2.mHPF_b0 = k.mHPF_b0 ∧ k2.mHPF_b1 = k.mHPF_b1 ∧ k2.mHPF_b2 = k.mHPF_b2 ∧
  k2.mHPF_a0 = k.mHPF_a0 ∧ k2.mHPF_a1 = k.mHPF_a1 ∧ k2.mHPF_a2 = k.mHPF_a2

/-- The per-channel history of channel `c` (pre-emphasis filter, upsampler and
DC blocker) is the same in both kernels. -/
def SameHistory (c : Nat) (k k2 : Kernel E) : Prop :=
  k2.mHPF_x1 c = k.mHPF_x1 c ∧ k2.mHPF_x2 c = k.mHPF_x2 c ∧
  k2.mHPF_y1 c = k.mHPF_y1 c ∧ k2.mHPF_y2 c = k.mHPF_y2 c ∧
  k2.mLastSample c = k.mLastSample c ∧
  k2.mDcBlockerZ1 c = k.mDcBlockerZ1 c ∧ k2.mDcBlockerOutput c = k.mDcBlockerOutput c

/-- The three tube units are in the same state in both kernels. -/
def SameTubes (k k2 : Kernel E) : Prop :=
  k2.mNeutralTube = k.mNeutralTube ∧ k2.mWarmTube = k.mWarmTube ∧
  k2.mAggressiveTube = k.mAggressiveTube

/-! ## Sequences of calls and reachable states -/

/-- Successive `applyPreEQ(input, channel)` calls on one channel, one for each
element of `inputs` in order: the returned samples and the kernel after the
last call. -/
def applyPreEQs (channel : Nat) : Kernel E → List ℚ → List ℚ × Kernel E
  | k, [] => ([], k)
  | k, input :: rest =>
    let r := applyPreEQ k input channel
    let t := applyPreEQs channel r.2 rest
    (r.1 :: t.1, t.2)

/-- Successive `process` calls, one for each `(inputBuffers, frameCount)` of
`calls` in order: the samples written by each call and the kernel after the
last call. -/
def processCalls : Kernel E → List (List (Nat → ℚ) × Nat) → List (List (List ℚ)) × Kernel E
  | k, [] => ([], k)
  | k, call :: rest =>
    let r := process k call.1 call.2
    let t := processCalls r.2 rest
    (r.1 :: t.1, t.2)

/-- The kernel states that arise from a freshly constructed kernel by calls of
`initialize`, `setBypass`, `setParameter` and `process`. -/
inductive Reachable : Kernel E → Prop
  | fresh (ctx : E.ContextBlock) (neutral : E.TubeSaturation) (warm : E.TaylorWarmTube)
      (aggressive : E.TaylorAggressiveTube) : Reachable (Kernel.fresh E ctx neutral warm aggressive)
  | initialized (k : Kernel E) (inputChannelCount outputChannelCount : Int) (sampleRate : ℚ) :
      Reachable k → Reachable (initializeKernel k inputChannelCount outputChannelCount sampleRate)
  | bypassSet (k : Kernel E) (shouldBypass : Bool) : Reachable k → Reachable (setBypass k shouldBypass)
  | parameterSet (k : Kernel E) (address : Nat) (value : ℚ) :
      Reachable k → Reachable (setParameter k address value)
  | processed (k : Kernel E) (inputBuffers : List (Nat → ℚ)) (frameCount : Nat) :
      Reachable k → Reachable (process k inputBuffers frameCount).2

/-- The end-to-end scenario of the spec up to the block: a freshly constructed
kernel, initialised at 44100 Hz with one channel, then tube gain 1.5, the three
tube amounts 0 and output volume 1.0. -/
def scenarioKernel (E : Env) (ctx : E.ContextBlock) (neutral : E.TubeSaturation)
    (warm : E.TaylorWarmTube) (aggressive : E.TaylorAggressiveTube) : Kernel E :=
  setParameters (initializeKernel (Kernel.fresh E ctx neutral warm aggressive) 1 1 44100)
    [(tubegain, 3 / 2), (neutraltube, 0), (warmtube, 0), (aggressivetube, 0),
      (E.outputvolume, 1)]

/-! ## Quantities used in the statements about the filters -/

/-- The blend of the spec for one tube unit and its mix amount:
`y = x + (unit.process(x) - x) * mixAmount`, the unit being "only invoked when
its mix amount is greater than zero".  The result is the blended sample and the
unit afterwards. -/
def specBlend {T : Type} (processSample : T → ℚ → ℚ × T) (mixAmount : ℚ) (unit : T) (x : ℚ) :
    ℚ × T :=
  if mixAmount > 0 then
    (x + ((processSample unit x).1 - x) * mixAmount, (processSample unit x).2)
  else (x, unit)

/-- The tube chain of the spec: the blends of the neutral, the warm and the
aggressive unit applied "sequentially in fixed order (neutral → warm →
aggressive)", each unit receiving the running signal of the previous stage.
The result is the final sample and the three units afterwards. -/
def specTubeChain (E : Env) (neutralMix warmMix aggressiveMix : ℚ)
    (neutral : E.TubeSaturation) (warm : E.TaylorWarmTube) (aggressive : E.TaylorAggressiveTube)
    (x : ℚ) : ℚ × E.TubeSaturation × E.TaylorWarmTube × E.TaylorAggressiveTube :=
  let n := specBlend E.neutralProcessSample neutralMix neutral x
  let w := specBlend E.warmProcessSample warmMix warm n.1
  let a := specBlend E.aggressiveProcessSample aggressiveMix aggressive w.1
  (a.1, n.2, w.2, a.2)

/-- A quadratic form in the two stored outputs `y1`, `y2` of the pre-emphasis
filter of channel `c`, with coefficients taken from `a1` and `a2`:
`(1 - a2^2) * (y1^2 + y2^2) + 2 * a1 * (1 - a2) * y1 * y2`. -/
def preEQEnergy (k : Kernel E) (c : Nat) : ℚ :=
  (1 - k.mHPF_a2 ^ 2) * (k.mHPF_y1 c ^ 2 + k.mHPF_y2 c ^ 2)
    + 2 * (k.mHPF_a1 * (1 - k.mHPF_a2)) * (k.mHPF_y1 c * k.mHPF_y2 c)

/-- The DC-blocker state of channel `c` is within bounds: the stored average
`mDcBlockerZ1[c]` is in `[-0.8, 0.7]` and
`mDcBlockerOutput[c] - mDcBlockerZ1[c]` is in `[-0.7, 0.8]`. -/
def DcBounded (k : Kernel E) (c : Nat) : Prop :=
  -(8 / 10) ≤ k.mDcBlockerZ1 c ∧ k.mDcBlockerZ1 c ≤ 7 / 10 ∧
  -(7 / 10) ≤ k.mDcBlockerOutput c - k.mDcBlockerZ1 c ∧
  k.mDcBlockerOutput c - k.mDcBlockerZ1 c ≤ 8 / 10

/-- The per-channel history of channel `c` is zero: the pre-emphasis filter
history `x1, x2, y1, y2`, the last upsampler sample and the DC-blocker `z1` and
output. -/
def ZeroHistory (k : Kernel E) (c : Nat) : Prop :=
  k.mHPF_x1 c = 0 ∧ k.mHPF_x2 c = 0 ∧ k.mHPF_y1 c = 0 ∧ k.mHPF_y2 c = 0 ∧
  k.mLastSample c = 0 ∧ k.mDcBlockerZ1 c = 0 ∧ k.mDcBlockerOutput c = 0

/-- The settings under which the output bound is stated: bypass off, tube gain
in `[0, 2]`, the three tube mix amounts 0 and output volume `≥ 0`. -/
def BoundSettings (k : Kernel E) : Prop :=
  k.mBypassed = false ∧ 0 ≤ k.mTubeGain ∧ k.mTubeGain ≤ 2 ∧
  k.mNeutralTubeAmount = 0 ∧ k.mWarmTubeAmount = 0 ∧ k.mAggressiveTubeAmount = 0 ∧
  0 ≤ k.mOutputVolume

/-- The settings of the end-to-end scenario, as far as the proof of its bound
uses them: bypass off, tube gain 1.5, the three mix amounts 0, output volume 1,
and pre-emphasis coefficients of a high-pass close to the identity
(`b1 = -2*b0`, `b2 = b0`, `0.9 ≤ b0 ≤ 1`, `0 ≤ a2 ≤ 1`, `1 - a2 ≤ 0.016` and
`1 + a2 - 0.001 ≤ -a1 ≤ 1 + a2`). -/
def ScenarioSettings (k : Kernel E) : Prop :=
  k.mBypassed = false ∧ k.mTubeGain = 3 / 2 ∧
  k.mNeutralTubeAmount = 0 ∧ k.mWarmTubeAmount = 0 ∧ k.mAggressiveTubeAmount = 0 ∧
  k.mOutputVolume = 1 ∧
  k.mHPF_b1 = -2 * k.mHPF_b0 ∧ k.mHPF_b2 = k.mHPF_b0 ∧
  9 / 10 ≤ k.mHPF_b0 ∧ k.mHPF_b0 ≤ 1 ∧
  0 ≤ k.mHPF_a2 ∧ k.mHPF_a2 ≤ 1 ∧ 1 - k.mHPF_a2 ≤ 16 / 1000 ∧
  1 + k.mHPF_a2 - 1 / 1000 ≤ -k.mHPF_a1 ∧ -k.mHPF_a1 ≤ 1 + k.mHPF_a2

/-- The state of channel 0 in the end-to-end scenario after `n ≥ 2` frames of
the constant input 1: both stored inputs are 1, the last filter output `y1` is
in `[0.9 - 0.03*n, 1]` and has dropped from the one before by at most
`0.02 + 0.001*n`, the last upsampler sample is at least the clip threshold
0.55, the stored average is 0.55 and the DC-blocker output is in `[0, 0.55]`. -/
def ScenarioState (n : Nat) (k : Kernel E) : Prop :=
  k.mHPF_x1 0 = 1 ∧ k.mHPF_x2 0 = 1 ∧
  k.mHPF_y1 0 ≤ 1 ∧ 9 / 10 - 3 / 100 * (n : ℚ) ≤ k.mHPF_y1 0 ∧
  -(2 / 100 + 1 / 1000 * (n : ℚ)) ≤ k.mHPF_y1 0 - k.mHPF_y2 0 ∧
  k.mHPF_y1 0 - k.mHPF_y2 0 ≤ 0 ∧
  11 / 20 ≤ k.mLastSample 0 ∧ k.mDcBlockerZ1 0 = 11 / 20 ∧
  0 ≤ k.mDcBlockerOutput 0 ∧ k.mDcBlockerOutput 0 ≤ 11 / 20

/-! ## The range of `float` -/

/-- The largest finite value of `float`, the macro `FLT_MAX` of `<float.h>`:
`(2 - 2^(-23)) * 2^127`. -/
def FLT_MAX : ℚ := 340282346638528859811704183484516925440

/-- The sum that `applyPreEQ(x, c)` computes stays in the range of `float`:
each of its five products has magnitude at most `FLT_MAX / 16`.  Then every
partial sum of the five has magnitude at most `5/16 * FLT_MAX`, and so has the
returned sample, and the sample times a tube gain in `[0, 2]` has magnitude at
most `5/8 * FLT_MAX`: in the source no infinity and no NaN arises on the way to
the clipper. -/
def PreEQInRange (k : Kernel E) (c : Nat) (x : ℚ) : Prop :=
  |k.mHPF_b0 * x| ≤ FLT_MAX / 16 ∧ |k.mHPF_b1 * k.mHPF_x1 c| ≤ FLT_MAX / 16 ∧
  |k.mHPF_b2 * k.mHPF_x2 c| ≤ FLT_MAX / 16 ∧ |k.mHPF_a1 * k.mHPF_y1 c| ≤ FLT_MAX / 16 ∧
  |k.mHPF_a2 * k.mHPF_y2 c| ≤ FLT_MAX / 16

/-- `PreEQInRange` holds at every frame of the loop of `process` over the
samples `inputs` of channel `c`, each frame taken in the state the frames
before it have left. -/
def SamplesInRange (c : Nat) : Kernel E → List ℚ → Prop
  | _, [] => True
  | k, x :: rest => PreEQInRange k c x ∧ SamplesInRange c (processFrame k c x).2 rest

/-- `PreEQInRange` holds at every frame of the channel-major loops of `process`
over the buffers `buffers`, the first of them being channel `c`. -/
def ChannelsInRange (frameCount : Nat) : Kernel E → Nat → List (Nat → ℚ) → Prop
  | _, _, [] => True
  | k, c, buffer :: rest =>
    SamplesInRange c k (readFrames buffer frameCount) ∧
    ChannelsInRange frameCount (processSamples c k (readFrames buffer frameCount)).2 (c + 1) rest

/-- `PreEQInRange` holds at every frame of every call of the sequence `calls`
of `process` calls, each call taken in the state the calls before it have
left. -/
def CallsInRange : Kernel E → List (List (Nat → ℚ) × Nat) → Prop
  | _, [] => True
  | k, call :: rest =>
    ChannelsInRange call.2 k 0 call.1 ∧ CallsInRange (process k call.1 call.2).2 rest

/-! ## A concrete environment -/

/-- Modelled from the spec: a tube unit, which the source files only use
through `processSample`.  The spec describes each unit as a stateful processor
"maintaining its own internal smoothing/saturation state"; this one keeps its
last output as state and moves it by the fraction `c` towards the input. -/
def smoothingTube (c : ℚ) (state x : ℚ) : ℚ × ℚ :=
  (state + (x - state) * c, state + (x - state) * c)

/-- A concrete environment: three smoothing tube units whose `setSampleRate`
keeps the state, the rational half-angle parametrisation of the circle for
`cos` and `sin`, and the addresses 5 and 6 for the two undeclared
enumerators. -/
def demoEnv : Env where
  TubeSaturation := ℚ
  TaylorWarmTube := ℚ
  TaylorAggressiveTube := ℚ
  ContextBlock := Unit
  neutralProcessSample := smoothingTube (1 / 2)
  warmProcessSample := smoothingTube (1 / 4)
  aggressiveProcessSample := smoothingTube (3 / 4)
  neutralSetSampleRate := fun state _ => state
  warmSetSampleRate := fun state _ => state
  aggressiveSetSampleRate := fun state _ => state
  cos := fun x => (1 - (x / 2) ^ 2) / (1 + (x / 2) ^ 2)
  sin := fun x => (2 * (x / 2)) / (1 + (x / 2) ^ 2)
  outputvolume := 5
  signallevel := 6
  labels_nodup := by decide

/-- A freshly constructed kernel over `demoEnv`, the tube units at rest. -/
def demoKernel : Kernel demoEnv := Kernel.fresh demoEnv () (0 : ℚ) (0 : ℚ) (0 : ℚ)

/-- The buffer that holds the samples of `samples` (and zeros after them). -/
def bufferOf (samples : List ℚ) : Nat → ℚ := fun i => samples.getD i 0

/-- A fresh kernel whose pre-emphasis filter passes the input through
(`b0 = 1`, the other coefficients 0). -/
def passKernel : Kernel demoEnv := { demoKernel with mHPF_b0 := 1 }

/-- The kernel `passKernel` with the neutral tube fully mixed in. -/
def neutralKernel : Kernel demoEnv := { passKernel with mNeutralTubeAmount := 1 }

/-- The kernel `passKernel` with another history of channel 0 and another
meter value. -/
def passKernel2 : Kernel demoEnv :=
  { passKernel with
    mLastSample := fun channel => if channel = 0 then 1 / 2 else 0
    mDcBlockerZ1 := fun channel => if channel = 0 then 1 / 4 else 0
    mSignalLevel := 3 }

/-- A kernel whose pre-emphasis history of every channel is settled on the
constant input 3: `x1 = x2 = 3` and `y1 = y2 = 0`. -/
def settledKernel : Kernel demoEnv :=
  { demoKernel with mHPF_x1 := fun _ => 3, mHPF_x2 := fun _ => 3 }

/-! ## The case labels -/

/-- The two undeclared enumerators differ from the five declared ones and from
each other. -/
theorem Env.labels_ne (E : Env) :
    E.outputvolume ≠ 0 ∧ E.outputvolume ≠ 1 ∧ E.outputvolume ≠ 2 ∧ E.outputvolume ≠ 3 ∧
    E.outputvolume ≠ 4 ∧ E.outputvolume ≠ E.signallevel ∧
    E.signallevel ≠ 0 ∧ E.signallevel ≠ 1 ∧ E.signallevel ≠ 2 ∧ E.signallevel ≠ 3 ∧
    E.signallevel ≠ 4 := by
  have h := E.labels_nodup
  simp only [tubegain, bypass, neutraltube, warmtube, aggressivetube, List.nodup_cons,
    List.mem_cons, List.mem_singleton, List.not_mem_nil, not_or] at h
  omega

/-! ## Bypass (C1) -/

/-- C1: when bypass is on, `process` stores in every output channel exactly the
first `frameCount` samples of the input channel of the same index, for every
number of channels, every frame count and every input, and the signal level
is 0 after the call whatever it was before (the rest of the kernel is
untouched). -/
theorem process_bypassed_copies (k : Kernel E) (inputBuffers : List (Nat → ℚ))
    (frameCount : Nat) (hb : isBypassed k = true) :
    (process k inputBuffers frameCount).1.length = inputBuffers.length ∧
    (∀ (channel : Nat) (buffer : Nat → ℚ), inputBuffers[channel]? = some buffer →
      ∃ out : List ℚ, (process k inputBuffers frameCount).1[channel]? = some out ∧
        out.length = frameCount ∧ ∀ i, i < frameCount → out[i]? = some (buffer i)) ∧
    getSignalLevel (process k inputBuffers frameCount).2 = 0 ∧
    getParameter (process k inputBuffers frameCount).2 E.signallevel = 0 ∧
    (process k inputBuffers frameCount).2 = { k with mSignalLevel := 0 } := by
  have hb2 : k.mBypassed = true := hb
  obtain ⟨-, -, -, -, -, h5, g0, g1, g2, g3, g4⟩ := E.labels_ne
  refine ⟨?_, ?_, ?_, ?_, ?_⟩
  · simp [process, hb2]
  · intro channel buffer hbuf
    refine ⟨readFrames buffer frameCount, ?_, ?_, ?_⟩
    · simp [process, hb2, hbuf]
    · simp [readFrames]
    · intro i hi
      simp [readFrames, List.getElem?_range hi, hi]
  · simp [process, hb2, getSignalLevel]
  · simp [process, hb2, getParameter, tubegain, bypass, neutraltube, warmtube, aggressivetube,
      Ne.symm h5, g0, g1, g2, g3, g4]
  · simp [process, hb2]

/-- Witness of `process_bypassed_copies`: a bypassed kernel whose meter reads
3, two channels, two frames. -/
theorem process_bypassed_copies_witness :
    isBypassed (setBypass { demoKernel with mSignalLevel := 3 } true) = true ∧
    ((process (setBypass { demoKernel with mSignalLevel := 3 } true)
        [bufferOf [1, 2, 3], bufferOf [4, 5, 6]] 2).1.length = 2 ∧
     (∀ (channel : Nat) (buffer : Nat → ℚ), [bufferOf [1, 2, 3], bufferOf [4, 5, 6]][channel]? = some buffer →
      ∃ out : List ℚ, (process (setBypass { demoKernel with mSignalLevel := 3 } true)
          [bufferOf [1, 2, 3], bufferOf [4, 5, 6]] 2).1[channel]? = some out ∧
        out.length = 2 ∧ ∀ i, i < 2 → out[i]? = some (buffer i)) ∧
     getSignalLevel (process (setBypass { demoKernel with mSignalLevel := 3 } true)
        [bufferOf [1, 2, 3], bufferOf [4, 5, 6]] 2).2 = 0 ∧
     getParameter (process (setBypass { demoKernel with mSignalLevel := 3 } true)
        [bufferOf [1, 2, 3], bufferOf [4, 5, 6]] 2).2 demoEnv.signallevel = 0 ∧
     (process (setBypass { demoKernel with mSignalLevel := 3 } true)
        [bufferOf [1, 2, 3], bufferOf [4, 5, 6]] 2).2 =
       { setBypass { demoKernel with mSignalLevel := 3 } true with mSignalLevel := 0 }) :=
  ⟨rfl, process_bypassed_copies _ _ 2 rfl⟩

/-! ## The clipper (C2, C3) -/

/-- The clipper at tube gain 1.0, thresholds evaluated. -/
theorem applyClipping_gain_one (k : Kernel E) (x : ℚ) (h : k.mTubeGain = 1) :
    applyClipping k x = if 7 / 10 < x then 7 / 10 else if x < -(4 / 5) then -(4 / 5) else x := by
  simp only [applyClipping, h]
  norm_num

/-- The clipper at tube gain 2.0, thresholds evaluated. -/
theorem applyClipping_gain_two (k : Kernel E) (x : ℚ) (h : k.mTubeGain = 2) :
    applyClipping k x = if 2 / 5 < x then 2 / 5 else if x < -(1 / 2) then -(1 / 2) else x := by
  simp only [applyClipping, h]
  norm_num

/-- C2: with tube gain 1.0, `applyClipping x` is `x` for `-0.8 < x < 0.7`,
exactly `0.7` for `x ≥ 0.7` and exactly `-0.8` for `x ≤ -0.8`; with tube gain
2.0 the same holds with the thresholds `0.4` and `-0.5`. -/
theorem applyClipping_thresholds (k1 k2 : Kernel E) (x : ℚ)
    (h1 : k1.mTubeGain = 1) (h2 : k2.mTubeGain = 2) :
    ((-(8 / 10) < x ∧ x < 7 / 10 → applyClipping k1 x = x) ∧
     (x ≥ 7 / 10 → applyClipping k1 x = 7 / 10) ∧
     (x ≤ -(8 / 10) → applyClipping k1 x = -(8 / 10))) ∧
    ((-(5 / 10) < x ∧ x < 4 / 10 → applyClipping k2 x = x) ∧
     (x ≥ 4 / 10 → applyClipping k2 x = 4 / 10) ∧
     (x ≤ -(5 / 10) → applyClipping k2 x = -(5 / 10))) := by
  rw [applyClipping_gain_one k1 x h1, applyClipping_gain_two k2 x h2]
  refine ⟨⟨?_, ?_, ?_⟩, ⟨?_, ?_, ?_⟩⟩
  · rintro ⟨hlo, hhi⟩
    split_ifs <;> linarith
  · intro hx
    split_ifs <;> linarith
  · intro hx
    split_ifs <;> linarith
  · rintro ⟨hlo, hhi⟩
    split_ifs <;> linarith
  · intro hx
    split_ifs <;> linarith
  · intro hx
    split_ifs <;> linarith

/-- Witness of `applyClipping_thresholds`: the fresh kernel (tube gain 1.0), the
kernel after `setParameter(tubegain, 2.0)`, and the sample 0.6, which passes at
gain 1.0 and is clamped to 0.4 at gain 2.0. -/
theorem applyClipping_thresholds_witness :
    demoKernel.mTubeGain = 1 ∧ (setParameter demoKernel tubegain 2).mTubeGain = 2 ∧
    (-(8 / 10) < (6 / 10 : ℚ) ∧ (6 / 10 : ℚ) < 7 / 10) ∧ (6 / 10 : ℚ) ≥ 4 / 10 ∧
    applyClipping demoKernel (6 / 10) = 6 / 10 ∧
    applyClipping (setParameter demoKernel tubegain 2) (6 / 10) = 4 / 10 :=
  have h2 : (setParameter demoKernel tubegain 2).mTubeGain = 2 := by
    simp [setParameter, tubegain, demoEnv]
  have hr : -(8 / 10) < (6 / 10 : ℚ) ∧ (6 / 10 : ℚ) < 7 / 10 := by norm_num
  have hg : (6 / 10 : ℚ) ≥ 4 / 10 := by norm_num
  ⟨rfl, h2, hr, hg,
    (applyClipping_thresholds demoKernel (setParameter demoKernel tubegain 2) (6 / 10) rfl h2).1.1 hr,
    (applyClipping_thresholds demoKernel (setParameter demoKernel tubegain 2) (6 / 10) rfl h2).2.2.1 hg⟩

/-- The clipper is the reference clamp of the spec at the current tube gain. -/
theorem applyClipping_specClip (k : Kernel E) (x : ℚ) :
    applyClipping k x = specClip k.mTubeGain x := by
  have hd : (if (k.mTubeGain - 1) * (1 / 2) > 0 then (k.mTubeGain - 1) * (1 / 2) else 0)
      = specDriveAmount k.mTubeGain := by
    unfold specDriveAmount
    rw [max_def]
    split_ifs <;> linarith
  simp only [applyClipping, specClip, specPositiveThreshold, specNegativeThreshold, hd]
  have e1 : (7 / 10 : ℚ) - specDriveAmount k.mTubeGain * (60 / 100)
      = 7 / 10 - 60 / 100 * specDriveAmount k.mTubeGain := by ring
  have e2 : (8 / 10 : ℚ) - specDriveAmount k.mTubeGain * (60 / 100)
      = 8 / 10 - 60 / 100 * specDriveAmount k.mTubeGain := by ring
  rw [e1, e2]

/-- For a drive gain in `[0, 2]` the reference clamp lies between the two
thresholds. -/
theorem specClip_range (g x : ℚ) (hg0 : 0 ≤ g) (hg2 : g ≤ 2) :
    -specNegativeThreshold g ≤ specClip g x ∧ specClip g x ≤ specPositiveThreshold g := by
  have _h0 : 0 ≤ g := hg0
  have hd0 : 0 ≤ specDriveAmount g := le_max_left _ _
  have hd1 : specDriveAmount g ≤ 1 / 2 := by
    unfold specDriveAmount
    apply max_le <;> linarith
  simp only [specClip, specPositiveThreshold, specNegativeThreshold]
  split_ifs <;> constructor <;> linarith

/-- C3: for every tube gain and sample, `applyClipping` is the reference clamp
of the spec; every gain `≤ 1.0` clips exactly as gain `1.0` does; and for a
gain in `[0, 2]` the result lies in `[-negThreshold, posThreshold]`. -/
theorem applyClipping_eq_specClip (k : Kernel E) (x : ℚ) :
    applyClipping k x = specClip k.mTubeGain x ∧
    (k.mTubeGain ≤ 1 → applyClipping k x = applyClipping { k with mTubeGain := 1 } x) ∧
    (0 ≤ k.mTubeGain ∧ k.mTubeGain ≤ 2 →
      -specNegativeThreshold k.mTubeGain ≤ applyClipping k x ∧
      applyClipping k x ≤ specPositiveThreshold k.mTubeGain) := by
  have hspec : applyClipping k x = specClip k.mTubeGain x := applyClipping_specClip k x
  refine ⟨hspec, ?_, ?_⟩
  · intro hg
    have h0 : specDriveAmount k.mTubeGain = 0 := by
      unfold specDriveAmount
      rw [max_def]
      split_ifs <;> linarith
    rw [hspec, applyClipping_gain_one { k with mTubeGain := 1 } x rfl]
    simp only [specClip, specPositiveThreshold, specNegativeThreshold, h0]
    norm_num
  · rintro ⟨hg0, hg2⟩
    rw [hspec]
    exact specClip_range k.mTubeGain x hg0 hg2

/-- Witness of `applyClipping_eq_specClip`: tube gain 0.5 and the sample 0.9. -/
theorem applyClipping_eq_specClip_witness :
    (setParameter demoKernel tubegain (1 / 2)).mTubeGain ≤ 1 ∧
    (0 ≤ (setParameter demoKernel tubegain (1 / 2)).mTubeGain ∧
      (setParameter demoKernel tubegain (1 / 2)).mTubeGain ≤ 2) ∧
    applyClipping (setParameter demoKernel tubegain (1 / 2)) (9 / 10)
      = specClip (setParameter demoKernel tubegain (1 / 2)).mTubeGain (9 / 10) ∧
    applyClipping (setParameter demoKernel tubegain (1 / 2)) (9 / 10)
      = applyClipping { setParameter demoKernel tubegain (1 / 2) with mTubeGain := 1 } (9 / 10) ∧
    (-specNegativeThreshold (setParameter demoKernel tubegain (1 / 2)).mTubeGain
        ≤ applyClipping (setParameter demoKernel tubegain (1 / 2)) (9 / 10) ∧
      applyClipping (setParameter demoKernel tubegain (1 / 2)) (9 / 10)
        ≤ specPositiveThreshold (setParameter demoKernel tubegain (1 / 2)).mTubeGain) :=
  have hg : (setParameter demoKernel tubegain (1 / 2)).mTubeGain = 1 / 2 := by
    simp [setParameter, tubegain, demoEnv]
  have h1 : (setParameter demoKernel tubegain (1 / 2)).mTubeGain ≤ 1 := by
    rw [hg]; norm_num
  have h2 : 0 ≤ (setParameter demoKernel tubegain (1 / 2)).mTubeGain ∧
      (setParameter demoKernel tubegain (1 / 2)).mTubeGain ≤ 2 := by
    rw [hg]; norm_num
  ⟨h1, h2,
    (applyClipping_eq_specClip (setParameter demoKernel tubegain (1 / 2)) (9 / 10)).1,
    (applyClipping_eq_specClip (setParameter demoKernel tubegain (1 / 2)) (9 / 10)).2.1 h1,
    (applyClipping_eq_specClip (setParameter demoKernel tubegain (1 / 2)) (9 / 10)).2.2 h2⟩

/-! ## Parameters (C4, C5, C6) -/

/-- Reading a continuous parameter after one `setParameter` call. -/
theorem getParameter_setParameter (k : Kernel E) (a b : Nat) (v : ℚ)
    (ha : a ∈ [E.outputvolume, tubegain, neutraltube, warmtube, aggressivetube]) :
    getParameter (setParameter k b v) a = if b = a then v else getParameter k a := by
  obtain ⟨h0, h1, h2, h3, h4, -⟩ := E.labels_ne
  simp only [List.mem_cons, List.mem_singleton, List.not_mem_nil, or_false] at ha
  simp only [tubegain, bypass, neutraltube, warmtube, aggressivetube] at ha ⊢
  by_cases hb : b = a
  · subst hb
    rcases ha with ha | ha | ha | ha | ha
    · simp [setParameter, getParameter, ha]
    all_goals
      subst ha
      simp [setParameter, getParameter, Ne.symm h0, Ne.symm h2, Ne.symm h3, Ne.symm h4,
        tubegain, bypass, neutraltube, warmtube, aggressivetube]
  · rw [if_neg hb]
    rcases ha with ha | ha | ha | ha | ha
    · rw [ha] at hb
      unfold setParameter
      simp only [tubegain, bypass, neutraltube, warmtube, aggressivetube]
      split_ifs <;> simp_all [getParameter]
    all_goals
      subst ha
      unfold setParameter
      simp only [tubegain, bypass, neutraltube, warmtube, aggressivetube]
      split_ifs <;>
        simp_all [getParameter, Ne.symm h0, Ne.symm h2, Ne.symm h3, Ne.symm h4,
          tubegain, bypass, neutraltube, warmtube, aggressivetube]

/-- Reading a continuous parameter after a sequence of `setParameter` calls. -/
theorem getParameter_setParameters (calls : List (Nat × ℚ)) (k : Kernel E) (a : Nat)
    (ha : a ∈ [E.outputvolume, tubegain, neutraltube, warmtube, aggressivetube]) :
    getParameter (setParameters k calls) a = (lastValueSet a calls).getD (getParameter k a) := by
  induction calls generalizing k with
  | nil => rfl
  | cons call rest ih =>
    have hstep : setParameters k (call :: rest) = setParameters (setParameter k call.1 call.2) rest :=
      rfl
    have hcons : lastValueSet a (call :: rest) =
        (match lastValueSet a rest with
         | some value => some value
         | none => if call.1 = a then some call.2 else none) := rfl
    rw [hstep, ih, getParameter_setParameter k a call.1 call.2 ha, hcons]
    cases lastValueSet a rest with
    | some w => rfl
    | none =>
      by_cases hc : call.1 = a
      · simp [hc]
      · simp [hc]

/-- C4: after any sequence of `setParameter` calls, `getParameter` of
`outputvolume`, `tubegain`, `neutraltube`, `warmtube` or `aggressivetube`
returns exactly the value of the most recent call for that address, whatever
was set for other addresses, and the value it had before the sequence if the
address was never set; on a freshly constructed kernel these are the default
member initialisers 1, 1, 0, 0 and 0. -/
theorem getParameter_reads_last_set (k : Kernel E) (calls : List (Nat × ℚ)) (a : Nat)
    (ha : a ∈ [E.outputvolume, tubegain, neutraltube, warmtube, aggressivetube]) :
    (∀ v, lastValueSet a calls = some v → getParameter (setParameters k calls) a = v) ∧
    (lastValueSet a calls = none → getParameter (setParameters k calls) a = getParameter k a) ∧
    (∀ (ctx : E.ContextBlock) (n : E.TubeSaturation) (w : E.TaylorWarmTube)
        (g : E.TaylorAggressiveTube),
      getParameter (Kernel.fresh E ctx n w g) E.outputvolume = 1 ∧
      getParameter (Kernel.fresh E ctx n w g) tubegain = 1 ∧
      getParameter (Kernel.fresh E ctx n w g) neutraltube = 0 ∧
      getParameter (Kernel.fresh E ctx n w g) warmtube = 0 ∧
      getParameter (Kernel.fresh E ctx n w g) aggressivetube = 0) := by
  obtain ⟨h0, h1, h2, h3, h4, -⟩ := E.labels_ne
  refine ⟨?_, ?_, ?_⟩
  · intro v hv
    rw [getParameter_setParameters calls k a ha, hv]
    rfl
  · intro hv
    rw [getParameter_setParameters calls k a ha, hv]
    rfl
  · intro ctx n w g
    simp [getParameter, Kernel.fresh, tubegain, bypass, neutraltube, warmtube, aggressivetube,
      Ne.symm h0, Ne.symm h2, Ne.symm h3, Ne.symm h4]

/-- Witness of `getParameter_reads_last_set`: tube gain is set twice with sets
of other parameters in between and after; the last value set for it is read
back. -/
theorem getParameter_reads_last_set_witness :
    tubegain ∈ [demoEnv.outputvolume, tubegain, neutraltube, warmtube, aggressivetube] ∧
    lastValueSet tubegain [(tubegain, 3 / 2), (warmtube, 1 / 4), (tubegain, 7 / 4), (bypass, 1),
      (5, 2)] = some (7 / 4) ∧
    getParameter (setParameters demoKernel [(tubegain, 3 / 2), (warmtube, 1 / 4),
      (tubegain, 7 / 4), (bypass, 1), (5, 2)]) tubegain = 7 / 4 :=
  have ha : tubegain ∈ [demoEnv.outputvolume, tubegain, neutraltube, warmtube, aggressivetube] := by
    simp
  have hl : lastValueSet tubegain [(tubegain, 3 / 2), (warmtube, 1 / 4), (tubegain, 7 / 4),
      (bypass, 1), (5, 2)] = some (7 / 4) := by
    simp [lastValueSet, tubegain, warmtube, bypass]
  ⟨ha, hl, (getParameter_reads_last_set demoKernel _ tubegain ha).1 (7 / 4) hl⟩

/-- C5: `setBypass(b)` and `setParameter(bypass, b ? 1.0 : 0.0)` give the same
kernel; after either, `isBypassed()` is `b` and `getParameter(bypass)` is 1.0
if `b` and 0.0 otherwise; and `setParameter(bypass, v)` turns bypass on exactly
when `v ≥ 0.5`. -/
theorem setBypass_eq_setParameter_bypass (k : Kernel E) (b : Bool) (v : ℚ) :
    setParameter k bypass (if b then 1 else 0) = setBypass k b ∧
    isBypassed (setBypass k b) = b ∧
    getParameter (setBypass k b) bypass = (if b then 1 else 0) ∧
    isBypassed (setParameter k bypass (if b then 1 else 0)) = b ∧
    getParameter (setParameter k bypass (if b then 1 else 0)) bypass = (if b then 1 else 0) ∧
    (isBypassed (setParameter k bypass v) = true ↔ v ≥ 1 / 2) := by
  obtain ⟨h0, h1, h2, h3, h4, -⟩ := E.labels_ne
  have hset : ∀ u : ℚ, setParameter k bypass u = { k with mBypassed := decide (u ≥ 1 / 2) } := by
    intro u
    simp [setParameter, tubegain, bypass, Ne.symm h1]
  have hget : ∀ k0 : Kernel E, getParameter k0 bypass = if k0.mBypassed then 1 else 0 := by
    intro k0
    simp [getParameter, tubegain, bypass, Ne.symm h1]
  have hb : setParameter k bypass (if b then 1 else 0) = setBypass k b := by
    rw [hset]
    cases b
    · simp only [setBypass]
      norm_num
    · simp only [setBypass]
      norm_num
  refine ⟨hb, rfl, ?_, ?_, ?_, ?_⟩
  · rw [hget]; rfl
  · rw [hb]; rfl
  · rw [hb, hget]; rfl
  · rw [hset]
    simp [isBypassed]

/-- C6: a `setParameter` call whose address is `signallevel`, or any address
that is not one of the six writable parameters, leaves the whole kernel
unchanged, hence every `getParameter` result and the signal level. -/
theorem setParameter_ignored (k : Kernel E) (a : Nat) (v : ℚ)
    (ha : a = E.signallevel ∨
      a ∉ [E.outputvolume, tubegain, bypass, neutraltube, warmtube, aggressivetube]) :
    setParameter k a v = k ∧
    (∀ a2, getParameter (setParameter k a v) a2 = getParameter k a2) ∧
    getSignalLevel (setParameter k a v) = getSignalLevel k := by
  obtain ⟨-, -, -, -, -, h5, g0, g1, g2, g3, g4⟩ := E.labels_ne
  have hk : setParameter k a v = k := by
    rcases ha with ha | ha
    · subst ha
      simp [setParameter, tubegain, bypass, neutraltube, warmtube, aggressivetube, Ne.symm h5,
        g0, g1, g2, g3, g4]
    · simp only [List.mem_cons, List.mem_singleton, List.not_mem_nil, or_false, not_or] at ha
      obtain ⟨a0, a1, a2, a3, a4, a5⟩ := ha
      simp [setParameter, a0, a1, a2, a3, a4, a5]
  refine ⟨hk, ?_, ?_⟩
  · intro a2
    rw [hk]
  · rw [hk]

/-- Witness of `setParameter_ignored`: a write to `signallevel` (address 6 in
`demoEnv`). -/
theorem setParameter_ignored_witness :
    ((6 : Nat) = demoEnv.signallevel ∨
      (6 : Nat) ∉ [demoEnv.outputvolume, tubegain, bypass, neutraltube, warmtube,
        aggressivetube]) ∧
    setParameter demoKernel 6 (3 / 4) = demoKernel ∧
    (∀ a2, getParameter (setParameter demoKernel 6 (3 / 4)) a2 = getParameter demoKernel a2) ∧
    getSignalLevel (setParameter demoKernel 6 (3 / 4)) = getSignalLevel demoKernel :=
  ⟨Or.inl rfl, setParameter_ignored demoKernel 6 (3 / 4) (Or.inl rfl)⟩

/-! ## Which members the loop body changes -/

theorem SameSettings.refl_settings (k : Kernel E) : SameSettings k k :=
  ⟨rfl, rfl, rfl, rfl, rfl, rfl, rfl, rfl, rfl, rfl, rfl, rfl, rfl, rfl, rfl⟩

theorem SameSettings.trans_settings {k1 k2 k3 : Kernel E} (h12 : SameSettings k1 k2)
    (h23 : SameSettings k2 k3) : SameSettings k1 k3 := by
  unfold SameSettings at *
  simp_all

theorem clipStage_sameSettings (k : Kernel E) (c : Nat) (x : ℚ) :
    SameSettings k (clipStage k c x).2 := by
  simp only [SameSettings, clipStage, applyPreEQ, upsample4x, downsample4x, and_self]

theorem neutralStage_sameSettings (k : Kernel E) (s : ℚ) :
    SameSettings k (neutralStage k s).2 := by
  unfold neutralStage
  split_ifs
  · exact ⟨rfl, rfl, rfl, rfl, rfl, rfl, rfl, rfl, rfl, rfl, rfl, rfl, rfl, rfl, rfl⟩
  · exact SameSettings.refl_settings k

theorem warmStage_sameSettings (k : Kernel E) (s : ℚ) :
    SameSettings k (warmStage k s).2 := by
  unfold warmStage
  split_ifs
  · exact ⟨rfl, rfl, rfl, rfl, rfl, rfl, rfl, rfl, rfl, rfl, rfl, rfl, rfl, rfl, rfl⟩
  · exact SameSettings.refl_settings k

theorem aggressiveStage_sameSettings (k : Kernel E) (s : ℚ) :
    SameSettings k (aggressiveStage k s).2 := by
  unfold aggressiveStage
  split_ifs
  · exact ⟨rfl, rfl, rfl, rfl, rfl, rfl, rfl, rfl, rfl, rfl, rfl, rfl, rfl, rfl, rfl⟩
  · exact SameSettings.refl_settings k

theorem processFrame_sameSettings (k : Kernel E) (c : Nat) (x : ℚ) :
    SameSettings k (processFrame k c x).2 := by
  have h1 := clipStage_sameSettings k c x
  have h2 := neutralStage_sameSettings (clipStage k c x).2 (clipStage k c x).1
  have h3 := warmStage_sameSettings (neutralStage (clipStage k c x).2 (clipStage k c x).1).2
    (neutralStage (clipStage k c x).2 (clipStage k c x).1).1
  have h4 := aggressiveStage_sameSettings
    (warmStage (neutralStage (clipStage k c x).2 (clipStage k c x).1).2
      (neutralStage (clipStage k c x).2 (clipStage k c x).1).1).2
    (warmStage (neutralStage (clipStage k c x).2 (clipStage k c x).1).2
      (neutralStage (clipStage k c x).2 (clipStage k c x).1).1).1
  exact ((h1.trans_settings h2).trans_settings h3).trans_settings h4

theorem processSamples_sameSettings (c : Nat) (inputs : List ℚ) (k : Kernel E) :
    SameSettings k (processSamples c k inputs).2 := by
  induction inputs generalizing k with
  | nil => exact SameSettings.refl_settings k
  | cons x rest ih => exact (processFrame_sameSettings k c x).trans_settings (ih (processFrame k c x).2)

theorem processChannels_sameSettings (frameCount : Nat) (buffers : List (Nat → ℚ))
    (k : Kernel E) (c : Nat) :
    SameSettings k (processChannels frameCount k c buffers).2 := by
  induction buffers generalizing k c with
  | nil => exact SameSettings.refl_settings k
  | cons b rest ih =>
    exact (processSamples_sameSettings c (readFrames b frameCount) k).trans_settings
      (ih (processSamples c k (readFrames b frameCount)).2 (c + 1))

/-! ## The meter (C7) -/

theorem neutralStage_signalLevel (k : Kernel E) (s : ℚ) :
    (neutralStage k s).2.mSignalLevel = k.mSignalLevel := by
  unfold neutralStage
  split_ifs <;> rfl

theorem warmStage_signalLevel (k : Kernel E) (s : ℚ) :
    (warmStage k s).2.mSignalLevel = k.mSignalLevel := by
  unfold warmStage
  split_ifs <;> rfl

theorem aggressiveStage_signalLevel (k : Kernel E) (s : ℚ) :
    (aggressiveStage k s).2.mSignalLevel = k.mSignalLevel := by
  unfold aggressiveStage
  split_ifs <;> rfl

/-- The loop body meters the sample it has just written. -/
theorem processFrame_signalLevel (k : Kernel E) (c : Nat) (x : ℚ) :
    (processFrame k c x).2.mSignalLevel = meterUpdate k.mSignalLevel (processFrame k c x).1 := by
  have h : (aggressiveStage
      (warmStage (neutralStage (clipStage k c x).2 (clipStage k c x).1).2
        (neutralStage (clipStage k c x).2 (clipStage k c x).1).1).2
      (warmStage (neutralStage (clipStage k c x).2 (clipStage k c x).1).2
        (neutralStage (clipStage k c x).2 (clipStage k c x).1).1).1).2.mSignalLevel
      = k.mSignalLevel := by
    rw [aggressiveStage_signalLevel, warmStage_signalLevel, neutralStage_signalLevel]
    rfl
  show meterUpdate _ _ = _
  rw [h]
  rfl

theorem meterUpdate_zero (level : ℚ) (h : 0 ≤ level) :
    meterUpdate level 0 = level * (9995 / 10000) := by
  unfold meterUpdate
  rw [abs_zero, if_neg (not_lt.mpr h)]

theorem decay_pow_nonneg (level : ℚ) (h : 0 ≤ level) (n : Nat) :
    0 ≤ level * (9995 / 10000) ^ n :=
  mul_nonneg h (pow_nonneg (by norm_num) n)

/-- The inner loop over silent output samples multiplies the level by 0.9995
once per sample. -/
theorem processSamples_silent_level (c : Nat) (inputs : List ℚ) (k : Kernel E)
    (h0 : 0 ≤ k.mSignalLevel) (hs : ∀ o ∈ (processSamples c k inputs).1, o = 0) :
    (processSamples c k inputs).2.mSignalLevel
      = k.mSignalLevel * (9995 / 10000) ^ inputs.length := by
  induction inputs generalizing k with
  | nil => simp [processSamples]
  | cons x rest ih =>
    have hx : (processFrame k c x).1 = 0 := hs _ (List.mem_cons_self _ _)
    have hrest : ∀ o ∈ (processSamples c (processFrame k c x).2 rest).1, o = 0 :=
      fun o ho => hs o (List.mem_cons_of_mem _ ho)
    have hl : (processFrame k c x).2.mSignalLevel = k.mSignalLevel * (9995 / 10000) := by
      rw [processFrame_signalLevel, hx, meterUpdate_zero _ h0]
    have h1 : 0 ≤ (processFrame k c x).2.mSignalLevel := by
      rw [hl]
      exact mul_nonneg h0 (by norm_num)
    have hstep : (processSamples c k (x :: rest)).2
        = (processSamples c (processFrame k c x).2 rest).2 := rfl
    rw [hstep, ih (processFrame k c x).2 h1 hrest, hl, List.length_cons, pow_succ]
    ring

/-- The outer loop over silent output samples multiplies the level by 0.9995
once per sample of every channel. -/
theorem processChannels_silent_level (frameCount : Nat) (buffers : List (Nat → ℚ))
    (k : Kernel E) (c : Nat) (h0 : 0 ≤ k.mSignalLevel)
    (hs : ∀ out ∈ (processChannels frameCount k c buffers).1, ∀ o ∈ out, o = 0) :
    (processChannels frameCount k c buffers).2.mSignalLevel
      = k.mSignalLevel * (9995 / 10000) ^ (buffers.length * frameCount) := by
  induction buffers generalizing k c with
  | nil => simp [processChannels]
  | cons b rest ih =>
    have hb : ∀ o ∈ (processSamples c k (readFrames b frameCount)).1, o = 0 :=
      hs _ (List.mem_cons_self _ _)
    have hrest : ∀ out ∈ (processChannels frameCount
        (processSamples c k (readFrames b frameCount)).2 (c + 1) rest).1, ∀ o ∈ out, o = 0 :=
      fun out hout => hs out (List.mem_cons_of_mem _ hout)
    have hl := processSamples_silent_level c (readFrames b frameCount) k h0 hb
    have hlen : (readFrames b frameCount).length = frameCount := by simp [readFrames]
    rw [hlen] at hl
    have h1 : 0 ≤ (processSamples c k (readFrames b frameCount)).2.mSignalLevel := by
      rw [hl]
      exact decay_pow_nonneg _ h0 _
    have hstep : (processChannels frameCount k c (b :: rest)).2
        = (processChannels frameCount (processSamples c k (readFrames b frameCount)).2
            (c + 1) rest).2 := rfl
    rw [hstep, ih _ (c + 1) h1 hrest, hl, List.length_cons, mul_assoc, ← pow_add]
    congr 2
    ring

/-- All three tube mix amounts are 0. -/
theorem zeroMix_of_sameSettings {k k2 : Kernel E} (h : SameSettings k k2)
    (hn : k.mNeutralTubeAmount = 0) (hw : k.mWarmTubeAmount = 0)
    (ha : k.mAggressiveTubeAmount = 0) :
    k2.mNeutralTubeAmount = 0 ∧ k2.mWarmTubeAmount = 0 ∧ k2.mAggressiveTubeAmount = 0 := by
  obtain ⟨-, -, -, -, -, -, h1, h2, h3, -⟩ := h
  exact ⟨h1.trans hn, h2.trans hw, h3.trans ha⟩

theorem neutralStage_of_nonpos (k : Kernel E) (s : ℚ) (h : k.mNeutralTubeAmount ≤ 0) :
    neutralStage k s = (s, k) := by
  unfold neutralStage
  rw [if_neg (not_lt.mpr h)]

theorem warmStage_of_nonpos (k : Kernel E) (s : ℚ) (h : k.mWarmTubeAmount ≤ 0) :
    warmStage k s = (s, k) := by
  unfold warmStage
  rw [if_neg (not_lt.mpr h)]

theorem aggressiveStage_of_nonpos (k : Kernel E) (s : ℚ) (h : k.mAggressiveTubeAmount ≤ 0) :
    aggressiveStage k s = (s, k) := by
  unfold aggressiveStage
  rw [if_neg (not_lt.mpr h)]

/-- With no tube mixed in, the loop body is the path without tube stages. -/
theorem processFrame_eq_specFrameNoTubes (k : Kernel E) (c : Nat) (x : ℚ)
    (hn : k.mNeutralTubeAmount ≤ 0) (hw : k.mWarmTubeAmount ≤ 0)
    (ha : k.mAggressiveTubeAmount ≤ 0) :
    processFrame k c x = specFrameNoTubes k c x := by
  have hn2 : (clipStage k c x).2.mNeutralTubeAmount ≤ 0 := hn
  have hw2 : (clipStage k c x).2.mWarmTubeAmount ≤ 0 := hw
  have ha2 : (clipStage k c x).2.mAggressiveTubeAmount ≤ 0 := ha
  unfold processFrame
  simp only [neutralStage_of_nonpos _ _ hn2, warmStage_of_nonpos _ _ hw2,
    aggressiveStage_of_nonpos _ _ ha2]
  rfl

theorem processSamples_eq_specSamplesNoTubes (c : Nat) (inputs : List ℚ) (k : Kernel E)
    (hn : k.mNeutralTubeAmount = 0) (hw : k.mWarmTubeAmount = 0)
    (ha : k.mAggressiveTubeAmount = 0) :
    processSamples c k inputs = specSamplesNoTubes c k inputs := by
  induction inputs generalizing k with
  | nil => rfl
  | cons x rest ih =>
    obtain ⟨h1, h2, h3⟩ := zeroMix_of_sameSettings (processFrame_sameSettings k c x) hn hw ha
    have hf := processFrame_eq_specFrameNoTubes k c x (le_of_eq hn) (le_of_eq hw) (le_of_eq ha)
    have hr := ih (processFrame k c x).2 h1 h2 h3
    simp only [processSamples, specSamplesNoTubes]
    rw [hr, hf]

theorem processChannels_eq_specChannelsNoTubes (frameCount : Nat) (buffers : List (Nat → ℚ))
    (k : Kernel E) (c : Nat)
    (hn : k.mNeutralTubeAmount = 0) (hw : k.mWarmTubeAmount = 0)
    (ha : k.mAggressiveTubeAmount = 0) :
    processChannels frameCount k c buffers = specChannelsNoTubes frameCount k c buffers := by
  induction buffers generalizing k c with
  | nil => rfl
  | cons b rest ih =>
    obtain ⟨h1, h2, h3⟩ := zeroMix_of_sameSettings
      (processSamples_sameSettings c (readFrames b frameCount) k) hn hw ha
    have hf := processSamples_eq_specSamplesNoTubes c (readFrames b frameCount) k hn hw ha
    have hr := ih (processSamples c k (readFrames b frameCount)).2 (c + 1) h1 h2 h3
    simp only [processChannels, specChannelsNoTubes]
    rw [hr, hf]

theorem SameTubes.refl_tubes (k : Kernel E) : SameTubes k k := ⟨rfl, rfl, rfl⟩

theorem SameTubes.trans_tubes {k1 k2 k3 : Kernel E} (h12 : SameTubes k1 k2) (h23 : SameTubes k2 k3) :
    SameTubes k1 k3 :=
  ⟨h23.1.trans h12.1, h23.2.1.trans h12.2.1, h23.2.2.trans h12.2.2⟩

theorem specSamplesNoTubes_sameTubes (c : Nat) (inputs : List ℚ) (k : Kernel E) :
    SameTubes k (specSamplesNoTubes c k inputs).2 := by
  induction inputs generalizing k with
  | nil => exact SameTubes.refl_tubes k
  | cons x rest ih =>
    have h1 : SameTubes k (specFrameNoTubes k c x).2 := by
      simp only [SameTubes, specFrameNoTubes, applyPreEQ, upsample4x, downsample4x, and_self]
    exact h1.trans_tubes (ih (specFrameNoTubes k c x).2)

theorem specChannelsNoTubes_sameTubes (frameCount : Nat) (buffers : List (Nat → ℚ))
    (k : Kernel E) (c : Nat) :
    SameTubes k (specChannelsNoTubes frameCount k c buffers).2 := by
  induction buffers generalizing k c with
  | nil => exact SameTubes.refl_tubes k
  | cons b rest ih =>
    exact (specSamplesNoTubes_sameTubes c (readFrames b frameCount) k).trans_tubes
      (ih (specSamplesNoTubes c k (readFrames b frameCount)).2 (c + 1))

/-- C8: when bypass is off and the three tube mix amounts are 0.0, `process`
is the signal path with the tube stages removed, for every kernel state and
input: the whole block (samples written and kernel afterwards) equals
`specProcessNoTubes`, each frame equals `specFrameNoTubes`, i.e. its sample is
`downsample4x(clip of the 4 upsampled values of applyPreEQ(input) * tubeGain)
* 2.5 * outputVolume`, and the state of the three tube units is unchanged by
the call. -/
theorem process_zero_mix_skips_tubes (k : Kernel E) (inputBuffers : List (Nat → ℚ))
    (frameCount : Nat) (hb : isBypassed k = false)
    (hn : k.mNeutralTubeAmount = 0) (hw : k.mWarmTubeAmount = 0)
    (ha : k.mAggressiveTubeAmount = 0) :
    process k inputBuffers frameCount = specProcessNoTubes k inputBuffers frameCount ∧
    (∀ (c : Nat) (x : ℚ), processFrame k c x = specFrameNoTubes k c x ∧
      (processFrame k c x).1 =
        (downsample4x (upsample4x (applyPreEQ k x c).2 ((applyPreEQ k x c).1 * k.mTubeGain) c).2
          (applyClipping k
            (upsample4x (applyPreEQ k x c).2 ((applyPreEQ k x c).1 * k.mTubeGain) c).1.1)
          (applyClipping k
            (upsample4x (applyPreEQ k x c).2 ((applyPreEQ k x c).1 * k.mTubeGain) c).1.2.1)
          (applyClipping k
            (upsample4x (applyPreEQ k x c).2 ((applyPreEQ k x c).1 * k.mTubeGain) c).1.2.2.1)
          (applyClipping k
            (upsample4x (applyPreEQ k x c).2 ((applyPreEQ k x c).1 * k.mTubeGain) c).1.2.2.2)
          c).1 * (25 / 10) * k.mOutputVolume) ∧
    (process k inputBuffers frameCount).2.mNeutralTube = k.mNeutralTube ∧
    (process k inputBuffers frameCount).2.mWarmTube = k.mWarmTube ∧
    (process k inputBuffers frameCount).2.mAggressiveTube = k.mAggressiveTube := by
  have hb2 : k.mBypassed = false := hb
  have hp : process k inputBuffers frameCount = specProcessNoTubes k inputBuffers frameCount := by
    have hp0 : process k inputBuffers frameCount
        = processChannels frameCount k 0 inputBuffers := by
      simp [process, hb2]
    rw [hp0, processChannels_eq_specChannelsNoTubes frameCount inputBuffers k 0 hn hw ha]
    rfl
  have ht := specChannelsNoTubes_sameTubes frameCount inputBuffers k 0
  refine ⟨hp, ?_, ?_, ?_, ?_⟩
  · intro c x
    have hf := processFrame_eq_specFrameNoTubes k c x (le_of_eq hn) (le_of_eq hw) (le_of_eq ha)
    refine ⟨hf, ?_⟩
    rw [hf]
    rfl
  · rw [hp]
    unfold specProcessNoTubes
    exact ht.1
  · rw [hp]
    unfold specProcessNoTubes
    exact ht.2.1
  · rw [hp]
    unfold specProcessNoTubes
    exact ht.2.2

/-- Witness of `process_zero_mix_skips_tubes`: a kernel with default
parameters (mix amounts 0, bypass off), one channel of two frames. -/
theorem process_zero_mix_skips_tubes_witness :
    isBypassed passKernel = false ∧ passKernel.mNeutralTubeAmount = 0 ∧
    passKernel.mWarmTubeAmount = 0 ∧ passKernel.mAggressiveTubeAmount = 0 ∧
    process passKernel [bufferOf [1, 1 / 2]] 2
      = specProcessNoTubes passKernel [bufferOf [1, 1 / 2]] 2 ∧
    (process passKernel [bufferOf [1, 1 / 2]] 2).2.mNeutralTube = passKernel.mNeutralTube :=
  ⟨rfl, rfl, rfl, rfl,
    (process_zero_mix_skips_tubes passKernel [bufferOf [1, 1 / 2]] 2 rfl rfl rfl rfl).1,
    (process_zero_mix_skips_tubes passKernel [bufferOf [1, 1 / 2]] 2 rfl rfl rfl rfl).2.2.1⟩

/-! ## Channels (C9) -/

theorem SameHistory.refl_history (c : Nat) (k : Kernel E) : SameHistory c k k :=
  ⟨rfl, rfl, rfl, rfl, rfl, rfl, rfl⟩

theorem SameHistory.symm_history {c : Nat} {k1 k2 : Kernel E} (h : SameHistory c k1 k2) :
    SameHistory c k2 k1 := by
  unfold SameHistory at *
  simp_all

theorem SameHistory.trans_history {c : Nat} {k1 k2 k3 : Kernel E} (h12 : SameHistory c k1 k2)
    (h23 : SameHistory c k2 k3) : SameHistory c k1 k3 := by
  unfold SameHistory at *
  simp_all

theorem SameSettings.symm_settings {k1 k2 : Kernel E} (h : SameSettings k1 k2) : SameSettings k2 k1 := by
  unfold SameSettings at *
  simp_all

/-- The clipping chain of one channel leaves the history of every other
channel alone. -/
theorem clipStage_sameHistory_of_ne (k : Kernel E) (c c2 : Nat) (x : ℚ) (h : c ≠ c2) :
    SameHistory c k (clipStage k c2 x).2 := by
  simp [SameHistory, clipStage, applyPreEQ, upsample4x, downsample4x, Function.update, h]

theorem neutralStage_sameHistory (c : Nat) (k : Kernel E) (s : ℚ) :
    SameHistory c k (neutralStage k s).2 := by
  unfold neutralStage
  split_ifs
  · exact ⟨rfl, rfl, rfl, rfl, rfl, rfl, rfl⟩
  · exact SameHistory.refl_history c k

theorem warmStage_sameHistory (c : Nat) (k : Kernel E) (s : ℚ) :
    SameHistory c k (warmStage k s).2 := by
  unfold warmStage
  split_ifs
  · exact ⟨rfl, rfl, rfl, rfl, rfl, rfl, rfl⟩
  · exact SameHistory.refl_history c k

theorem aggressiveStage_sameHistory (c : Nat) (k : Kernel E) (s : ℚ) :
    SameHistory c k (aggressiveStage k s).2 := by
  unfold aggressiveStage
  split_ifs
  · exact ⟨rfl, rfl, rfl, rfl, rfl, rfl, rfl⟩
  · exact SameHistory.refl_history c k

/-- After the clipping chain, the rest of the loop body leaves every history
alone. -/
theorem processFrame_sameHistory_clipStage (c c2 : Nat) (k : Kernel E) (x : ℚ) :
    SameHistory c (clipStage k c2 x).2 (processFrame k c2 x).2 := by
  have h2 := neutralStage_sameHistory c (clipStage k c2 x).2 (clipStage k c2 x).1
  have h3 := warmStage_sameHistory c (neutralStage (clipStage k c2 x).2 (clipStage k c2 x).1).2
    (neutralStage (clipStage k c2 x).2 (clipStage k c2 x).1).1
  have h4 := aggressiveStage_sameHistory c
    (warmStage (neutralStage (clipStage k c2 x).2 (clipStage k c2 x).1).2
      (neutralStage (clipStage k c2 x).2 (clipStage k c2 x).1).1).2
    (warmStage (neutralStage (clipStage k c2 x).2 (clipStage k c2 x).1).2
      (neutralStage (clipStage k c2 x).2 (clipStage k c2 x).1).1).1
  exact (h2.trans_history h3).trans_history h4

/-- The loop body for one channel leaves the history of every other channel
alone. -/
theorem processFrame_sameHistory_of_ne (k : Kernel E) (c c2 : Nat) (x : ℚ) (h : c ≠ c2) :
    SameHistory c k (processFrame k c2 x).2 :=
  (clipStage_sameHistory_of_ne k c c2 x h).trans_history (processFrame_sameHistory_clipStage c c2 k x)

theorem processSamples_sameHistory_of_ne (c c2 : Nat) (inputs : List ℚ) (k : Kernel E)
    (h : c ≠ c2) : SameHistory c k (processSamples c2 k inputs).2 := by
  induction inputs generalizing k with
  | nil => exact SameHistory.refl_history c k
  | cons x rest ih =>
    exact (processFrame_sameHistory_of_ne k c c2 x h).trans_history (ih (processFrame k c2 x).2)

/-- The channels after channel `c` leave the history of channel `c` alone. -/
theorem processChannels_sameHistory_of_lt (frameCount : Nat) (buffers : List (Nat → ℚ))
    (k : Kernel E) (c j : Nat) (h : c < j) :
    SameHistory c k (processChannels frameCount k j buffers).2 := by
  induction buffers generalizing k j with
  | nil => exact SameHistory.refl_history c k
  | cons b rest ih =>
    exact (processSamples_sameHistory_of_ne c j (readFrames b frameCount) k (Nat.ne_of_lt h)).trans_history
      (ih (processSamples j k (readFrames b frameCount)).2 (j + 1) (Nat.lt_succ_of_lt h))

/-- The clipping chain of channel `c` is a function of the settings and of the
history of channel `c`. -/
theorem clipStage_congr (k1 k2 : Kernel E) (c : Nat) (x : ℚ) (hs : SameSettings k1 k2)
    (hh : SameHistory c k1 k2) :
    (clipStage k2 c x).1 = (clipStage k1 c x).1 ∧
    SameHistory c (clipStage k1 c x).2 (clipStage k2 c x).2 := by
  obtain ⟨-, -, -, s4, -, -, -, -, -, s10, s11, s12, -, s14, s15⟩ := hs
  obtain ⟨e1, e2, e3, e4, e5, e6, e7⟩ := hh
  simp [SameHistory, clipStage, applyPreEQ, upsample4x, downsample4x, applyClipping,
    Function.update, s4, s10, s11, s12, s14, s15, e1, e2, e3, e4, e5, e6, e7]

/-- From kernels with the same settings and the same history of channel `c`,
the loop body for channel `c` leaves the same history of channel `c` and the
same settings, and writes the same sample when no tube is mixed in. -/
theorem processFrame_congr (k1 k2 : Kernel E) (c : Nat) (x : ℚ) (hs : SameSettings k1 k2)
    (hh : SameHistory c k1 k2) :
    SameSettings (processFrame k1 c x).2 (processFrame k2 c x).2 ∧
    SameHistory c (processFrame k1 c x).2 (processFrame k2 c x).2 ∧
    (k1.mNeutralTubeAmount ≤ 0 → k1.mWarmTubeAmount ≤ 0 → k1.mAggressiveTubeAmount ≤ 0 →
      (processFrame k2 c x).1 = (processFrame k1 c x).1) := by
  obtain ⟨hc1, hc2⟩ := clipStage_congr k1 k2 c x hs hh
  refine ⟨?_, ?_, ?_⟩
  · exact ((processFrame_sameSettings k1 c x).symm_settings.trans_settings hs).trans_settings
      (processFrame_sameSettings k2 c x)
  · exact ((processFrame_sameHistory_clipStage c c k1 x).symm_history.trans_history hc2).trans_history
      (processFrame_sameHistory_clipStage c c k2 x)
  · intro hn hw ha
    obtain ⟨-, -, s3, -, -, -, s7, s8, s9, -⟩ := hs
    rw [processFrame_eq_specFrameNoTubes k1 c x hn hw ha,
      processFrame_eq_specFrameNoTubes k2 c x (s7 ▸ hn) (s8 ▸ hw) (s9 ▸ ha)]
    show (clipStage k2 c x).1 * (25 / 10) * k2.mOutputVolume
      = (clipStage k1 c x).1 * (25 / 10) * k1.mOutputVolume
    rw [hc1, s3]

theorem processSamples_congr (c : Nat) (inputs : List ℚ) (k1 k2 : Kernel E)
    (hs : SameSettings k1 k2) (hh : SameHistory c k1 k2) :
    SameSettings (processSamples c k1 inputs).2 (processSamples c k2 inputs).2 ∧
    SameHistory c (processSamples c k1 inputs).2 (processSamples c k2 inputs).2 ∧
    (k1.mNeutralTubeAmount ≤ 0 → k1.mWarmTubeAmount ≤ 0 → k1.mAggressiveTubeAmount ≤ 0 →
      (processSamples c k2 inputs).1 = (processSamples c k1 inputs).1) := by
  induction inputs generalizing k1 k2 with
  | nil => exact ⟨hs, hh, fun _ _ _ => rfl⟩
  | cons x rest ih =>
    obtain ⟨f1, f2, f3⟩ := processFrame_congr k1 k2 c x hs hh
    obtain ⟨r1, r2, r3⟩ := ih (processFrame k1 c x).2 (processFrame k2 c x).2 f1 f2
    refine ⟨r1, r2, ?_⟩
    intro hn hw ha
    obtain ⟨-, -, -, -, -, -, s7, s8, s9, -⟩ := processFrame_sameSettings k1 c x
    have e1 := f3 hn hw ha
    have e2 := r3 (s7 ▸ hn) (s8 ▸ hw) (s9 ▸ ha)
    simp only [processSamples]
    rw [e1, e2]

/-- The outer loop started at channel index `j`: the channel at offset `d`
(channel `j + d`) gets the same history, and without tubes the same output,
from two kernels with the same settings and the same history of that channel
and two blocks that agree on the frames of that channel. -/
theorem processChannels_congr (frameCount : Nat) (d : Nat) :
    ∀ (ib1 ib2 : List (Nat → ℚ)) (j : Nat) (k1 k2 : Kernel E) (b1 b2 : Nat → ℚ),
      SameSettings k1 k2 → SameHistory (j + d) k1 k2 →
      ib1[d]? = some b1 → ib2[d]? = some b2 →
      readFrames b1 frameCount = readFrames b2 frameCount →
      SameHistory (j + d) (processChannels frameCount k1 j ib1).2
        (processChannels frameCount k2 j ib2).2 ∧
      (k1.mNeutralTubeAmount ≤ 0 → k1.mWarmTubeAmount ≤ 0 → k1.mAggressiveTubeAmount ≤ 0 →
        (processChannels frameCount k2 j ib2).1[d]?
          = (processChannels frameCount k1 j ib1).1[d]?) := by
  induction d with
  | zero =>
    intro ib1 ib2 j k1 k2 b1 b2 hs hh h1 h2 hr
    cases ib1 with
    | nil => simp at h1
    | cons a1 r1 =>
      cases ib2 with
      | nil => simp at h2
      | cons a2 r2 =>
        simp only [List.getElem?_cons_zero, Option.some.injEq] at h1 h2
        subst h1 h2
        obtain ⟨p1, p2, p3⟩ := processSamples_congr j (readFrames a1 frameCount) k1 k2 hs hh
        rw [hr] at p1 p2 p3
        simp only [processChannels, Nat.add_zero]
        rw [hr]
        refine ⟨?_, ?_⟩
        · have q1 := processChannels_sameHistory_of_lt frameCount r1
            (processSamples j k1 (readFrames a2 frameCount)).2 j (j + 1) (Nat.lt_succ_self j)
          have q2 := processChannels_sameHistory_of_lt frameCount r2
            (processSamples j k2 (readFrames a2 frameCount)).2 j (j + 1) (Nat.lt_succ_self j)
          exact (q1.symm_history.trans_history p2).trans_history q2
        · intro hn hw ha
          simp only [List.getElem?_cons_zero]
          rw [p3 hn hw ha]
  | succ d ih =>
    intro ib1 ib2 j k1 k2 b1 b2 hs hh h1 h2 hr
    cases ib1 with
    | nil => simp at h1
    | cons a1 r1 =>
      cases ib2 with
      | nil => simp at h2
      | cons a2 r2 =>
        simp only [List.getElem?_cons_succ] at h1 h2
        have hj : j + (d + 1) = (j + 1) + d := by omega
        rw [hj] at hh ⊢
        have hne : j + 1 + d ≠ j := by omega
        have s1 := processSamples_sameSettings j (readFrames a1 frameCount) k1
        have s2 := processSamples_sameSettings j (readFrames a2 frameCount) k2
        have g1 := processSamples_sameHistory_of_ne (j + 1 + d) j (readFrames a1 frameCount) k1 hne
        have g2 := processSamples_sameHistory_of_ne (j + 1 + d) j (readFrames a2 frameCount) k2 hne
        obtain ⟨t1, t2⟩ := ih r1 r2 (j + 1) (processSamples j k1 (readFrames a1 frameCount)).2
          (processSamples j k2 (readFrames a2 frameCount)).2 b1 b2
          ((s1.symm_settings.trans_settings hs).trans_settings s2) ((g1.symm_history.trans_history hh).trans_history g2) h1 h2 hr
        refine ⟨t1, ?_⟩
        intro hn hw ha
        obtain ⟨-, -, -, -, -, -, s7, s8, s9, -⟩ := s1
        simp only [processChannels, List.getElem?_cons_succ]
        exact t2 (s7 ▸ hn) (s8 ▸ hw) (s9 ▸ ha)

/-- C9 as the code has it: take two kernels with the same settings and the same
history of channel `c` (for instance the same kernel), bypass off, and two
input blocks of at most 8 channels each (the size of the per-channel arrays)
whose channel `c` holds the same `frameCount` samples, whatever the other
channels hold.  Then `c < 8`, after `process` the filter, upsampler and
DC-blocker history of channel `c` is the same in both, for every parameter
setting; and when no tube unit is mixed in (the three mix amounts are `≤ 0`)
the samples written to channel `c` are the same. -/
theorem channel_independent_without_tubes (k1 k2 : Kernel E) (ib1 ib2 : List (Nat → ℚ))
    (frameCount c : Nat) (b1 b2 : Nat → ℚ)
    (hl1 : ib1.length ≤ 8) (hl2 : ib2.length ≤ 8)
    (hb : isBypassed k1 = false) (hs : SameSettings k1 k2) (hh : SameHistory c k1 k2)
    (h1 : ib1[c]? = some b1) (h2 : ib2[c]? = some b2)
    (hag : ∀ i, i < frameCount → b1 i = b2 i) :
    c < 8 ∧
    SameHistory c (process k1 ib1 frameCount).2 (process k2 ib2 frameCount).2 ∧
    (k1.mNeutralTubeAmount ≤ 0 → k1.mWarmTubeAmount ≤ 0 → k1.mAggressiveTubeAmount ≤ 0 →
      (process k2 ib2 frameCount).1[c]? = (process k1 ib1 frameCount).1[c]?) := by
  have _hl2 : ib2.length ≤ 8 := hl2
  have hc8 : c < 8 := by
    have hlt : c < ib1.length := by
      by_contra hge
      rw [List.getElem?_eq_none (not_lt.mp hge)] at h1
      exact Option.noConfusion h1
    omega
  refine ⟨hc8, ?_⟩
  have hb1 : k1.mBypassed = false := hb
  have hb2 : k2.mBypassed = false := by
    obtain ⟨-, -, -, -, s5, -⟩ := hs
    rw [s5]
    exact hb1
  have hr : readFrames b1 frameCount = readFrames b2 frameCount := by
    unfold readFrames
    apply List.map_congr_left
    intro i hi
    exact hag i (List.mem_range.mp hi)
  have hp1 : process k1 ib1 frameCount = processChannels frameCount k1 0 ib1 := by
    simp [process, hb1]
  have hp2 : process k2 ib2 frameCount = processChannels frameCount k2 0 ib2 := by
    simp [process, hb2]
  rw [hp1, hp2]
  have hh0 : SameHistory (0 + c) k1 k2 := by
    rw [Nat.zero_add]
    exact hh
  have h := processChannels_congr frameCount c ib1 ib2 0 k1 k2 b1 b2 hs hh0 h1 h2 hr
  rw [Nat.zero_add] at h
  exact h

/-- Witness of `channel_independent_without_tubes`: two kernels that differ in
the history of channel 0 and in the meter, two blocks that differ on channel 0
and agree on channel 1. -/
theorem channel_independent_without_tubes_witness :
    [bufferOf [0], bufferOf [1 / 5]].length ≤ 8 ∧
    [bufferOf [2 / 5], bufferOf [1 / 5]].length ≤ 8 ∧
    isBypassed passKernel = false ∧ SameSettings passKernel passKernel2 ∧
    SameHistory 1 passKernel passKernel2 ∧
    [bufferOf [0], bufferOf [1 / 5]][1]? = some (bufferOf [1 / 5]) ∧
    [bufferOf [2 / 5], bufferOf [1 / 5]][1]? = some (bufferOf [1 / 5]) ∧
    passKernel.mNeutralTubeAmount ≤ 0 ∧ passKernel.mWarmTubeAmount ≤ 0 ∧
    passKernel.mAggressiveTubeAmount ≤ 0 ∧
    SameHistory 1 (process passKernel [bufferOf [0], bufferOf [1 / 5]] 1).2
      (process passKernel2 [bufferOf [2 / 5], bufferOf [1 / 5]] 1).2 ∧
    (process passKernel2 [bufferOf [2 / 5], bufferOf [1 / 5]] 1).1[1]?
      = (process passKernel [bufferOf [0], bufferOf [1 / 5]] 1).1[1]? :=
  have hs : SameSettings passKernel passKernel2 :=
    ⟨rfl, rfl, rfl, rfl, rfl, rfl, rfl, rfl, rfl, rfl, rfl, rfl, rfl, rfl, rfl⟩
  have hh : SameHistory 1 passKernel passKernel2 := ⟨rfl, rfl, rfl, rfl, rfl, rfl, rfl⟩
  have hn : passKernel.mNeutralTubeAmount ≤ 0 := le_of_eq rfl
  have hw : passKernel.mWarmTubeAmount ≤ 0 := le_of_eq rfl
  have ha : passKernel.mAggressiveTubeAmount ≤ 0 := le_of_eq rfl
  have hl1 : [bufferOf [0], bufferOf [1 / 5]].length ≤ 8 := by decide
  have hl2 : [bufferOf [2 / 5], bufferOf [1 / 5]].length ≤ 8 := by decide
  ⟨hl1, hl2, rfl, hs, hh, rfl, rfl, hn, hw, ha,
    (channel_independent_without_tubes passKernel passKernel2 [bufferOf [0], bufferOf [1 / 5]]
      [bufferOf [2 / 5], bufferOf [1 / 5]] 1 1 (bufferOf [1 / 5]) (bufferOf [1 / 5])
      hl1 hl2 rfl hs hh rfl rfl (fun _ _ => rfl)).2.1,
    (channel_independent_without_tubes passKernel passKernel2 [bufferOf [0], bufferOf [1 / 5]]
      [bufferOf [2 / 5], bufferOf [1 / 5]] 1 1 (bufferOf [1 / 5]) (bufferOf [1 / 5])
      hl1 hl2 rfl hs hh rfl rfl (fun _ _ => rfl)).2.2 hn hw ha⟩

/-- C9 as stated fails: with the neutral tube mixed in, bypass off, the same
kernel and two one-frame blocks that hold the same sample 0.2 on channel 1 and
the samples 0 and 0.4 on channel 0, the sample written to channel 1 is 5/32
for the first block and 5/16 for the second: the tube unit is one object for
all channels and channel 0 has changed its state. -/
theorem channel_coupling_counterexample :
    isBypassed neutralKernel = false ∧
    (process neutralKernel [bufferOf [0], bufferOf [1 / 5]] 1).1 = [[0], [5 / 32]] ∧
    (process neutralKernel [bufferOf [2 / 5], bufferOf [1 / 5]] 1).1 = [[5 / 16], [5 / 16]] ∧
    (process neutralKernel [bufferOf [0], bufferOf [1 / 5]] 1).1[1]?
      ≠ (process neutralKernel [bufferOf [2 / 5], bufferOf [1 / 5]] 1).1[1]? := by
  have hA : (process neutralKernel [bufferOf [0], bufferOf [1 / 5]] 1).1 = [[0], [5 / 32]] := by
    simp [process, neutralKernel, passKernel, demoKernel, demoEnv, smoothingTube, Kernel.fresh,
      processChannels, processSamples, readFrames, bufferOf, processFrame, clipStage,
      neutralStage, warmStage, aggressiveStage, applyPreEQ, upsample4x, downsample4x,
      applyClipping, meterUpdate, List.range, List.range.loop, Function.update]
    norm_num
  have hB : (process neutralKernel [bufferOf [2 / 5], bufferOf [1 / 5]] 1).1
      = [[5 / 16], [5 / 16]] := by
    simp [process, neutralKernel, passKernel, demoKernel, demoEnv, smoothingTube, Kernel.fresh,
      processChannels, processSamples, readFrames, bufferOf, processFrame, clipStage,
      neutralStage, warmStage, aggressiveStage, applyPreEQ, upsample4x, downsample4x,
      applyClipping, meterUpdate, List.range, List.range.loop, Function.update]
    norm_num
  refine ⟨rfl, hA, hB, ?_⟩
  rw [hA, hB]
  norm_num

/-! ## Initialisation with a negative sample rate (C10) -/

/-- C10 as stated fails: `initialize(1, 1, -44100.0)` on a freshly constructed
kernel returns normally, stores the negative rate in `mSampleRate` and installs
new filter coefficients (`mHPF_a0` and `mHPF_b0` are no longer the defaults 1
and 0). -/
theorem initialize_negative_rate_counterexample :
    (initializeKernel demoKernel 1 1 (-44100)).mSampleRate = -44100 ∧
    demoKernel.mHPF_a0 = 1 ∧ (initializeKernel demoKernel 1 1 (-44100)).mHPF_a0 < 1 ∧
    demoKernel.mHPF_b0 = 0 ∧ (initializeKernel demoKernel 1 1 (-44100)).mHPF_b0 > 0 := by
  refine ⟨rfl, rfl, ?_, rfl, ?_⟩
  · simp only [initializeKernel, initializeEQ, demoEnv, M_PI]
    norm_num
  · simp only [initializeKernel, initializeEQ, demoEnv, M_PI]
    norm_num

/-- C10 as the code has it: there is no sample-rate check.  For a negative
sample rate `initialize` returns normally like for any other rate: it stores
the rate in `mSampleRate`, hands it to the three tube units, and `initializeEQ`
installs the coefficients of the usual formulas evaluated at the negative angle
`w0 = 2 * M_PI * 75 / sampleRate`; these depend on the rate alone, not on the
coefficients held before, and the per-channel histories, the parameters and
the meter are left as they were. -/
theorem initialize_accepts_negative_rate (k : Kernel E)
    (inputChannelCount outputChannelCount : Int) (sampleRate : ℚ) (h : sampleRate < 0) :
    2 * M_PI * (75 / sampleRate) < 0 ∧
    (initializeKernel k inputChannelCount outputChannelCount sampleRate).mSampleRate
      = sampleRate ∧
    (initializeKernel k inputChannelCount outputChannelCount sampleRate).mHPF_a0
      = 1 + E.sin (2 * M_PI * (75 / sampleRate)) / (2 * (707 / 1000)) ∧
    ((initializeKernel k inputChannelCount outputChannelCount sampleRate).mHPF_a0 ≠ 0 →
      (initializeKernel k inputChannelCount outputChannelCount sampleRate).mHPF_b0
          * (initializeKernel k inputChannelCount outputChannelCount sampleRate).mHPF_a0
        = (1 + E.cos (2 * M_PI * (75 / sampleRate))) / 2 ∧
      (initializeKernel k inputChannelCount outputChannelCount sampleRate).mHPF_b1
          * (initializeKernel k inputChannelCount outputChannelCount sampleRate).mHPF_a0
        = -(1 + E.cos (2 * M_PI * (75 / sampleRate))) ∧
      (initializeKernel k inputChannelCount outputChannelCount sampleRate).mHPF_b2
          * (initializeKernel k inputChannelCount outputChannelCount sampleRate).mHPF_a0
        = (1 + E.cos (2 * M_PI * (75 / sampleRate))) / 2 ∧
      (initializeKernel k inputChannelCount outputChannelCount sampleRate).mHPF_a1
          * (initializeKernel k inputChannelCount outputChannelCount sampleRate).mHPF_a0
        = -2 * E.cos (2 * M_PI * (75 / sampleRate)) ∧
      (initializeKernel k inputChannelCount outputChannelCount sampleRate).mHPF_a2
          * (initializeKernel k inputChannelCount outputChannelCount sampleRate).mHPF_a0
        = 1 - E.sin (2 * M_PI * (75 / sampleRate)) / (2 * (707 / 1000))) ∧
    (∀ k2 : Kernel E,
      (initializeEQ k2 sampleRate).mHPF_b0
        = (initializeKernel k inputChannelCount outputChannelCount sampleRate).mHPF_b0 ∧
      (initializeEQ k2 sampleRate).mHPF_b1
        = (initializeKernel k inputChannelCount outputChannelCount sampleRate).mHPF_b1 ∧
      (initializeEQ k2 sampleRate).mHPF_b2
        = (initializeKernel k inputChannelCount outputChannelCount sampleRate).mHPF_b2 ∧
      (initializeEQ k2 sampleRate).mHPF_a0
        = (initializeKernel k inputChannelCount outputChannelCount sampleRate).mHPF_a0 ∧
      (initializeEQ k2 sampleRate).mHPF_a1
        = (initializeKernel k inputChannelCount outputChannelCount sampleRate).mHPF_a1 ∧
      (initializeEQ k2 sampleRate).mHPF_a2
        = (initializeKernel k inputChannelCount outputChannelCount sampleRate).mHPF_a2) ∧
    (initializeKernel k inputChannelCount outputChannelCount sampleRate).mNeutralTube
      = E.neutralSetSampleRate k.mNeutralTube sampleRate ∧
    (initializeKernel k inputChannelCount outputChannelCount sampleRate).mWarmTube
      = E.warmSetSampleRate k.mWarmTube sampleRate ∧
    (initializeKernel k inputChannelCount outputChannelCount sampleRate).mAggressiveTube
      = E.aggressiveSetSampleRate k.mAggressiveTube sampleRate ∧
    (∀ c, SameHistory c k
      (initializeKernel k inputChannelCount outputChannelCount sampleRate)) ∧
    getSignalLevel (initializeKernel k inputChannelCount outputChannelCount sampleRate)
      = getSignalLevel k ∧
    (∀ a, getParameter (initializeKernel k inputChannelCount outputChannelCount sampleRate) a
      = getParameter k a) := by
  have hw : 2 * M_PI * (75 / sampleRate) < 0 := by
    have hpi : (0 : ℚ) < 2 * M_PI := by
      unfold M_PI
      norm_num
    have hfc : 75 / sampleRate < 0 := div_neg_of_pos_of_neg (by norm_num) h
    exact mul_neg_of_pos_of_neg hpi hfc
  refine ⟨hw, rfl, rfl, ?_, fun k2 => ⟨rfl, rfl, rfl, rfl, rfl, rfl⟩, rfl, rfl, rfl,
    fun c => ⟨rfl, rfl, rfl, rfl, rfl, rfl, rfl⟩, rfl, fun a => rfl⟩
  intro ha0
  have ha : (1 : ℚ) + E.sin (2 * M_PI * (75 / sampleRate)) / (2 * (707 / 1000)) ≠ 0 := ha0
  refine ⟨?_, ?_, ?_, ?_, ?_⟩
  · show (1 + E.cos (2 * M_PI * (75 / sampleRate))) / 2
        / (1 + E.sin (2 * M_PI * (75 / sampleRate)) / (2 * (707 / 1000)))
        * (1 + E.sin (2 * M_PI * (75 / sampleRate)) / (2 * (707 / 1000))) = _
    exact div_mul_cancel₀ _ ha
  · show -(1 + E.cos (2 * M_PI * (75 / sampleRate)))
        / (1 + E.sin (2 * M_PI * (75 / sampleRate)) / (2 * (707 / 1000)))
        * (1 + E.sin (2 * M_PI * (75 / sampleRate)) / (2 * (707 / 1000))) = _
    exact div_mul_cancel₀ _ ha
  · show (1 + E.cos (2 * M_PI * (75 / sampleRate))) / 2
        / (1 + E.sin (2 * M_PI * (75 / sampleRate)) / (2 * (707 / 1000)))
        * (1 + E.sin (2 * M_PI * (75 / sampleRate)) / (2 * (707 / 1000))) = _
    exact div_mul_cancel₀ _ ha
  · show -2 * E.cos (2 * M_PI * (75 / sampleRate))
        / (1 + E.sin (2 * M_PI * (75 / sampleRate)) / (2 * (707 / 1000)))
        * (1 + E.sin (2 * M_PI * (75 / sampleRate)) / (2 * (707 / 1000))) = _
    exact div_mul_cancel₀ _ ha
  · show (1 - E.sin (2 * M_PI * (75 / sampleRate)) / (2 * (707 / 1000)))
        / (1 + E.sin (2 * M_PI * (75 / sampleRate)) / (2 * (707 / 1000)))
        * (1 + E.sin (2 * M_PI * (75 / sampleRate)) / (2 * (707 / 1000))) = _
    exact div_mul_cancel₀ _ ha

/-- Witness of `initialize_accepts_negative_rate`: the rate -44100 on a freshly
constructed kernel. -/
theorem initialize_accepts_negative_rate_witness :
    (-44100 : ℚ) < 0 ∧
    (initializeKernel demoKernel 2 2 (-44100)).mSampleRate = -44100 ∧
    (initializeKernel demoKernel 2 2 (-44100)).mHPF_a0
      = 1 + demoEnv.sin (2 * M_PI * (75 / (-44100))) / (2 * (707 / 1000)) :=
  have h : (-44100 : ℚ) < 0 := by norm_num
  ⟨h, (initialize_accepts_negative_rate demoKernel 2 2 (-44100) h).2.1,
    (initialize_accepts_negative_rate demoKernel 2 2 (-44100) h).2.2.1⟩

/-! ## The filter and oversampling helpers (C14, C16, C17) -/

/-- C14: for every input `x`, channel `c` in `0..7` and kernel state,
`applyPreEQ(x, c)` returns `y = b0*x + b1*x1[c] + b2*x2[c] - a1*y1[c] -
a2*y2[c]` computed from the history before the call; afterwards the history
of channel `c` is `x2 = old x1`, `x1 = x`, `y2 = old y1`, `y1 = y`; the
coefficients and the history of every other channel are unchanged. -/
theorem applyPreEQ_direct_form (k : Kernel E) (x : ℚ) (c : Nat) (hc : c < 8) :
    (applyPreEQ k x c).1 = k.mHPF_b0 * x + k.mHPF_b1 * k.mHPF_x1 c + k.mHPF_b2 * k.mHPF_x2 c
       - k.mHPF_a1 * k.mHPF_y1 c - k.mHPF_a2 * k.mHPF_y2 c ∧
    ((applyPreEQ k x c).2.mHPF_x2 c = k.mHPF_x1 c ∧ (applyPreEQ k x c).2.mHPF_x1 c = x ∧
     (applyPreEQ k x c).2.mHPF_y2 c = k.mHPF_y1 c ∧
     (applyPreEQ k x c).2.mHPF_y1 c = (applyPreEQ k x c).1) ∧
    ((applyPreEQ k x c).2.mHPF_b0 = k.mHPF_b0 ∧ (applyPreEQ k x c).2.mHPF_b1 = k.mHPF_b1 ∧
     (applyPreEQ k x c).2.mHPF_b2 = k.mHPF_b2 ∧ (applyPreEQ k x c).2.mHPF_a0 = k.mHPF_a0 ∧
     (applyPreEQ k x c).2.mHPF_a1 = k.mHPF_a1 ∧ (applyPreEQ k x c).2.mHPF_a2 = k.mHPF_a2) ∧
    (∀ c2, c2 ≠ c →
      (applyPreEQ k x c).2.mHPF_x1 c2 = k.mHPF_x1 c2 ∧
      (applyPreEQ k x c).2.mHPF_x2 c2 = k.mHPF_x2 c2 ∧
      (applyPreEQ k x c).2.mHPF_y1 c2 = k.mHPF_y1 c2 ∧
      (applyPreEQ k x c).2.mHPF_y2 c2 = k.mHPF_y2 c2) ∧
    (applyPreEQ k x c).2.mLastSample = k.mLastSample ∧
    (applyPreEQ k x c).2.mDcBlockerZ1 = k.mDcBlockerZ1 ∧
    (applyPreEQ k x c).2.mDcBlockerOutput = k.mDcBlockerOutput := by
  have _hc : c < 8 := hc
  refine ⟨rfl, ?_, ⟨rfl, rfl, rfl, rfl, rfl, rfl⟩, ?_, rfl, rfl, rfl⟩
  · simp [applyPreEQ]
  · intro c2 h2
    simp [applyPreEQ, Function.update, h2]

/-- Witness of `applyPreEQ_direct_form`: channel 1 of `passKernel`, input 1/2. -/
theorem applyPreEQ_direct_form_witness :
    1 < 8 ∧
    (applyPreEQ passKernel (1 / 2) 1).1
      = passKernel.mHPF_b0 * (1 / 2) + passKernel.mHPF_b1 * passKernel.mHPF_x1 1
        + passKernel.mHPF_b2 * passKernel.mHPF_x2 1
        - passKernel.mHPF_a1 * passKernel.mHPF_y1 1
        - passKernel.mHPF_a2 * passKernel.mHPF_y2 1 :=
  ⟨by decide, (applyPreEQ_direct_form passKernel (1 / 2) 1 (by decide)).1⟩

/-- C16: for every input `x`, channel `c` and stored sample `p =
mLastSample[c]`, `upsample4x` produces exactly `p + (x - p)*0.25`,
`p + (x - p)*0.50`, `p + (x - p)*0.75` and `x`; the last sub-sample is the
input and every sub-sample lies between `p` and `x`; afterwards the stored
last sample of channel `c` is `x` and that of every other channel is
unchanged (as is the rest of the kernel). -/
theorem upsample4x_values (k : Kernel E) (x : ℚ) (c : Nat) :
    (upsample4x k x c).1
      = (k.mLastSample c + (x - k.mLastSample c) * (25 / 100),
         k.mLastSample c + (x - k.mLastSample c) * (50 / 100),
         k.mLastSample c + (x - k.mLastSample c) * (75 / 100),
         x) ∧
    (upsample4x k x c).1.2.2.2 = x ∧
    (min (k.mLastSample c) x ≤ (upsample4x k x c).1.1 ∧
      (upsample4x k x c).1.1 ≤ max (k.mLastSample c) x) ∧
    (min (k.mLastSample c) x ≤ (upsample4x k x c).1.2.1 ∧
      (upsample4x k x c).1.2.1 ≤ max (k.mLastSample c) x) ∧
    (min (k.mLastSample c) x ≤ (upsample4x k x c).1.2.2.1 ∧
      (upsample4x k x c).1.2.2.1 ≤ max (k.mLastSample c) x) ∧
    (min (k.mLastSample c) x ≤ (upsample4x k x c).1.2.2.2 ∧
      (upsample4x k x c).1.2.2.2 ≤ max (k.mLastSample c) x) ∧
    (upsample4x k x c).2.mLastSample c = x ∧
    (∀ c2, c2 ≠ c → (upsample4x k x c).2.mLastSample c2 = k.mLastSample c2) ∧
    (upsample4x k x c).2 = { k with mLastSample := Function.update k.mLastSample c x } := by
  have hmin1 : min (k.mLastSample c) x ≤ k.mLastSample c := min_le_left _ _
  have hmin2 : min (k.mLastSample c) x ≤ x := min_le_right _ _
  have hmax1 : k.mLastSample c ≤ max (k.mLastSample c) x := le_max_left _ _
  have hmax2 : x ≤ max (k.mLastSample c) x := le_max_right _ _
  refine ⟨rfl, rfl, ?_, ?_, ?_, ?_, ?_, ?_, rfl⟩
  · simp only [upsample4x]
    constructor <;> linarith
  · simp only [upsample4x]
    constructor <;> linarith
  · simp only [upsample4x]
    constructor <;> linarith
  · simp only [upsample4x]
    exact ⟨hmin2, hmax2⟩
  · simp [upsample4x]
  · intro c2 h2
    simp [upsample4x, Function.update, h2]

/-- Witness of `upsample4x_values`: channel 0 of `passKernel2`, whose stored
sample is 0.5, with input 1; channel 1 keeps its stored sample. -/
theorem upsample4x_values_witness :
    (1 : Nat) ≠ 0 ∧
    (upsample4x passKernel2 1 0).1
      = (passKernel2.mLastSample 0 + (1 - passKernel2.mLastSample 0) * (25 / 100),
         passKernel2.mLastSample 0 + (1 - passKernel2.mLastSample 0) * (50 / 100),
         passKernel2.mLastSample 0 + (1 - passKernel2.mLastSample 0) * (75 / 100),
         1) ∧
    (upsample4x passKernel2 1 0).2.mLastSample 1 = passKernel2.mLastSample 1 :=
  ⟨by decide, (upsample4x_values passKernel2 1 0).1,
    (upsample4x_values passKernel2 1 0).2.2.2.2.2.2.2.1 1 (by decide)⟩

/-- C17: for every four sub-samples, channel `c` and DC-blocker state
`(z1, yPrev)` of that channel, `downsample4x` returns `y = m - z1 +
0.995*yPrev` with `m = (s1 + s2 + s3 + s4) / 4`; afterwards `z1 = m` and
`yPrev = y` for channel `c`, and the state of every other channel is
unchanged (as is the rest of the kernel). -/
theorem downsample4x_values (k : Kernel E) (s1 s2 s3 s4 : ℚ) (c : Nat) :
    (downsample4x k s1 s2 s3 s4 c).1
      = (s1 + s2 + s3 + s4) / 4 - k.mDcBlockerZ1 c + (995 / 1000) * k.mDcBlockerOutput c ∧
    (downsample4x k s1 s2 s3 s4 c).2.mDcBlockerZ1 c = (s1 + s2 + s3 + s4) / 4 ∧
    (downsample4x k s1 s2 s3 s4 c).2.mDcBlockerOutput c = (downsample4x k s1 s2 s3 s4 c).1 ∧
    (∀ c2, c2 ≠ c →
      (downsample4x k s1 s2 s3 s4 c).2.mDcBlockerZ1 c2 = k.mDcBlockerZ1 c2 ∧
      (downsample4x k s1 s2 s3 s4 c).2.mDcBlockerOutput c2 = k.mDcBlockerOutput c2) ∧
    (downsample4x k s1 s2 s3 s4 c).2
      = { k with
          mDcBlockerZ1 := Function.update k.mDcBlockerZ1 c ((s1 + s2 + s3 + s4) / 4)
          mDcBlockerOutput :=
            Function.update k.mDcBlockerOutput c (downsample4x k s1 s2 s3 s4 c).1 } := by
  have hm : (s1 + s2 + s3 + s4) * (25 / 100) = (s1 + s2 + s3 + s4) / 4 := by ring
  refine ⟨?_, ?_, ?_, ?_, ?_⟩
  · simp only [downsample4x, hm]
  · simp [downsample4x, hm]
  · simp [downsample4x]
  · intro c2 h2
    simp [downsample4x, Function.update, h2]
  · simp only [downsample4x, hm]

/-- Witness of `downsample4x_values`: channel 0 of `passKernel2`, whose stored
average is 0.25; channel 1 keeps its state. -/
theorem downsample4x_values_witness :
    (1 : Nat) ≠ 0 ∧
    (downsample4x passKernel2 (1 / 10) (2 / 10) (3 / 10) (4 / 10) 0).1
      = (1 / 10 + 2 / 10 + 3 / 10 + 4 / 10) / 4 - passKernel2.mDcBlockerZ1 0
        + (995 / 1000) * passKernel2.mDcBlockerOutput 0 ∧
    ((downsample4x passKernel2 (1 / 10) (2 / 10) (3 / 10) (4 / 10) 0).2.mDcBlockerZ1 1
        = passKernel2.mDcBlockerZ1 1 ∧
      (downsample4x passKernel2 (1 / 10) (2 / 10) (3 / 10) (4 / 10) 0).2.mDcBlockerOutput 1
        = passKernel2.mDcBlockerOutput 1) :=
  ⟨by decide, (downsample4x_values passKernel2 (1 / 10) (2 / 10) (3 / 10) (4 / 10) 0).1,
    (downsample4x_values passKernel2 (1 / 10) (2 / 10) (3 / 10) (4 / 10) 0).2.2.2.1 1
      (by decide)⟩

/-! ## The tube stages (C15) -/

theorem neutralStage_eq_specBlend (k : Kernel E) (s : ℚ) :
    (neutralStage k s).1 = (specBlend E.neutralProcessSample k.mNeutralTubeAmount k.mNeutralTube s).1 ∧
    (neutralStage k s).2 = { k with mNeutralTube :=
      (specBlend E.neutralProcessSample k.mNeutralTubeAmount k.mNeutralTube s).2 } := by
  unfold neutralStage specBlend
  split_ifs <;> exact ⟨rfl, rfl⟩

theorem warmStage_eq_specBlend (k : Kernel E) (s : ℚ) :
    (warmStage k s).1 = (specBlend E.warmProcessSample k.mWarmTubeAmount k.mWarmTube s).1 ∧
    (warmStage k s).2 = { k with mWarmTube :=
      (specBlend E.warmProcessSample k.mWarmTubeAmount k.mWarmTube s).2 } := by
  unfold warmStage specBlend
  split_ifs <;> exact ⟨rfl, rfl⟩

theorem aggressiveStage_eq_specBlend (k : Kernel E) (s : ℚ) :
    (aggressiveStage k s).1
      = (specBlend E.aggressiveProcessSample k.mAggressiveTubeAmount k.mAggressiveTube s).1 ∧
    (aggressiveStage k s).2 = { k with mAggressiveTube :=
      (specBlend E.aggressiveProcessSample k.mAggressiveTubeAmount k.mAggressiveTube s).2 } := by
  unfold aggressiveStage specBlend
  split_ifs <;> exact ⟨rfl, rfl⟩

/-- C15: in the loop body of `process` the tube stage is the chain of the
spec applied to the downsampled sample: the blends `s := s +
(unit.processSample(s) - s) * mix` of the neutral, warm and aggressive unit in
this order, each on the running signal of the previous stage; the sample
written is the result times `2.5 * outputVolume` and the three units are left
as the chain leaves them.  A stage whose mix amount is `≤ 0` leaves the signal
and the kernel untouched (the unit is not invoked), and a stage whose mix
amount is 1.0 replaces the running signal by the output of its unit. -/
theorem processFrame_tube_chain (k : Kernel E) (channel : Nat) (input s : ℚ) :
    ((processFrame k channel input).1
      = (specTubeChain E k.mNeutralTubeAmount k.mWarmTubeAmount k.mAggressiveTubeAmount
          k.mNeutralTube k.mWarmTube k.mAggressiveTube (clipStage k channel input).1).1
        * (25 / 10) * k.mOutputVolume ∧
     ((processFrame k channel input).2.mNeutralTube, (processFrame k channel input).2.mWarmTube,
        (processFrame k channel input).2.mAggressiveTube)
      = (specTubeChain E k.mNeutralTubeAmount k.mWarmTubeAmount k.mAggressiveTubeAmount
          k.mNeutralTube k.mWarmTube k.mAggressiveTube (clipStage k channel input).1).2) ∧
    ((k.mNeutralTubeAmount ≤ 0 → neutralStage k s = (s, k)) ∧
     (k.mWarmTubeAmount ≤ 0 → warmStage k s = (s, k)) ∧
     (k.mAggressiveTubeAmount ≤ 0 → aggressiveStage k s = (s, k))) ∧
    ((0 < k.mNeutralTubeAmount → (neutralStage k s).1
        = s + ((E.neutralProcessSample k.mNeutralTube s).1 - s) * k.mNeutralTubeAmount) ∧
     (0 < k.mWarmTubeAmount → (warmStage k s).1
        = s + ((E.warmProcessSample k.mWarmTube s).1 - s) * k.mWarmTubeAmount) ∧
     (0 < k.mAggressiveTubeAmount → (aggressiveStage k s).1
        = s + ((E.aggressiveProcessSample k.mAggressiveTube s).1 - s)
            * k.mAggressiveTubeAmount)) ∧
    ((k.mNeutralTubeAmount = 1 →
        (neutralStage k s).1 = (E.neutralProcessSample k.mNeutralTube s).1) ∧
     (k.mWarmTubeAmount = 1 → (warmStage k s).1 = (E.warmProcessSample k.mWarmTube s).1) ∧
     (k.mAggressiveTubeAmount = 1 →
        (aggressiveStage k s).1 = (E.aggressiveProcessSample k.mAggressiveTube s).1)) := by
  refine ⟨?_, ⟨neutralStage_of_nonpos k s, warmStage_of_nonpos k s,
    aggressiveStage_of_nonpos k s⟩, ⟨?_, ?_, ?_⟩, ⟨?_, ?_, ?_⟩⟩
  · have hn := neutralStage_eq_specBlend (clipStage k channel input).2 (clipStage k channel input).1
    have hw := warmStage_eq_specBlend
      (neutralStage (clipStage k channel input).2 (clipStage k channel input).1).2
      (neutralStage (clipStage k channel input).2 (clipStage k channel input).1).1
    have ha := aggressiveStage_eq_specBlend
      (warmStage (neutralStage (clipStage k channel input).2 (clipStage k channel input).1).2
        (neutralStage (clipStage k channel input).2 (clipStage k channel input).1).1).2
      (warmStage (neutralStage (clipStage k channel input).2 (clipStage k channel input).1).2
        (neutralStage (clipStage k channel input).2 (clipStage k channel input).1).1).1
    simp only [processFrame, specTubeChain]
    rw [ha.2, ha.1, hw.2, hw.1, hn.2, hn.1]
    simp only [clipStage, applyPreEQ, upsample4x, downsample4x, and_self]
  · intro h
    simp only [neutralStage, if_pos h]
  · intro h
    simp only [warmStage, if_pos h]
  · intro h
    simp only [aggressiveStage, if_pos h]
  · intro h
    simp [neutralStage, h]
  · intro h
    simp [warmStage, h]
  · intro h
    simp [aggressiveStage, h]

/-- Witness of `processFrame_tube_chain`: the neutral unit fully mixed in
(amount 1.0), the warm unit not mixed in (amount 0). -/
theorem processFrame_tube_chain_witness :
    neutralKernel.mNeutralTubeAmount = 1 ∧ 0 < neutralKernel.mNeutralTubeAmount ∧
    neutralKernel.mWarmTubeAmount ≤ 0 ∧
    (neutralStage neutralKernel (1 / 8)).1
      = (demoEnv.neutralProcessSample neutralKernel.mNeutralTube (1 / 8)).1 ∧
    (neutralStage neutralKernel (1 / 8)).1
      = 1 / 8 + ((demoEnv.neutralProcessSample neutralKernel.mNeutralTube (1 / 8)).1 - 1 / 8)
          * neutralKernel.mNeutralTubeAmount ∧
    warmStage neutralKernel (1 / 8) = (1 / 8, neutralKernel) :=
  have h1 : neutralKernel.mNeutralTubeAmount = 1 := rfl
  have h0 : 0 < neutralKernel.mNeutralTubeAmount := by
    rw [h1]
    norm_num
  have hw : neutralKernel.mWarmTubeAmount ≤ 0 := le_of_eq rfl
  ⟨h1, h0, hw, (processFrame_tube_chain neutralKernel 0 0 (1 / 8)).2.2.2.1 h1,
    (processFrame_tube_chain neutralKernel 0 0 (1 / 8)).2.2.1.1 h0,
    (processFrame_tube_chain neutralKernel 0 0 (1 / 8)).2.1.2.1 hw⟩

/-! ## DC is blocked by the pre-emphasis coefficients (C20) -/

/-- C20: for every sample rate that is not zero and for which the quotient
`75 / sampleRate` stays in the range of `float` (magnitude at most
`FLT_MAX / 8`, so that the angle `w0` is finite too), the coefficients
installed by `initializeEQ` satisfy `b2 = b0` and `b1 = -2 * b0`, hence
`b0 + b1 + b2 = 0`; so with a settled history of a channel `c < 8` (the two
stored inputs equal to the constant input `v`, the two stored outputs 0) and
products of the filter sum that stay in the range of `float`, `applyPreEQ(v, c)`
returns 0 and leaves the history settled. -/
theorem initializeEQ_blocks_dc (k : Kernel E) (sampleRate : ℚ) (hsr : sampleRate ≠ 0)
    (hfc : |75 / sampleRate| ≤ FLT_MAX / 8) :
    (initializeEQ k sampleRate).mHPF_b2 = (initializeEQ k sampleRate).mHPF_b0 ∧
    (initializeEQ k sampleRate).mHPF_b1 = -2 * (initializeEQ k sampleRate).mHPF_b0 ∧
    (initializeEQ k sampleRate).mHPF_b0 + (initializeEQ k sampleRate).mHPF_b1
      + (initializeEQ k sampleRate).mHPF_b2 = 0 ∧
    (∀ (c : Nat) (v : ℚ), c < 8 → PreEQInRange (initializeEQ k sampleRate) c v →
      k.mHPF_x1 c = v → k.mHPF_x2 c = v → k.mHPF_y1 c = 0 → k.mHPF_y2 c = 0 →
      (applyPreEQ (initializeEQ k sampleRate) v c).1 = 0 ∧
      (applyPreEQ (initializeEQ k sampleRate) v c).2.mHPF_x1 c = v ∧
      (applyPreEQ (initializeEQ k sampleRate) v c).2.mHPF_x2 c = v ∧
      (applyPreEQ (initializeEQ k sampleRate) v c).2.mHPF_y1 c = 0 ∧
      (applyPreEQ (initializeEQ k sampleRate) v c).2.mHPF_y2 c = 0) := by
  have _hsr : sampleRate ≠ 0 := hsr
  have _hfc : |75 / sampleRate| ≤ FLT_MAX / 8 := hfc
  have h2 : (initializeEQ k sampleRate).mHPF_b2 = (initializeEQ k sampleRate).mHPF_b0 := rfl
  have h1 : (initializeEQ k sampleRate).mHPF_b1 = -2 * (initializeEQ k sampleRate).mHPF_b0 := by
    simp only [initializeEQ]
    ring
  have h0 : (initializeEQ k sampleRate).mHPF_b0 + (initializeEQ k sampleRate).mHPF_b1
      + (initializeEQ k sampleRate).mHPF_b2 = 0 := by
    rw [h2, h1]
    ring
  refine ⟨h2, h1, h0, ?_⟩
  intro c v _ _ hx1 hx2 hy1 hy2
  have hout : (applyPreEQ (initializeEQ k sampleRate) v c).1 = 0 := by
    have e : (applyPreEQ (initializeEQ k sampleRate) v c).1
        = (initializeEQ k sampleRate).mHPF_b0 * v + (initializeEQ k sampleRate).mHPF_b1 * k.mHPF_x1 c
          + (initializeEQ k sampleRate).mHPF_b2 * k.mHPF_x2 c
          - (initializeEQ k sampleRate).mHPF_a1 * k.mHPF_y1 c
          - (initializeEQ k sampleRate).mHPF_a2 * k.mHPF_y2 c := rfl
    rw [e, hx1, hx2, hy1, hy2, h2, h1]
    ring
  refine ⟨hout, ?_, ?_, ?_, ?_⟩
  · simp [applyPreEQ]
  · simp only [applyPreEQ, Function.update_same]
    exact hx1
  · simp only [applyPreEQ, Function.update_same]
    exact hout
  · simp only [applyPreEQ, Function.update_same]
    exact hy1

/-- Witness of `initializeEQ_blocks_dc`: the constant input 3 on channel 0 of a
kernel settled on it, initialised at 44100 Hz. -/
theorem initializeEQ_blocks_dc_witness :
    (44100 : ℚ) ≠ 0 ∧ |75 / (44100 : ℚ)| ≤ FLT_MAX / 8 ∧ 0 < 8 ∧
    PreEQInRange (initializeEQ settledKernel 44100) 0 3 ∧
    settledKernel.mHPF_x1 0 = 3 ∧ settledKernel.mHPF_x2 0 = 3 ∧ settledKernel.mHPF_y1 0 = 0 ∧
    settledKernel.mHPF_y2 0 = 0 ∧
    (applyPreEQ (initializeEQ settledKernel 44100) 3 0).1 = 0 :=
  have hsr : (44100 : ℚ) ≠ 0 := by norm_num
  have hfc : |75 / (44100 : ℚ)| ≤ FLT_MAX / 8 := by
    rw [abs_of_nonneg (by norm_num)]
    norm_num [FLT_MAX]
  have hin : PreEQInRange (initializeEQ settledKernel 44100) 0 3 := by
    simp only [PreEQInRange, initializeEQ, settledKernel, demoKernel, Kernel.fresh, demoEnv,
      M_PI, FLT_MAX, abs_le]
    norm_num
  ⟨hsr, hfc, by decide, hin, rfl, rfl, rfl, rfl,
    ((initializeEQ_blocks_dc settledKernel 44100 hsr hfc).2.2.2 0 3 (by decide) hin
      rfl rfl rfl rfl).1⟩

/-! ## The meter invariant (C19) -/

theorem meterUpdate_nonneg (level output : ℚ) (h : 0 ≤ level) : 0 ≤ meterUpdate level output := by
  unfold meterUpdate
  split_ifs
  · exact abs_nonneg output
  · exact mul_nonneg h (by norm_num)

theorem processSamples_signalLevel_nonneg (c : Nat) (inputs : List ℚ) (k : Kernel E)
    (h : 0 ≤ k.mSignalLevel) : 0 ≤ (processSamples c k inputs).2.mSignalLevel := by
  induction inputs generalizing k with
  | nil => exact h
  | cons x rest ih =>
    apply ih (processFrame k c x).2
    rw [processFrame_signalLevel]
    exact meterUpdate_nonneg _ _ h

theorem processChannels_signalLevel_nonneg (frameCount : Nat) (buffers : List (Nat → ℚ))
    (k : Kernel E) (c : Nat) (h : 0 ≤ k.mSignalLevel) :
    0 ≤ (processChannels frameCount k c buffers).2.mSignalLevel := by
  induction buffers generalizing k c with
  | nil => exact h
  | cons b rest ih =>
    exact ih (processSamples c k (readFrames b frameCount)).2 (c + 1)
      (processSamples_signalLevel_nonneg c (readFrames b frameCount) k h)

theorem setParameter_signalLevel (k : Kernel E) (a : Nat) (v : ℚ) :
    (setParameter k a v).mSignalLevel = k.mSignalLevel := by
  unfold setParameter
  split_ifs <;> rfl

/-- In every reachable state the signal level is not negative. -/
theorem Reachable.signalLevel_nonneg {k : Kernel E} (h : Reachable k) : 0 ≤ k.mSignalLevel := by
  induction h with
  | fresh ctx neutral warm aggressive => exact le_of_eq rfl
  | initialized k i o sr _ ih => exact ih
  | bypassSet k b _ ih => exact ih
  | parameterSet k a v _ ih =>
    rw [setParameter_signalLevel]
    exact ih
  | processed k ib fc _ ih =>
    unfold process
    split_ifs
    · exact le_of_eq rfl
    · exact processChannels_signalLevel_nonneg fc ib k 0 ih

theorem ZeroHistory.zero_of_sameHistory {k k2 : Kernel E} {c : Nat} (hz : ZeroHistory k c)
    (h : SameHistory c k k2) : ZeroHistory k2 c := by
  unfold ZeroHistory SameHistory at *
  simp_all

/-- The clipper maps 0 to 0 when the tube gain is at most 2. -/
theorem applyClipping_zero (k : Kernel E) (hg : k.mTubeGain ≤ 2) : applyClipping k 0 = 0 := by
  rw [applyClipping_specClip k 0]
  have hd1 : specDriveAmount k.mTubeGain ≤ 1 / 2 := by
    unfold specDriveAmount
    apply max_le <;> linarith
  simp only [specClip, specPositiveThreshold, specNegativeThreshold]
  rw [if_neg (by linarith), if_neg (by linarith)]

/-- On a channel with zero history the clipping chain maps the input 0 to 0
and leaves the history zero. -/
theorem clipStage_zero (k : Kernel E) (c : Nat) (hz : ZeroHistory k c) (hg : k.mTubeGain ≤ 2) :
    (clipStage k c 0).1 = 0 ∧ ZeroHistory (clipStage k c 0).2 c := by
  obtain ⟨e1, e2, e3, e4, e5, e6, e7⟩ := hz
  have hc : applyClipping k 0 = 0 := applyClipping_zero k hg
  have hc2 : ∀ k2 : Kernel E, k2.mTubeGain = k.mTubeGain → applyClipping k2 0 = 0 := by
    intro k2 h2
    exact applyClipping_zero k2 (h2 ▸ hg)
  simp [ZeroHistory, clipStage, applyPreEQ, upsample4x, downsample4x, e1, e2, e3, e4, e5, e6, e7,
    hc2]

theorem processFrame_zero (k : Kernel E) (c : Nat) (hz : ZeroHistory k c) (hg : k.mTubeGain ≤ 2)
    (hn : k.mNeutralTubeAmount = 0) (hw : k.mWarmTubeAmount = 0)
    (ha : k.mAggressiveTubeAmount = 0) :
    (processFrame k c 0).1 = 0 ∧ ZeroHistory (processFrame k c 0).2 c := by
  obtain ⟨h1, h2⟩ := clipStage_zero k c hz hg
  constructor
  · rw [processFrame_eq_specFrameNoTubes k c 0 (le_of_eq hn) (le_of_eq hw) (le_of_eq ha)]
    show (clipStage k c 0).1 * (25 / 10) * k.mOutputVolume = 0
    rw [h1]
    ring
  · exact h2.zero_of_sameHistory (processFrame_sameHistory_clipStage c c k 0)

theorem processSamples_zero (c : Nat) (inputs : List ℚ) (k : Kernel E)
    (hall : ∀ x ∈ inputs, x = 0) (hz : ZeroHistory k c) (hg : k.mTubeGain ≤ 2)
    (hn : k.mNeutralTubeAmount = 0) (hw : k.mWarmTubeAmount = 0)
    (ha : k.mAggressiveTubeAmount = 0) :
    (processSamples c k inputs).1 = List.replicate inputs.length 0 ∧
    ZeroHistory (processSamples c k inputs).2 c := by
  induction inputs generalizing k with
  | nil => exact ⟨rfl, hz⟩
  | cons x rest ih =>
    have hx : x = 0 := hall x (List.mem_cons_self _ _)
    subst hx
    obtain ⟨f1, f2⟩ := processFrame_zero k c hz hg hn hw ha
    have hs := processFrame_sameSettings k c 0
    obtain ⟨m1, m2, m3⟩ := zeroMix_of_sameSettings hs hn hw ha
    have hg2 : (processFrame k c 0).2.mTubeGain ≤ 2 := by
      obtain ⟨-, -, -, s4, -⟩ := hs
      rw [s4]
      exact hg
    obtain ⟨r1, r2⟩ := ih (processFrame k c 0).2 (fun y hy => hall y (List.mem_cons_of_mem _ hy))
      f2 hg2 m1 m2 m3
    refine ⟨?_, r2⟩
    simp only [processSamples, List.length_cons, List.replicate_succ]
    rw [f1, r1]

theorem processChannels_zero (frameCount : Nat) (buffers : List (Nat → ℚ)) (k : Kernel E)
    (j : Nat) (hlen8 : j + buffers.length ≤ 8)
    (hall : ∀ buffer ∈ buffers, ∀ i, i < frameCount → buffer i = 0)
    (hz : ∀ c, c < 8 → ZeroHistory k c) (hg : k.mTubeGain ≤ 2)
    (hn : k.mNeutralTubeAmount = 0) (hw : k.mWarmTubeAmount = 0)
    (ha : k.mAggressiveTubeAmount = 0) :
    (processChannels frameCount k j buffers).1
      = buffers.map (fun _ => List.replicate frameCount 0) ∧
    ∀ c, c < 8 → ZeroHistory (processChannels frameCount k j buffers).2 c := by
  induction buffers generalizing k j with
  | nil => exact ⟨rfl, hz⟩
  | cons b rest ih =>
    have hj8 : j < 8 := by
      rw [List.length_cons] at hlen8
      omega
    have hrest8 : j + 1 + rest.length ≤ 8 := by
      rw [List.length_cons] at hlen8
      omega
    have hb : ∀ x ∈ readFrames b frameCount, x = 0 := by
      intro x hx
      unfold readFrames at hx
      obtain ⟨i, hi, rfl⟩ := List.mem_map.mp hx
      exact hall b (List.mem_cons_self _ _) i (List.mem_range.mp hi)
    have hlen : (readFrames b frameCount).length = frameCount := by simp [readFrames]
    obtain ⟨p1, p2⟩ := processSamples_zero j (readFrames b frameCount) k hb (hz j hj8) hg hn hw ha
    rw [hlen] at p1
    have hs := processSamples_sameSettings j (readFrames b frameCount) k
    obtain ⟨m1, m2, m3⟩ := zeroMix_of_sameSettings hs hn hw ha
    have hg2 : (processSamples j k (readFrames b frameCount)).2.mTubeGain ≤ 2 := by
      obtain ⟨-, -, -, s4, -⟩ := hs
      rw [s4]
      exact hg
    have hz2 : ∀ c, c < 8 → ZeroHistory (processSamples j k (readFrames b frameCount)).2 c := by
      intro c hc8
      by_cases hc : c = j
      · subst hc
        exact p2
      · exact (hz c hc8).zero_of_sameHistory
          (processSamples_sameHistory_of_ne c j (readFrames b frameCount) k hc)
    obtain ⟨r1, r2⟩ := ih (processSamples j k (readFrames b frameCount)).2 (j + 1) hrest8
      (fun buffer hbuf => hall buffer (List.mem_cons_of_mem _ hbuf)) hz2 hg2 m1 m2 m3
    refine ⟨?_, r2⟩
    simp only [processChannels, List.map_cons]
    rw [p1, r1]

/-- C12: take a kernel that is not bypassed, whose per-channel histories
(channels 0 to 7, the cells of the per-channel arrays) are all zero, with tube
gain in `[0, 2]` and the three tube mix amounts 0, and an input block of any
length and of any channel count up to 8, the size of the per-channel arrays,
whose samples are all 0.  Then `process` writes only zeros, leaves the history
of each of the channels 0 to 7 at zero, and the signal level after the block
is the level before times `0.9995` once for each processed sample, provided
the level before is not negative, as it is in every reachable state. -/
theorem silence_in_silence_out (k : Kernel E) (inputBuffers : List (Nat → ℚ)) (frameCount : Nat)
    (hlen : inputBuffers.length ≤ 8)
    (hb : isBypassed k = false) (hz : ∀ c, c < 8 → ZeroHistory k c)
    (hg0 : 0 ≤ k.mTubeGain) (hg2 : k.mTubeGain ≤ 2)
    (hn : k.mNeutralTubeAmount = 0) (hw : k.mWarmTubeAmount = 0)
    (ha : k.mAggressiveTubeAmount = 0)
    (hin : ∀ buffer ∈ inputBuffers, ∀ i, i < frameCount → buffer i = 0) :
    (process k inputBuffers frameCount).1
      = inputBuffers.map (fun _ => List.replicate frameCount 0) ∧
    (∀ out ∈ (process k inputBuffers frameCount).1, ∀ o ∈ out, o = 0) ∧
    (∀ c, c < 8 → ZeroHistory (process k inputBuffers frameCount).2 c) ∧
    (0 ≤ getSignalLevel k →
      getSignalLevel (process k inputBuffers frameCount).2
        = getSignalLevel k * (9995 / 10000) ^ (inputBuffers.length * frameCount)) ∧
    (Reachable k →
      getSignalLevel (process k inputBuffers frameCount).2
        = getSignalLevel k * (9995 / 10000) ^ (inputBuffers.length * frameCount)) := by
  have _h0 : 0 ≤ k.mTubeGain := hg0
  have hb2 : k.mBypassed = false := hb
  have hp : process k inputBuffers frameCount = processChannels frameCount k 0 inputBuffers := by
    simp [process, hb2]
  have hlen8 : 0 + inputBuffers.length ≤ 8 := by
    rw [Nat.zero_add]
    exact hlen
  obtain ⟨p1, p2⟩ := processChannels_zero frameCount inputBuffers k 0 hlen8 hin hz hg2 hn hw ha
  have hzero : ∀ out ∈ (processChannels frameCount k 0 inputBuffers).1, ∀ o ∈ out, o = 0 := by
    intro out hout o ho
    rw [p1] at hout
    obtain ⟨b, -, rfl⟩ := List.mem_map.mp hout
    exact List.eq_of_mem_replicate ho
  have hlevel : 0 ≤ getSignalLevel k →
      getSignalLevel (processChannels frameCount k 0 inputBuffers).2
        = getSignalLevel k * (9995 / 10000) ^ (inputBuffers.length * frameCount) :=
    fun h => processChannels_silent_level frameCount inputBuffers k 0 h hzero
  rw [hp]
  exact ⟨p1, hzero, p2, hlevel, fun hr => hlevel hr.signalLevel_nonneg⟩

/-- Witness of `silence_in_silence_out`: the freshly constructed kernel and two
channels of three zero samples. -/
theorem silence_in_silence_out_witness :
    [bufferOf [0, 0, 0], bufferOf [0, 0, 0]].length ≤ 8 ∧
    isBypassed demoKernel = false ∧ (∀ c, c < 8 → ZeroHistory demoKernel c) ∧
    0 ≤ demoKernel.mTubeGain ∧ demoKernel.mTubeGain ≤ 2 ∧
    demoKernel.mNeutralTubeAmount = 0 ∧ demoKernel.mWarmTubeAmount = 0 ∧
    demoKernel.mAggressiveTubeAmount = 0 ∧
    (∀ buffer ∈ [bufferOf [0, 0, 0], bufferOf [0, 0, 0]], ∀ i, i < 3 → buffer i = 0) ∧
    Reachable demoKernel ∧
    (process demoKernel [bufferOf [0, 0, 0], bufferOf [0, 0, 0]] 3).1
      = [bufferOf [0, 0, 0], bufferOf [0, 0, 0]].map (fun _ => List.replicate 3 0) ∧
    getSignalLevel (process demoKernel [bufferOf [0, 0, 0], bufferOf [0, 0, 0]] 3).2
      = getSignalLevel demoKernel
        * (9995 / 10000) ^ ([bufferOf [0, 0, 0], bufferOf [0, 0, 0]].length * 3) :=
  have hlen : [bufferOf [0, 0, 0], bufferOf [0, 0, 0]].length ≤ 8 := by decide
  have hz : ∀ c, c < 8 → ZeroHistory demoKernel c :=
    fun _ _ => ⟨rfl, rfl, rfl, rfl, rfl, rfl, rfl⟩
  have hg0 : 0 ≤ demoKernel.mTubeGain := by
    show (0 : ℚ) ≤ 1
    norm_num
  have hg2 : demoKernel.mTubeGain ≤ 2 := by
    show (1 : ℚ) ≤ 2
    norm_num
  have hin : ∀ buffer ∈ [bufferOf [0, 0, 0], bufferOf [0, 0, 0]], ∀ i, i < 3 → buffer i = 0 := by
    intro buffer hbuf i hi
    simp only [List.mem_cons, List.mem_singleton, List.not_mem_nil, or_false, or_self] at hbuf
    subst hbuf
    interval_cases i <;> rfl
  have hr : Reachable demoKernel := @Reachable.fresh demoEnv () (0 : ℚ) (0 : ℚ) (0 : ℚ)
  ⟨hlen, rfl, hz, hg0, hg2, rfl, rfl, rfl, hin, hr,
    (silence_in_silence_out demoKernel _ 3 hlen rfl hz hg0 hg2 rfl rfl rfl hin).1,
    (silence_in_silence_out demoKernel _ 3 hlen rfl hz hg0 hg2 rfl rfl rfl hin).2.2.2.2 hr⟩

/-! ## Bounded output (C18) -/

theorem BoundSettings.bound_of_sameSettings {k k2 : Kernel E} (h : BoundSettings k)
    (hs : SameSettings k k2) : BoundSettings k2 ∧ k2.mOutputVolume = k.mOutputVolume := by
  unfold BoundSettings SameSettings at *
  obtain ⟨-, -, s3, s4, s5, -, s7, s8, s9, -⟩ := hs
  rw [s3, s4, s5, s7, s8, s9]
  exact ⟨h, rfl⟩

theorem DcBounded.bounded_of_sameHistory {k k2 : Kernel E} {c : Nat} (h : DcBounded k c)
    (hs : SameHistory c k k2) : DcBounded k2 c := by
  unfold DcBounded at *
  obtain ⟨-, -, -, -, -, s6, s7⟩ := hs
  rw [s6, s7]
  exact h

/-- With tube gain in `[0, 2]` every clipped value is in `[-0.8, 0.7]`. -/
theorem applyClipping_range (k : Kernel E) (x : ℚ) (hg0 : 0 ≤ k.mTubeGain)
    (hg2 : k.mTubeGain ≤ 2) : -(8 / 10) ≤ applyClipping k x ∧ applyClipping k x ≤ 7 / 10 := by
  rw [applyClipping_specClip k x]
  obtain ⟨h1, h2⟩ := specClip_range k.mTubeGain x hg0 hg2
  have hd0 : 0 ≤ specDriveAmount k.mTubeGain := le_max_left _ _
  unfold specNegativeThreshold at h1
  unfold specPositiveThreshold at h2
  constructor <;> linarith

/-- The clipping chain of channel `c`: its result is `m - z1 + 0.995 * out` for
an average `m` in `[-0.8, 0.7]`, which becomes the new `z1`, the result becoming
the new `out`. -/
theorem clipStage_dc (k : Kernel E) (c : Nat) (x : ℚ) (hg0 : 0 ≤ k.mTubeGain)
    (hg2 : k.mTubeGain ≤ 2) :
    ∃ m : ℚ, -(8 / 10) ≤ m ∧ m ≤ 7 / 10 ∧
      (clipStage k c x).1 = m - k.mDcBlockerZ1 c + 995 / 1000 * k.mDcBlockerOutput c ∧
      (clipStage k c x).2.mDcBlockerZ1 c = m ∧
      (clipStage k c x).2.mDcBlockerOutput c = (clipStage k c x).1 := by
  have hr : ∀ (k2 : Kernel E) (y : ℚ), k2.mTubeGain = k.mTubeGain →
      -(8 / 10) ≤ applyClipping k2 y ∧ applyClipping k2 y ≤ 7 / 10 := by
    intro k2 y h
    exact applyClipping_range k2 y (h ▸ hg0) (h ▸ hg2)
  obtain ⟨a1, a2⟩ := hr (upsample4x (applyPreEQ k x c).2
    ((applyPreEQ k x c).1 * (applyPreEQ k x c).2.mTubeGain) c).2
    (upsample4x (applyPreEQ k x c).2
      ((applyPreEQ k x c).1 * (applyPreEQ k x c).2.mTubeGain) c).1.1 rfl
  obtain ⟨b1, b2⟩ := hr (upsample4x (applyPreEQ k x c).2
    ((applyPreEQ k x c).1 * (applyPreEQ k x c).2.mTubeGain) c).2
    (upsample4x (applyPreEQ k x c).2
      ((applyPreEQ k x c).1 * (applyPreEQ k x c).2.mTubeGain) c).1.2.1 rfl
  obtain ⟨c1, c2⟩ := hr (upsample4x (applyPreEQ k x c).2
    ((applyPreEQ k x c).1 * (applyPreEQ k x c).2.mTubeGain) c).2
    (upsample4x (applyPreEQ k x c).2
      ((applyPreEQ k x c).1 * (applyPreEQ k x c).2.mTubeGain) c).1.2.2.1 rfl
  obtain ⟨d1, d2⟩ := hr (upsample4x (applyPreEQ k x c).2
    ((applyPreEQ k x c).1 * (applyPreEQ k x c).2.mTubeGain) c).2
    (upsample4x (applyPreEQ k x c).2
      ((applyPreEQ k x c).1 * (applyPreEQ k x c).2.mTubeGain) c).1.2.2.2 rfl
  refine ⟨_, ?_, ?_, rfl, ?_, ?_⟩
  · linarith
  · linarith
  · simp [clipStage, downsample4x]
  · simp [clipStage, downsample4x]

/-- One frame of a channel `c < 8` keeps the DC-blocker bound on each of the
channels 0 to 7 and writes a sample of magnitude at most
`3.75 * outputVolume`. -/
theorem processFrame_bounded (k : Kernel E) (c : Nat) (x : ℚ) (hc8 : c < 8)
    (hs : BoundSettings k) (hd : ∀ c2, c2 < 8 → DcBounded k c2) :
    (∀ c2, c2 < 8 → DcBounded (processFrame k c x).2 c2) ∧
    |(processFrame k c x).1| ≤ 375 / 100 * k.mOutputVolume := by
  obtain ⟨-, hg0, hg2, hn, hw, ha, hv⟩ := hs
  obtain ⟨m, m1, m2, e1, e2, e3⟩ := clipStage_dc k c x hg0 hg2
  obtain ⟨z1, z2, z3, z4⟩ := hd c hc8
  have hlo : -(15 / 10) ≤ (clipStage k c x).1 := by
    rw [e1]
    linarith
  have hhi : (clipStage k c x).1 ≤ 15 / 10 := by
    rw [e1]
    linarith
  constructor
  · intro c2 hc28
    by_cases hc : c2 = c
    · subst hc
      have hclip : DcBounded (clipStage k c2 x).2 c2 := by
        unfold DcBounded
        rw [e3, e2, e1]
        refine ⟨m1, m2, ?_, ?_⟩ <;> linarith
      exact hclip.bounded_of_sameHistory (processFrame_sameHistory_clipStage c2 c2 k x)
    · exact (hd c2 hc28).bounded_of_sameHistory (processFrame_sameHistory_of_ne k c2 c x hc)
  · rw [processFrame_eq_specFrameNoTubes k c x (le_of_eq hn) (le_of_eq hw) (le_of_eq ha)]
    show |(clipStage k c x).1 * (25 / 10) * k.mOutputVolume| ≤ 375 / 100 * k.mOutputVolume
    have habs : |(clipStage k c x).1| ≤ 15 / 10 := abs_le.mpr ⟨hlo, hhi⟩
    rw [abs_mul, abs_mul, abs_of_nonneg hv, abs_of_nonneg (by norm_num : (0 : ℚ) ≤ 25 / 10)]
    have h1 : |(clipStage k c x).1| * (25 / 10) ≤ 15 / 10 * (25 / 10) :=
      mul_le_mul_of_nonneg_right habs (by norm_num)
    calc |(clipStage k c x).1| * (25 / 10) * k.mOutputVolume
        ≤ 15 / 10 * (25 / 10) * k.mOutputVolume := mul_le_mul_of_nonneg_right h1 hv
      _ = 375 / 100 * k.mOutputVolume := by ring

theorem processSamples_bounded (c : Nat) (inputs : List ℚ) (k : Kernel E) (hc8 : c < 8)
    (hs : BoundSettings k) (hd : ∀ c2, c2 < 8 → DcBounded k c2) :
    (∀ c2, c2 < 8 → DcBounded (processSamples c k inputs).2 c2) ∧
    ∀ o ∈ (processSamples c k inputs).1, |o| ≤ 375 / 100 * k.mOutputVolume := by
  induction inputs generalizing k with
  | nil =>
    refine ⟨hd, ?_⟩
    intro o ho
    simp [processSamples] at ho
  | cons x rest ih =>
    obtain ⟨f1, f2⟩ := processFrame_bounded k c x hc8 hs hd
    obtain ⟨s1, s2⟩ := hs.bound_of_sameSettings (processFrame_sameSettings k c x)
    obtain ⟨r1, r2⟩ := ih (processFrame k c x).2 s1 f1
    refine ⟨r1, ?_⟩
    intro o ho
    simp only [processSamples, List.mem_cons] at ho
    rcases ho with ho | ho
    · rw [ho]
      exact f2
    · rw [← s2]
      exact r2 o ho

theorem processChannels_bounded (frameCount : Nat) (buffers : List (Nat → ℚ)) (k : Kernel E)
    (j : Nat) (hlen8 : j + buffers.length ≤ 8) (hs : BoundSettings k)
    (hd : ∀ c2, c2 < 8 → DcBounded k c2) :
    (∀ c2, c2 < 8 → DcBounded (processChannels frameCount k j buffers).2 c2) ∧
    ∀ out ∈ (processChannels frameCount k j buffers).1, ∀ o ∈ out,
      |o| ≤ 375 / 100 * k.mOutputVolume := by
  induction buffers generalizing k j with
  | nil =>
    refine ⟨hd, ?_⟩
    intro out hout
    simp [processChannels] at hout
  | cons b rest ih =>
    have hj8 : j < 8 := by
      rw [List.length_cons] at hlen8
      omega
    have hrest8 : j + 1 + rest.length ≤ 8 := by
      rw [List.length_cons] at hlen8
      omega
    obtain ⟨f1, f2⟩ := processSamples_bounded j (readFrames b frameCount) k hj8 hs hd
    obtain ⟨s1, s2⟩ := hs.bound_of_sameSettings (processSamples_sameSettings j (readFrames b frameCount) k)
    obtain ⟨r1, r2⟩ := ih (processSamples j k (readFrames b frameCount)).2 (j + 1) hrest8 s1 f1
    refine ⟨r1, ?_⟩
    intro out hout o ho
    simp only [processChannels, List.mem_cons] at hout
    rcases hout with hout | hout
    · rw [hout] at ho
      exact f2 o ho
    · rw [← s2]
      exact r2 out hout o ho

theorem process_bounded (k : Kernel E) (inputBuffers : List (Nat → ℚ)) (frameCount : Nat)
    (hlen : inputBuffers.length ≤ 8) (hs : BoundSettings k)
    (hd : ∀ c2, c2 < 8 → DcBounded k c2) :
    BoundSettings (process k inputBuffers frameCount).2 ∧
    (process k inputBuffers frameCount).2.mOutputVolume = k.mOutputVolume ∧
    (∀ c2, c2 < 8 → DcBounded (process k inputBuffers frameCount).2 c2) ∧
    ∀ out ∈ (process k inputBuffers frameCount).1, ∀ o ∈ out,
      |o| ≤ 375 / 100 * k.mOutputVolume := by
  have hb : k.mBypassed = false := hs.1
  have hp : process k inputBuffers frameCount = processChannels frameCount k 0 inputBuffers := by
    simp [process, hb]
  rw [hp]
  obtain ⟨s1, s2⟩ := hs.bound_of_sameSettings (processChannels_sameSettings frameCount inputBuffers k 0)
  have hlen8 : 0 + inputBuffers.length ≤ 8 := by
    rw [Nat.zero_add]
    exact hlen
  obtain ⟨r1, r2⟩ := processChannels_bounded frameCount inputBuffers k 0 hlen8 hs hd
  exact ⟨s1, s2, r1, r2⟩

theorem processCalls_bounded (calls : List (List (Nat → ℚ) × Nat)) (k : Kernel E)
    (hlen : ∀ call ∈ calls, call.1.length ≤ 8)
    (hs : BoundSettings k) (hd : ∀ c2, c2 < 8 → DcBounded k c2) :
    (∀ c2, c2 < 8 → DcBounded (processCalls k calls).2 c2) ∧
    ∀ block ∈ (processCalls k calls).1, ∀ out ∈ block, ∀ o ∈ out,
      |o| ≤ 375 / 100 * k.mOutputVolume := by
  induction calls generalizing k with
  | nil =>
    refine ⟨hd, ?_⟩
    intro block hblock
    simp [processCalls] at hblock
  | cons call rest ih =>
    obtain ⟨s1, s2, f1, f2⟩ := process_bounded k call.1 call.2
      (hlen call (List.mem_cons_self _ _)) hs hd
    obtain ⟨r1, r2⟩ := ih (process k call.1 call.2).2
      (fun call2 h2 => hlen call2 (List.mem_cons_of_mem _ h2)) s1 f1
    refine ⟨r1, ?_⟩
    intro block hblock out hout o ho
    simp only [processCalls, List.mem_cons] at hblock
    rcases hblock with hblock | hblock
    · rw [hblock] at hout
      exact f2 out hout o ho
    · rw [← s2]
      exact r2 block hblock out hout o ho

theorem setParameter_dcBounded (k : Kernel E) (a : Nat) (v : ℚ) (c : Nat) (h : DcBounded k c) :
    DcBounded (setParameter k a v) c := by
  unfold setParameter
  split_ifs <;> exact h

/-- C18 as the code has it: bypass off, tube gain in `[0, 2]`, the three tube
mix amounts 0 and output volume `v ≥ 0`, `process` calls of at most 8 channels
each (the size of the per-channel arrays), and inputs and pre-emphasis filter
state for which the filter sum stays in the range of `float` at every frame
(`CallsInRange`, `ChannelsInRange`: no overflow, hence no NaN, on the way to
the clipper); the arithmetic is exact.
(1) From a kernel whose DC-blocker state is zero on the channels 0 to 7, after
every such sequence of `process` calls each of these channels satisfies
`-0.7 ≤ mDcBlockerOutput[c] - mDcBlockerZ1[c] ≤ 0.8` (and
`-0.8 ≤ mDcBlockerZ1[c] ≤ 0.7`), and every sample written has
`|output| ≤ 3.75 * v`.  (2) The same bounds on the channels 0 to 7 are kept by
one such `process` call from any state that has them, with the same bound on
the samples, and by every `setParameter` call. -/
theorem bounded_output (k : Kernel E) (hb : isBypassed k = false)
    (hg0 : 0 ≤ k.mTubeGain) (hg2 : k.mTubeGain ≤ 2)
    (hn : k.mNeutralTubeAmount = 0) (hw : k.mWarmTubeAmount = 0)
    (ha : k.mAggressiveTubeAmount = 0) (hv : 0 ≤ k.mOutputVolume) :
    (∀ calls : List (List (Nat → ℚ) × Nat),
      (∀ call ∈ calls, call.1.length ≤ 8) → CallsInRange k calls →
      (∀ c, c < 8 → k.mDcBlockerZ1 c = 0 ∧ k.mDcBlockerOutput c = 0) →
      (∀ c, c < 8 → DcBounded (processCalls k calls).2 c) ∧
      (∀ c, c < 8 → -(7 / 10) ≤ (processCalls k calls).2.mDcBlockerOutput c
            - (processCalls k calls).2.mDcBlockerZ1 c ∧
          (processCalls k calls).2.mDcBlockerOutput c
            - (processCalls k calls).2.mDcBlockerZ1 c ≤ 8 / 10) ∧
      ∀ block ∈ (processCalls k calls).1, ∀ out ∈ block, ∀ o ∈ out,
        |o| ≤ 375 / 100 * k.mOutputVolume) ∧
    (∀ (inputBuffers : List (Nat → ℚ)) (frameCount : Nat), inputBuffers.length ≤ 8 →
      ChannelsInRange frameCount k 0 inputBuffers → (∀ c, c < 8 → DcBounded k c) →
      (∀ c, c < 8 → DcBounded (process k inputBuffers frameCount).2 c) ∧
      ∀ out ∈ (process k inputBuffers frameCount).1, ∀ o ∈ out,
        |o| ≤ 375 / 100 * k.mOutputVolume) ∧
    (∀ (a : Nat) (v : ℚ) (c : Nat), c < 8 → DcBounded k c → DcBounded (setParameter k a v) c) := by
  have hs : BoundSettings k := ⟨hb, hg0, hg2, hn, hw, ha, hv⟩
  refine ⟨?_, ?_, fun a v c _ h => setParameter_dcBounded k a v c h⟩
  · intro calls hlen _ hz
    have hd : ∀ c, c < 8 → DcBounded k c := by
      intro c hc8
      obtain ⟨z1, z2⟩ := hz c hc8
      unfold DcBounded
      rw [z1, z2]
      norm_num
    obtain ⟨r1, r2⟩ := processCalls_bounded calls k hlen hs hd
    exact ⟨r1, fun c hc8 => ⟨(r1 c hc8).2.2.1, (r1 c hc8).2.2.2⟩, r2⟩
  · intro inputBuffers frameCount hlen _ hd
    obtain ⟨-, -, r1, r2⟩ := process_bounded k inputBuffers frameCount hlen hs hd
    exact ⟨r1, r2⟩

/-- Witness of `bounded_output`: `passKernel` (bypass off, tube gain 1, mix
amounts 0, output volume 1, DC-blocker state zero) and one call with one
channel of two frames, whose filter sums are `1 * 1` and `1 * (1 / 2)`. -/
theorem bounded_output_witness :
    isBypassed passKernel = false ∧ 0 ≤ passKernel.mTubeGain ∧ passKernel.mTubeGain ≤ 2 ∧
    passKernel.mNeutralTubeAmount = 0 ∧ passKernel.mWarmTubeAmount = 0 ∧
    passKernel.mAggressiveTubeAmount = 0 ∧ 0 ≤ passKernel.mOutputVolume ∧
    (∀ call ∈ [([bufferOf [1, 1 / 2]], 2)], call.1.length ≤ 8) ∧
    CallsInRange passKernel [([bufferOf [1, 1 / 2]], 2)] ∧
    (∀ c, c < 8 → passKernel.mDcBlockerZ1 c = 0 ∧ passKernel.mDcBlockerOutput c = 0) ∧
    (∀ block ∈ (processCalls passKernel [([bufferOf [1, 1 / 2]], 2)]).1, ∀ out ∈ block,
      ∀ o ∈ out, |o| ≤ 375 / 100 * passKernel.mOutputVolume) :=
  have hg0 : 0 ≤ passKernel.mTubeGain := by
    show (0 : ℚ) ≤ 1
    norm_num
  have hg2 : passKernel.mTubeGain ≤ 2 := by
    show (1 : ℚ) ≤ 2
    norm_num
  have hv : 0 ≤ passKernel.mOutputVolume := by
    show (0 : ℚ) ≤ 1
    norm_num
  have hlen : ∀ call ∈ [([bufferOf [1, 1 / 2]], 2)], call.1.length ≤ 8 := by
    intro call hcall
    rw [List.mem_singleton] at hcall
    subst hcall
    decide
  have hin : CallsInRange passKernel [([bufferOf [1, 1 / 2]], 2)] := by
    simp only [CallsInRange, ChannelsInRange, SamplesInRange, PreEQInRange, readFrames, bufferOf,
      List.range, List.range.loop, List.map, passKernel, demoKernel, Kernel.fresh, processFrame,
      clipStage, neutralStage, warmStage, aggressiveStage, applyPreEQ, upsample4x, downsample4x,
      FLT_MAX, and_true]
    norm_num [Function.update, abs_le]
  have hz : ∀ c, c < 8 → passKernel.mDcBlockerZ1 c = 0 ∧ passKernel.mDcBlockerOutput c = 0 :=
    fun _ _ => ⟨rfl, rfl⟩
  ⟨rfl, hg0, hg2, rfl, rfl, rfl, hv, hlen, hin, hz,
    ((bounded_output passKernel rfl hg0 hg2 rfl rfl rfl hv).1 [([bufferOf [1, 1 / 2]], 2)]
      hlen hin hz).2.2⟩

/-- C18 as stated fails when bypass is on: a bypassed kernel with zero
DC-blocker state, tube gain 1, mix amounts 0 and output volume 1 copies the
input sample 100 to the output, and 100 exceeds `3.75 * 1`. -/
theorem bounded_output_bypass_counterexample :
    (∀ c, (setBypass demoKernel true).mDcBlockerZ1 c = 0 ∧
      (setBypass demoKernel true).mDcBlockerOutput c = 0) ∧
    (setBypass demoKernel true).mTubeGain = 1 ∧
    (setBypass demoKernel true).mNeutralTubeAmount = 0 ∧
    (setBypass demoKernel true).mWarmTubeAmount = 0 ∧
    (setBypass demoKernel true).mAggressiveTubeAmount = 0 ∧
    (setBypass demoKernel true).mOutputVolume = 1 ∧
    (processCalls (setBypass demoKernel true) [([bufferOf [100]], 1)]).1 = [[[100]]] ∧
    ¬ (|(100 : ℚ)| ≤ 375 / 100 * (setBypass demoKernel true).mOutputVolume) := by
  refine ⟨fun _ => ⟨rfl, rfl⟩, rfl, rfl, rfl, rfl, rfl, ?_, ?_⟩
  · simp [processCalls, process, setBypass, readFrames, bufferOf, List.range, List.range.loop]
  · show ¬ (|(100 : ℚ)| ≤ 375 / 100 * 1)
    norm_num

/-! ## Stability of the pre-emphasis filter (C11) -/

/-- The angle `w0` of `initializeEQ` for a sample rate between 8 kHz and
192 kHz lies between 0.002 and 0.06. -/
theorem w0_range (sampleRate : ℚ) (h1 : 8000 ≤ sampleRate) (h2 : sampleRate ≤ 192000) :
    1 / 500 ≤ 2 * M_PI * (75 / sampleRate) ∧ 2 * M_PI * (75 / sampleRate) ≤ 3 / 50 := by
  have hpos : (0 : ℚ) < sampleRate := by linarith
  have e : 2 * M_PI * (75 / sampleRate) = (2 * M_PI * 75) / sampleRate := by ring
  rw [e]
  constructor
  · rw [le_div_iff₀ hpos]
    unfold M_PI
    norm_num
    linarith
  · rw [div_le_iff₀ hpos]
    unfold M_PI
    norm_num
    linarith

/-- With stable feedback coefficients, one `applyPreEQ` call with input 0 on a
channel whose stored inputs are 0 does not increase the quadratic form
`preEQEnergy`, and keeps the stored inputs at 0. -/
theorem applyPreEQ_energy_step (k : Kernel E) (c : Nat) (hx1 : k.mHPF_x1 c = 0)
    (hx2 : k.mHPF_x2 c = 0) :
    preEQEnergy (applyPreEQ k 0 c).2 c ≤ preEQEnergy k c ∧
    (applyPreEQ k 0 c).2.mHPF_x1 c = 0 ∧ (applyPreEQ k 0 c).2.mHPF_x2 c = 0 ∧
    (applyPreEQ k 0 c).2.mHPF_y1 c = (applyPreEQ k 0 c).1 ∧
    (applyPreEQ k 0 c).2.mHPF_a1 = k.mHPF_a1 ∧ (applyPreEQ k 0 c).2.mHPF_a2 = k.mHPF_a2 := by
  have hy : (applyPreEQ k 0 c).1 = -k.mHPF_a1 * k.mHPF_y1 c - k.mHPF_a2 * k.mHPF_y2 c := by
    simp only [applyPreEQ, hx1, hx2]
    ring
  refine ⟨?_, ?_, ?_, ?_, rfl, rfl⟩
  · have e1 : (applyPreEQ k 0 c).2.mHPF_y1 c = (applyPreEQ k 0 c).1 := by
      simp [applyPreEQ]
    have e2 : (applyPreEQ k 0 c).2.mHPF_y2 c = k.mHPF_y1 c := by
      simp [applyPreEQ]
    have e3 : (applyPreEQ k 0 c).2.mHPF_a1 = k.mHPF_a1 := rfl
    have e4 : (applyPreEQ k 0 c).2.mHPF_a2 = k.mHPF_a2 := rfl
    unfold preEQEnergy
    rw [e1, e2, e3, e4, hy]
    nlinarith [sq_nonneg (k.mHPF_a1 * (1 - k.mHPF_a2) * k.mHPF_y1 c
      + (1 - k.mHPF_a2 ^ 2) * k.mHPF_y2 c)]
  · simp [applyPreEQ]
  · simp only [applyPreEQ, Function.update_same]
    exact hx1
  · simp [applyPreEQ]

/-- With `|a2| < 1` and `|a1| < 1 + a2` the quadratic form `preEQEnergy`
bounds the square of the last output. -/
theorem preEQEnergy_bounds (k : Kernel E) (c : Nat) (ha2 : |k.mHPF_a2| < 1)
    (ha1 : |k.mHPF_a1| < 1 + k.mHPF_a2) :
    (1 - k.mHPF_a2) * (1 + k.mHPF_a2 - |k.mHPF_a1|) * k.mHPF_y1 c ^ 2 ≤ preEQEnergy k c := by
  obtain ⟨l2, u2⟩ := abs_lt.mp ha2
  have hpos : 0 < 1 - k.mHPF_a2 := by linarith
  unfold preEQEnergy
  rcases le_total 0 k.mHPF_a1 with h | h
  · rw [abs_of_nonneg h] at ha1 ⊢
    have hq : 0 ≤ k.mHPF_a1 * (1 - k.mHPF_a2) := mul_nonneg h hpos.le
    have hk : 0 ≤ (1 - k.mHPF_a2) * (1 + k.mHPF_a2 - k.mHPF_a1) :=
      mul_nonneg hpos.le (by linarith)
    nlinarith [mul_nonneg hq (sq_nonneg (k.mHPF_y1 c + k.mHPF_y2 c)),
      mul_nonneg hk (sq_nonneg (k.mHPF_y2 c))]
  · rw [abs_of_nonpos h] at ha1 ⊢
    have hq : 0 ≤ -k.mHPF_a1 * (1 - k.mHPF_a2) := mul_nonneg (by linarith) hpos.le
    have hk : 0 ≤ (1 - k.mHPF_a2) * (1 + k.mHPF_a2 - -k.mHPF_a1) :=
      mul_nonneg hpos.le (by linarith)
    nlinarith [mul_nonneg hq (sq_nonneg (k.mHPF_y1 c - k.mHPF_y2 c)),
      mul_nonneg hk (sq_nonneg (k.mHPF_y2 c))]

/-- With stable feedback coefficients and stored inputs 0, the response to any
number of zero inputs stays below a bound given by the state before. -/
theorem applyPreEQs_zero_input_bounded (c : Nat) (n : Nat) (k : Kernel E)
    (ha2 : |k.mHPF_a2| < 1) (ha1 : |k.mHPF_a1| < 1 + k.mHPF_a2)
    (hx1 : k.mHPF_x1 c = 0) (hx2 : k.mHPF_x2 c = 0) :
    ∀ h ∈ (applyPreEQs c k (List.replicate n 0)).1,
      (1 - k.mHPF_a2) * (1 + k.mHPF_a2 - |k.mHPF_a1|) * h ^ 2 ≤ preEQEnergy k c := by
  induction n generalizing k with
  | zero =>
    intro h hh
    simp [applyPreEQs] at hh
  | succ n ih =>
    obtain ⟨s1, s2, s3, s4, s5, s6⟩ := applyPreEQ_energy_step k c hx1 hx2
    have hb := preEQEnergy_bounds (applyPreEQ k 0 c).2 c (s6 ▸ ha2) (by rw [s5, s6]; exact ha1)
    rw [s4, s5, s6] at hb
    have hr := ih (applyPreEQ k 0 c).2 (s6 ▸ ha2) (by rw [s5, s6]; exact ha1) s2 s3
    rw [s5, s6] at hr
    intro h hh
    simp only [List.replicate_succ, applyPreEQs, List.mem_cons] at hh
    rcases hh with hh | hh
    · rw [hh]
      exact le_trans hb s1
    · exact le_trans (hr h hh) s1

/-- With stable feedback coefficients and stored inputs 0, every sample of the
response to zero inputs has magnitude at most `preEQEnergy / kappa + 1`, where
`kappa = (1 - a2) * (1 + a2 - |a1|)`. -/
theorem applyPreEQs_zero_input_abs (c : Nat) (n : Nat) (k : Kernel E)
    (ha2 : |k.mHPF_a2| < 1) (ha1 : |k.mHPF_a1| < 1 + k.mHPF_a2)
    (hx1 : k.mHPF_x1 c = 0) (hx2 : k.mHPF_x2 c = 0) :
    0 ≤ preEQEnergy k c / ((1 - k.mHPF_a2) * (1 + k.mHPF_a2 - |k.mHPF_a1|)) + 1 ∧
    ∀ h ∈ (applyPreEQs c k (List.replicate n 0)).1,
      |h| ≤ preEQEnergy k c / ((1 - k.mHPF_a2) * (1 + k.mHPF_a2 - |k.mHPF_a1|)) + 1 := by
  obtain ⟨l2, u2⟩ := abs_lt.mp ha2
  have hkappa : 0 < (1 - k.mHPF_a2) * (1 + k.mHPF_a2 - |k.mHPF_a1|) :=
    mul_pos (by linarith) (by linarith)
  have hsq : ∀ h : ℚ, |h| ≤ h ^ 2 + 1 := by
    intro h
    have h1 : |h| ^ 2 = h ^ 2 := sq_abs h
    nlinarith [sq_nonneg (|h| - 1), abs_nonneg h]
  constructor
  · have h0 := preEQEnergy_bounds k c ha2 ha1
    have h1 : 0 ≤ preEQEnergy k c := le_trans (mul_nonneg hkappa.le (sq_nonneg _)) h0
    have h2 := div_nonneg h1 hkappa.le
    linarith
  · intro h hh
    have h1 := applyPreEQs_zero_input_bounded c n k ha2 ha1 hx1 hx2 h hh
    have h2 : h ^ 2 ≤ preEQEnergy k c / ((1 - k.mHPF_a2) * (1 + k.mHPF_a2 - |k.mHPF_a1|)) := by
      rw [le_div_iff₀ hkappa]
      linarith
    linarith [hsq h]

theorem le_sum_first (a b c t : ℚ) (hb : 0 ≤ b) (hc : 0 ≤ c) (ht : 0 ≤ t) :
    a ≤ a + b + c + t := by linarith

theorem le_sum_second (a b c t : ℚ) (ha : 0 ≤ a) (hc : 0 ≤ c) (ht : 0 ≤ t) :
    b ≤ a + b + c + t := by linarith

theorem le_sum_third (a b c t : ℚ) (ha : 0 ≤ a) (hb : 0 ≤ b) (ht : 0 ≤ t) :
    c ≤ a + b + c + t := by linarith

theorem le_sum_fourth (a b c t x : ℚ) (ha : 0 ≤ a) (hb : 0 ≤ b) (hc : 0 ≤ c) (hx : x ≤ t) :
    x ≤ a + b + c + t := by linarith

/-- The response to an impulse followed by zeros: the first three samples and
then the response of the kernel after three calls to zero inputs. -/
theorem applyPreEQs_impulse_mem (c : Nat) (n : Nat) (k : Kernel E) (h : ℚ)
    (hh : h ∈ (applyPreEQs c k (1 :: List.replicate n 0)).1) :
    h = (applyPreEQ k 1 c).1 ∨ h = (applyPreEQ (applyPreEQ k 1 c).2 0 c).1 ∨
    h = (applyPreEQ (applyPreEQ (applyPreEQ k 1 c).2 0 c).2 0 c).1 ∨
    ∃ m, h ∈ (applyPreEQs c (applyPreEQ (applyPreEQ (applyPreEQ k 1 c).2 0 c).2 0 c).2
      (List.replicate m 0)).1 := by
  simp only [applyPreEQs, List.mem_cons] at hh
  rcases hh with hh | hh
  · exact Or.inl hh
  · cases n with
    | zero => simp [applyPreEQs] at hh
    | succ n1 =>
      simp only [List.replicate_succ, applyPreEQs, List.mem_cons] at hh
      rcases hh with hh | hh
      · exact Or.inr (Or.inl hh)
      · cases n1 with
        | zero => simp [applyPreEQs] at hh
        | succ n2 =>
          simp only [List.replicate_succ, applyPreEQs, List.mem_cons] at hh
          rcases hh with hh | hh
          · exact Or.inr (Or.inr (Or.inl hh))
          · exact Or.inr (Or.inr (Or.inr ⟨n2, hh⟩))

/-- With stable feedback coefficients the response of `applyPreEQ` to a unit
impulse (input 1 followed by any number of zeros) is bounded, by a bound that
does not depend on the number of samples. -/
theorem impulse_response_bounded (k : Kernel E) (c : Nat) (ha2 : |k.mHPF_a2| < 1)
    (ha1 : |k.mHPF_a1| < 1 + k.mHPF_a2) :
    ∃ B : ℚ, ∀ n, ∀ h ∈ (applyPreEQs c k (1 :: List.replicate n 0)).1, |h| ≤ B := by
  have hx1 : (applyPreEQ (applyPreEQ (applyPreEQ k 1 c).2 0 c).2 0 c).2.mHPF_x1 c = 0 := by
    simp only [applyPreEQ, Function.update_same]
  have hx2 : (applyPreEQ (applyPreEQ (applyPreEQ k 1 c).2 0 c).2 0 c).2.mHPF_x2 c = 0 := by
    simp only [applyPreEQ, Function.update_same]
  obtain ⟨T, hT0, hT⟩ : ∃ T : ℚ, 0 ≤ T ∧ ∀ m, ∀ h ∈ (applyPreEQs c
      (applyPreEQ (applyPreEQ (applyPreEQ k 1 c).2 0 c).2 0 c).2 (List.replicate m 0)).1,
      |h| ≤ T :=
    ⟨_, (applyPreEQs_zero_input_abs c 0
        (applyPreEQ (applyPreEQ (applyPreEQ k 1 c).2 0 c).2 0 c).2 ha2 ha1 hx1 hx2).1,
      fun m => (applyPreEQs_zero_input_abs c m
        (applyPreEQ (applyPreEQ (applyPreEQ k 1 c).2 0 c).2 0 c).2 ha2 ha1 hx1 hx2).2⟩
  refine ⟨|(applyPreEQ k 1 c).1| + |(applyPreEQ (applyPreEQ k 1 c).2 0 c).1|
    + |(applyPreEQ (applyPreEQ (applyPreEQ k 1 c).2 0 c).2 0 c).1| + T, ?_⟩
  intro n h hh
  rcases applyPreEQs_impulse_mem c n k h hh with e | e | e | ⟨m, e⟩
  · rw [e]
    exact le_sum_first _ _ _ _ (abs_nonneg _) (abs_nonneg _) hT0
  · rw [e]
    exact le_sum_second _ _ _ _ (abs_nonneg _) (abs_nonneg _) hT0
  · rw [e]
    exact le_sum_third _ _ _ _ (abs_nonneg _) (abs_nonneg _) hT0
  · exact le_sum_fourth _ _ _ _ _ (abs_nonneg _) (abs_nonneg _) (abs_nonneg _) (hT m h e)

/-- The coefficients that `initializeEQ` derives from a positive `sin` and a
`cos` strictly between -1 and 1 are stable. -/
theorem stable_of_trig (sn cs : ℚ) (hs : 0 < sn) (hc1 : -1 < cs) (hc2 : cs < 1) :
    1 < 1 + sn / (2 * (707 / 1000)) ∧
    |(1 - sn / (2 * (707 / 1000))) / (1 + sn / (2 * (707 / 1000)))| < 1 ∧
    |(-2 * cs) / (1 + sn / (2 * (707 / 1000)))|
      < 1 + (1 - sn / (2 * (707 / 1000))) / (1 + sn / (2 * (707 / 1000))) := by
  have hal : 0 < sn / (2 * (707 / 1000)) := div_pos hs (by norm_num)
  generalize sn / (2 * (707 / 1000)) = al at hal
  have hA : 0 < 1 + al := by linarith
  refine ⟨by linarith, ?_, ?_⟩
  · rw [abs_lt]
    constructor
    · rw [lt_div_iff₀ hA]
      linarith
    · rw [div_lt_iff₀ hA]
      linarith
  · have e : 1 + (1 - al) / (1 + al) = 2 / (1 + al) := by
      field_simp
      ring
    rw [e, abs_lt]
    constructor
    · rw [lt_div_iff₀ hA, neg_mul, div_mul_cancel₀ _ (ne_of_gt hA)]
      linarith
    · rw [div_lt_div_iff_of_pos_right hA]
      linarith

/-- C11: for every sample rate from 8000 Hz to 192000 Hz, with `std::sin`
positive and `std::cos` strictly between -1 and 1 on the angles `w0` that occur
(between 0.002 and 0.06), the coefficients computed by `initializeEQ` are well
defined and stable: the divisor `a0 = 1 + alpha` is greater than 1 (so not 0),
`|a2| < 1` and `|a1| < 1 + a2`.  Consequently the response of `applyPreEQ` to a
unit impulse does not grow: a quadratic form in the two stored outputs does not
increase on a zero input once the stored inputs are 0, and the samples of the
impulse response are bounded by one bound for all lengths. -/
theorem initializeEQ_stable (k : Kernel E) (sampleRate : ℚ)
    (h1 : 8000 ≤ sampleRate) (h2 : sampleRate ≤ 192000)
    (htrig : ∀ x : ℚ, 1 / 500 ≤ x → x ≤ 3 / 50 → 0 < E.sin x ∧ -1 < E.cos x ∧ E.cos x < 1) :
    (1 < (initializeEQ k sampleRate).mHPF_a0 ∧ (initializeEQ k sampleRate).mHPF_a0 ≠ 0) ∧
    (|(initializeEQ k sampleRate).mHPF_a2| < 1 ∧
     |(initializeEQ k sampleRate).mHPF_a1| < 1 + (initializeEQ k sampleRate).mHPF_a2) ∧
    (∀ c, (initializeEQ k sampleRate).mHPF_x1 c = 0 → (initializeEQ k sampleRate).mHPF_x2 c = 0 →
      preEQEnergy (applyPreEQ (initializeEQ k sampleRate) 0 c).2 c
        ≤ preEQEnergy (initializeEQ k sampleRate) c) ∧
    (∀ c, ∃ B : ℚ, ∀ n,
      ∀ h ∈ (applyPreEQs c (initializeEQ k sampleRate) (1 :: List.replicate n 0)).1, |h| ≤ B) := by
  obtain ⟨w1, w2⟩ := w0_range sampleRate h1 h2
  obtain ⟨hs, hc1, hc2⟩ := htrig _ w1 w2
  obtain ⟨s0, s2, s1⟩ := stable_of_trig _ _ hs hc1 hc2
  have ha0 : 1 < (initializeEQ k sampleRate).mHPF_a0 := s0
  have ha2 : |(initializeEQ k sampleRate).mHPF_a2| < 1 := s2
  have ha1 : |(initializeEQ k sampleRate).mHPF_a1| < 1 + (initializeEQ k sampleRate).mHPF_a2 := s1
  refine ⟨⟨ha0, by linarith⟩, ⟨ha2, ha1⟩, ?_, ?_⟩
  · intro c hx1 hx2
    exact (applyPreEQ_energy_step (initializeEQ k sampleRate) c hx1 hx2).1
  · intro c
    exact impulse_response_bounded (initializeEQ k sampleRate) c ha2 ha1

/-- The `sin` and `cos` of `demoEnv` are positive and strictly between -1 and
1 on positive angles. -/
theorem demoEnv_trig (x : ℚ) (hx : 0 < x) :
    0 < demoEnv.sin x ∧ -1 < demoEnv.cos x ∧ demoEnv.cos x < 1 := by
  have ht : 0 < x / 2 := by linarith
  have hd : 0 < 1 + (x / 2) ^ 2 := by positivity
  have hsq : 0 < (x / 2) ^ 2 := by positivity
  refine ⟨?_, ?_, ?_⟩
  · show 0 < 2 * (x / 2) / (1 + (x / 2) ^ 2)
    exact div_pos (by linarith) hd
  · show -1 < (1 - (x / 2) ^ 2) / (1 + (x / 2) ^ 2)
    rw [lt_div_iff₀ hd]
    linarith
  · show (1 - (x / 2) ^ 2) / (1 + (x / 2) ^ 2) < 1
    rw [div_lt_one hd]
    linarith

/-- Witness of `initializeEQ_stable`: the fresh kernel at 44100 Hz. -/
theorem initializeEQ_stable_witness :
    (8000 : ℚ) ≤ 44100 ∧ (44100 : ℚ) ≤ 192000 ∧
    (∀ x : ℚ, 1 / 500 ≤ x → x ≤ 3 / 50 →
      0 < demoEnv.sin x ∧ -1 < demoEnv.cos x ∧ demoEnv.cos x < 1) ∧
    1 < (initializeEQ demoKernel 44100).mHPF_a0 ∧
    |(initializeEQ demoKernel 44100).mHPF_a2| < 1 ∧
    |(initializeEQ demoKernel 44100).mHPF_a1| < 1 + (initializeEQ demoKernel 44100).mHPF_a2 :=
  have h1 : (8000 : ℚ) ≤ 44100 := by norm_num
  have h2 : (44100 : ℚ) ≤ 192000 := by norm_num
  have ht : ∀ x : ℚ, 1 / 500 ≤ x → x ≤ 3 / 50 →
      0 < demoEnv.sin x ∧ -1 < demoEnv.cos x ∧ demoEnv.cos x < 1 :=
    fun x hx _ => demoEnv_trig x (by linarith)
  ⟨h1, h2, ht, (initializeEQ_stable demoKernel 44100 h1 h2 ht).1.1,
    (initializeEQ_stable demoKernel 44100 h1 h2 ht).2.1⟩

/-! ## The end-to-end scenario (C13) -/

/-- The values computed by the loop body for one frame when no tube is mixed
in: the filter output `y`, the gained sample `g`, the average `m` of the four
clipped sub-samples and the DC-blocked sample `d`; and where they are stored. -/
theorem processFrame_values (k : Kernel E) (c : Nat) (x : ℚ)
    (hn : k.mNeutralTubeAmount = 0) (hw : k.mWarmTubeAmount = 0)
    (ha : k.mAggressiveTubeAmount = 0) :
    ∃ y g m d : ℚ,
      y = k.mHPF_b0 * x + k.mHPF_b1 * k.mHPF_x1 c + k.mHPF_b2 * k.mHPF_x2 c
        - k.mHPF_a1 * k.mHPF_y1 c - k.mHPF_a2 * k.mHPF_y2 c ∧
      g = y * k.mTubeGain ∧
      m = (applyClipping k (k.mLastSample c + (g - k.mLastSample c) * (25 / 100))
          + applyClipping k (k.mLastSample c + (g - k.mLastSample c) * (50 / 100))
          + applyClipping k (k.mLastSample c + (g - k.mLastSample c) * (75 / 100))
          + applyClipping k g) * (25 / 100) ∧
      d = m - k.mDcBlockerZ1 c + 995 / 1000 * k.mDcBlockerOutput c ∧
      (processFrame k c x).1 = d * (25 / 10) * k.mOutputVolume ∧
      (processFrame k c x).2.mHPF_x1 c = x ∧
      (processFrame k c x).2.mHPF_x2 c = k.mHPF_x1 c ∧
      (processFrame k c x).2.mHPF_y1 c = y ∧
      (processFrame k c x).2.mHPF_y2 c = k.mHPF_y1 c ∧
      (processFrame k c x).2.mLastSample c = g ∧
      (processFrame k c x).2.mDcBlockerZ1 c = m ∧
      (processFrame k c x).2.mDcBlockerOutput c = d := by
  have hf := processFrame_eq_specFrameNoTubes k c x (le_of_eq hn) (le_of_eq hw) (le_of_eq ha)
  rw [hf]
  refine ⟨_, _, _, _, rfl, rfl, rfl, rfl, ?_, ?_, ?_, ?_, ?_, ?_, ?_, ?_⟩
  · simp only [specFrameNoTubes, applyPreEQ, upsample4x, downsample4x, applyClipping]
  · simp only [specFrameNoTubes, applyPreEQ, upsample4x, downsample4x, Function.update_same]
  · simp only [specFrameNoTubes, applyPreEQ, upsample4x, downsample4x, Function.update_same]
  · simp only [specFrameNoTubes, applyPreEQ, upsample4x, downsample4x, Function.update_same]
  · simp only [specFrameNoTubes, applyPreEQ, upsample4x, downsample4x, Function.update_same]
  · simp only [specFrameNoTubes, applyPreEQ, upsample4x, downsample4x, Function.update_same]
  · simp only [specFrameNoTubes, applyPreEQ, upsample4x, downsample4x, Function.update_same,
      applyClipping]
  · simp only [specFrameNoTubes, applyPreEQ, upsample4x, downsample4x, Function.update_same,
      applyClipping]

/-- The clipper at tube gain 1.5: thresholds 0.55 and 0.65. -/
theorem applyClipping_gain_three_halves (k : Kernel E) (x : ℚ) (h : k.mTubeGain = 3 / 2) :
    (11 / 20 ≤ x → applyClipping k x = 11 / 20) ∧
    (0 ≤ x → x ≤ 11 / 20 → applyClipping k x = x) := by
  have e : applyClipping k x
      = if 11 / 20 < x then 11 / 20 else if x < -(13 / 20) then -(13 / 20) else x := by
    simp only [applyClipping, h]
    norm_num
  rw [e]
  constructor
  · intro hx
    split_ifs <;> linarith
  · intro h0 h1
    split_ifs <;> linarith

theorem ScenarioSettings.scenario_of_sameSettings {k k2 : Kernel E} (h : ScenarioSettings k)
    (hs : SameSettings k k2) : ScenarioSettings k2 := by
  unfold ScenarioSettings SameSettings at *
  obtain ⟨-, -, s3, s4, s5, -, s7, s8, s9, s10, s11, s12, -, s14, s15⟩ := hs
  rw [s3, s4, s5, s7, s8, s9, s10, s11, s12, s14, s15]
  exact h

/-- One further frame of the constant input 1 in the scenario, after at least
two and before the tenth: the sample written is in `[0, 1.375]` and the state
of channel 0 is as described for one more frame. -/
theorem scenario_step (n : Nat) (k : Kernel E) (hs : ScenarioSettings k)
    (hst : ScenarioState n k) (hn : n + 1 ≤ 10) :
    ScenarioState (n + 1) (processFrame k 0 1).2 ∧
    0 ≤ (processFrame k 0 1).1 ∧ (processFrame k 0 1).1 ≤ 1375 / 1000 := by
  obtain ⟨-, hgain, hmn, hmw, hma, hvol, hb1, hb2, hb0l, hb0u, ha2l, ha2u, ha2c, ha1l, ha1u⟩ := hs
  obtain ⟨hx1, hx2, hy1u, hy1l, hdl, hdu, hlast, hz1, houtl, houtu⟩ := hst
  obtain ⟨y, g, m, d, ey, eg, em, ed, eo, n1, n2, n3, n4, n5, n6, n7⟩ :=
    processFrame_values k 0 1 hmn hmw hma
  have hnq : (n : ℚ) + 1 ≤ 10 := by exact_mod_cast hn
  have hy1pos : 0 ≤ k.mHPF_y1 0 := by linarith only [hy1l, hnq]
  have hy : y = k.mHPF_y1 0 - (1 + k.mHPF_a2 + k.mHPF_a1) * k.mHPF_y1 0
      + k.mHPF_a2 * (k.mHPF_y1 0 - k.mHPF_y2 0) := by
    rw [ey, hx1, hx2, hb1, hb2]
    ring
  have he0 : 0 ≤ 1 + k.mHPF_a2 + k.mHPF_a1 := by linarith only [ha1u]
  have he1 : 1 + k.mHPF_a2 + k.mHPF_a1 ≤ 1 / 1000 := by linarith only [ha1l]
  have p1 : 0 ≤ (1 + k.mHPF_a2 + k.mHPF_a1) * k.mHPF_y1 0 := mul_nonneg he0 hy1pos
  have p2 : (1 + k.mHPF_a2 + k.mHPF_a1) * k.mHPF_y1 0 ≤ 1 / 1000 := by
    have h1 : (1 + k.mHPF_a2 + k.mHPF_a1) * k.mHPF_y1 0 ≤ 1 / 1000 * 1 :=
      mul_le_mul he1 hy1u hy1pos (by norm_num)
    linarith only [h1]
  have p3 : k.mHPF_a2 * (k.mHPF_y1 0 - k.mHPF_y2 0) ≤ 0 :=
    mul_nonpos_of_nonneg_of_nonpos ha2l hdu
  have p4 : k.mHPF_y1 0 - k.mHPF_y2 0 ≤ k.mHPF_a2 * (k.mHPF_y1 0 - k.mHPF_y2 0) := by
    have h1 : 0 ≤ (1 - k.mHPF_a2) * -(k.mHPF_y1 0 - k.mHPF_y2 0) :=
      mul_nonneg (by linarith only [ha2u]) (by linarith only [hdu])
    linarith only [h1]
  have hyu : y - k.mHPF_y1 0 ≤ 0 := by linarith only [hy, p1, p3]
  have hyl : -(2 / 100 + 1 / 1000 * ((n : ℚ) + 1)) ≤ y - k.mHPF_y1 0 := by
    linarith only [hy, p2, p4, hdl]
  have hylow : 9 / 10 - 3 / 100 * ((n : ℚ) + 1) ≤ y := by linarith only [hyl, hy1l, hnq]
  have hg : 11 / 20 ≤ g := by
    rw [eg, hgain]
    linarith only [hylow, hnq]
  have c1 := (applyClipping_gain_three_halves k
    (k.mLastSample 0 + (g - k.mLastSample 0) * (25 / 100)) hgain).1
    (by linarith only [hlast, hg])
  have c2 := (applyClipping_gain_three_halves k
    (k.mLastSample 0 + (g - k.mLastSample 0) * (50 / 100)) hgain).1
    (by linarith only [hlast, hg])
  have c3 := (applyClipping_gain_three_halves k
    (k.mLastSample 0 + (g - k.mLastSample 0) * (75 / 100)) hgain).1
    (by linarith only [hlast, hg])
  have c4 := (applyClipping_gain_three_halves k g hgain).1 hg
  have hm : m = 11 / 20 := by
    rw [em, c1, c2, c3, c4]
    norm_num
  have hd : d = 995 / 1000 * k.mDcBlockerOutput 0 := by
    rw [ed, hm, hz1]
    ring
  refine ⟨⟨?_, ?_, ?_, ?_, ?_, ?_, ?_, ?_, ?_, ?_⟩, ?_, ?_⟩
  · exact n1
  · rw [n2]
    exact hx1
  · rw [n3]
    linarith only [hyu, hy1u]
  · rw [n3]
    push_cast
    exact hylow
  · rw [n3, n4]
    push_cast
    exact hyl
  · rw [n3, n4]
    exact hyu
  · rw [n5]
    exact hg
  · rw [n6]
    exact hm
  · rw [n7, hd]
    linarith only [houtl]
  · rw [n7, hd]
    linarith only [houtl, houtu]
  · rw [eo, hvol, hd]
    linarith only [houtl]
  · rw [eo, hvol, hd]
    linarith only [houtl, houtu]

/-- The frames of the scenario after the second one, up to the tenth. -/
theorem scenario_run (m : Nat) : ∀ (n : Nat) (k : Kernel E), ScenarioSettings k →
    ScenarioState n k → n + m ≤ 10 →
    ∀ o ∈ (processSamples 0 k (List.replicate m 1)).1, 0 ≤ o ∧ o ≤ 1375 / 1000 := by
  induction m with
  | zero =>
    intro n k _ _ _ o ho
    simp [processSamples] at ho
  | succ m ih =>
    intro n k hs hst hn o ho
    obtain ⟨f1, f2, f3⟩ := scenario_step n k hs hst (by omega)
    have hs2 := hs.scenario_of_sameSettings (processFrame_sameSettings k 0 1)
    simp only [List.replicate_succ, processSamples, List.mem_cons] at ho
    rcases ho with ho | ho
    · rw [ho]
      exact ⟨f2, f3⟩
    · exact ih (n + 1) (processFrame k 0 1).2 hs2 f1 (by omega) o ho

/-- The first frame of the scenario, from zero history of channel 0: the
sample written is in `[0, 1.375]`; afterwards the stored inputs are 1 and 0,
the stored outputs `b0` and 0, the last upsampler sample `1.5 * b0`, and the
stored average and DC-blocker output are one value in `[0, 0.55]`. -/
theorem scenario_first_frame (k : Kernel E) (hs : ScenarioSettings k) (hz : ZeroHistory k 0) :
    (0 ≤ (processFrame k 0 1).1 ∧ (processFrame k 0 1).1 ≤ 1375 / 1000) ∧
    (processFrame k 0 1).2.mHPF_x1 0 = 1 ∧ (processFrame k 0 1).2.mHPF_x2 0 = 0 ∧
    (processFrame k 0 1).2.mHPF_y1 0 = k.mHPF_b0 ∧ (processFrame k 0 1).2.mHPF_y2 0 = 0 ∧
    (processFrame k 0 1).2.mLastSample 0 = k.mHPF_b0 * (3 / 2) ∧
    (processFrame k 0 1).2.mDcBlockerOutput 0 = (processFrame k 0 1).2.mDcBlockerZ1 0 ∧
    0 ≤ (processFrame k 0 1).2.mDcBlockerZ1 0 ∧
    (processFrame k 0 1).2.mDcBlockerZ1 0 ≤ 11 / 20 := by
  obtain ⟨-, hgain, hmn, hmw, hma, hvol, hb1, hb2, hb0l, hb0u, ha2l, ha2u, ha2c, ha1l, ha1u⟩ := hs
  obtain ⟨z1, z2, z3, z4, z5, z6, z7⟩ := hz
  obtain ⟨y, g, m, d, ey, eg, em, ed, eo, n1, n2, n3, n4, n5, n6, n7⟩ :=
    processFrame_values k 0 1 hmn hmw hma
  have hy : y = k.mHPF_b0 := by
    rw [ey, z1, z2, z3, z4]
    ring
  have hg : g = k.mHPF_b0 * (3 / 2) := by
    rw [eg, hy, hgain]
  have c1 := (applyClipping_gain_three_halves k
    (k.mLastSample 0 + (g - k.mLastSample 0) * (25 / 100)) hgain).2
    (by rw [z5, hg]; linarith only [hb0l]) (by rw [z5, hg]; linarith only [hb0u])
  have c2 := (applyClipping_gain_three_halves k
    (k.mLastSample 0 + (g - k.mLastSample 0) * (50 / 100)) hgain).1
    (by rw [z5, hg]; linarith only [hb0l])
  have c3 := (applyClipping_gain_three_halves k
    (k.mLastSample 0 + (g - k.mLastSample 0) * (75 / 100)) hgain).1
    (by rw [z5, hg]; linarith only [hb0l])
  have c4 := (applyClipping_gain_three_halves k g hgain).1 (by rw [hg]; linarith only [hb0l])
  have hm : m = (k.mHPF_b0 * (3 / 2) * (25 / 100) + 33 / 20) * (25 / 100) := by
    rw [em, c1, c2, c3, c4, z5, hg]
    ring
  have hd : d = m := by
    rw [ed, z6, z7]
    ring
  have hm0 : 0 ≤ m := by
    rw [hm]
    linarith only [hb0l]
  have hm1 : m ≤ 11 / 20 := by
    rw [hm]
    linarith only [hb0u]
  refine ⟨⟨?_, ?_⟩, n1, ?_, ?_, ?_, ?_, ?_, ?_, ?_⟩
  · rw [eo, hvol, hd]
    linarith only [hm0]
  · rw [eo, hvol, hd]
    linarith only [hm1]
  · rw [n2]
    exact z1
  · rw [n3]
    exact hy
  · rw [n4]
    exact z3
  · rw [n5]
    exact hg
  · rw [n7, n6]
    exact hd
  · rw [n6]
    exact hm0
  · rw [n6]
    exact hm1

/-- The second frame of the scenario: the sample written is in `[0, 1.375]`
and channel 0 is in the state described by `ScenarioState 2`. -/
theorem scenario_second_frame (k : Kernel E) (hs : ScenarioSettings k)
    (hx1 : k.mHPF_x1 0 = 1) (hx2 : k.mHPF_x2 0 = 0) (hy1 : k.mHPF_y1 0 = k.mHPF_b0)
    (hy2 : k.mHPF_y2 0 = 0) (hlast : k.mLastSample 0 = k.mHPF_b0 * (3 / 2))
    (hout : k.mDcBlockerOutput 0 = k.mDcBlockerZ1 0) (hz0 : 0 ≤ k.mDcBlockerZ1 0)
    (hz1 : k.mDcBlockerZ1 0 ≤ 11 / 20) :
    (0 ≤ (processFrame k 0 1).1 ∧ (processFrame k 0 1).1 ≤ 1375 / 1000) ∧
    ScenarioState 2 (processFrame k 0 1).2 := by
  obtain ⟨-, hgain, hmn, hmw, hma, hvol, hb1, hb2, hb0l, hb0u, ha2l, ha2u, ha2c, ha1l, ha1u⟩ := hs
  obtain ⟨y, g, m, d, ey, eg, em, ed, eo, n1, n2, n3, n4, n5, n6, n7⟩ :=
    processFrame_values k 0 1 hmn hmw hma
  have hy : y = k.mHPF_b0 - k.mHPF_b0 * ((1 - k.mHPF_a2) + (1 + k.mHPF_a2 + k.mHPF_a1)) := by
    rw [ey, hx1, hx2, hy1, hy2, hb1, hb2]
    ring
  have q0 : 0 ≤ (1 - k.mHPF_a2) + (1 + k.mHPF_a2 + k.mHPF_a1) := by
    linarith only [ha2u, ha1u]
  have q1 : (1 - k.mHPF_a2) + (1 + k.mHPF_a2 + k.mHPF_a1) ≤ 17 / 1000 := by
    linarith only [ha2c, ha1l]
  have p0 : 0 ≤ k.mHPF_b0 * ((1 - k.mHPF_a2) + (1 + k.mHPF_a2 + k.mHPF_a1)) :=
    mul_nonneg (by linarith only [hb0l]) q0
  have p1 : k.mHPF_b0 * ((1 - k.mHPF_a2) + (1 + k.mHPF_a2 + k.mHPF_a1)) ≤ 17 / 1000 := by
    have h1 : k.mHPF_b0 * ((1 - k.mHPF_a2) + (1 + k.mHPF_a2 + k.mHPF_a1)) ≤ 1 * (17 / 1000) :=
      mul_le_mul hb0u q1 q0 (by norm_num)
    linarith only [h1]
  have hg : 11 / 20 ≤ g := by
    rw [eg, hgain]
    linarith only [hy, p1, hb0l]
  have c1 := (applyClipping_gain_three_halves k
    (k.mLastSample 0 + (g - k.mLastSample 0) * (25 / 100)) hgain).1
    (by rw [hlast]; linarith only [hg, hb0l])
  have c2 := (applyClipping_gain_three_halves k
    (k.mLastSample 0 + (g - k.mLastSample 0) * (50 / 100)) hgain).1
    (by rw [hlast]; linarith only [hg, hb0l])
  have c3 := (applyClipping_gain_three_halves k
    (k.mLastSample 0 + (g - k.mLastSample 0) * (75 / 100)) hgain).1
    (by rw [hlast]; linarith only [hg, hb0l])
  have c4 := (applyClipping_gain_three_halves k g hgain).1 hg
  have hm : m = 11 / 20 := by
    rw [em, c1, c2, c3, c4]
    norm_num
  have hd : d = 11 / 20 - 5 / 1000 * k.mDcBlockerZ1 0 := by
    rw [ed, hm, hout]
    ring
  refine ⟨⟨?_, ?_⟩, ⟨?_, ?_, ?_, ?_, ?_, ?_, ?_, ?_, ?_, ?_⟩⟩
  · rw [eo, hvol, hd]
    linarith only [hz1]
  · rw [eo, hvol, hd]
    linarith only [hz0]
  · exact n1
  · rw [n2]
    exact hx1
  · rw [n3]
    linarith only [hy, p0, hb0u]
  · rw [n3]
    norm_num
    linarith only [hy, p1, hb0l]
  · rw [n3, n4, hy1]
    norm_num
    linarith only [hy, p1]
  · rw [n3, n4, hy1]
    linarith only [hy, p0]
  · rw [n5]
    exact hg
  · rw [n6]
    exact hm
  · rw [n7, hd]
    linarith only [hz1]
  · rw [n7, hd]
    linarith only [hz0]

/-- The ten frames of the scenario on channel 0. -/
theorem scenario_samples (k : Kernel E) (hs : ScenarioSettings k) (hz : ZeroHistory k 0) :
    ∀ o ∈ (processSamples 0 k (List.replicate 10 1)).1, 0 ≤ o ∧ o ≤ 1375 / 1000 := by
  obtain ⟨f0, a1, a2, a3, a4, a5, a6, a7, a8⟩ := scenario_first_frame k hs hz
  have hs1 := hs.scenario_of_sameSettings (processFrame_sameSettings k 0 1)
  have hb0 : (processFrame k 0 1).2.mHPF_b0 = k.mHPF_b0 :=
    (processFrame_sameSettings k 0 1).2.2.2.2.2.2.2.2.2.1
  obtain ⟨f1, st⟩ := scenario_second_frame (processFrame k 0 1).2 hs1 a1 a2 (by rw [a3, hb0]) a4
    (by rw [a5, hb0]) a6 a7 a8
  have hs2 := hs1.scenario_of_sameSettings (processFrame_sameSettings (processFrame k 0 1).2 0 1)
  have hrest := scenario_run 8 2 (processFrame (processFrame k 0 1).2 0 1).2 hs2 st (by norm_num)
  intro o ho
  have e : List.replicate 10 (1 : ℚ) = 1 :: 1 :: List.replicate 8 1 := rfl
  have e1 : (processSamples 0 k (1 :: 1 :: List.replicate 8 1)).1
      = (processFrame k 0 1).1 :: (processFrame (processFrame k 0 1).2 0 1).1
        :: (processSamples 0 (processFrame (processFrame k 0 1).2 0 1).2
            (List.replicate 8 1)).1 := rfl
  rw [e, e1, List.mem_cons, List.mem_cons] at ho
  rcases ho with ho | ho | ho
  · rw [ho]
    exact f0
  · rw [ho]
    exact f1
  · exact hrest o ho

/-- The coefficient formulas of `initializeEQ` evaluated at a `cos` in
`[0.9995, 1]` and a `sin` in `[0, 0.011]`. -/
theorem scenario_coefficients (cs sn : ℚ) (hc1 : 9995 / 10000 ≤ cs) (hc2 : cs ≤ 1)
    (hs1 : 0 ≤ sn) (hs2 : sn ≤ 11 / 1000) :
    -(1 + cs) / (1 + sn / (2 * (707 / 1000)))
      = -2 * ((1 + cs) / 2 / (1 + sn / (2 * (707 / 1000)))) ∧
    9 / 10 ≤ (1 + cs) / 2 / (1 + sn / (2 * (707 / 1000))) ∧
    (1 + cs) / 2 / (1 + sn / (2 * (707 / 1000))) ≤ 1 ∧
    0 ≤ (1 - sn / (2 * (707 / 1000))) / (1 + sn / (2 * (707 / 1000))) ∧
    (1 - sn / (2 * (707 / 1000))) / (1 + sn / (2 * (707 / 1000))) ≤ 1 ∧
    1 - (1 - sn / (2 * (707 / 1000))) / (1 + sn / (2 * (707 / 1000))) ≤ 16 / 1000 ∧
    1 + (1 - sn / (2 * (707 / 1000))) / (1 + sn / (2 * (707 / 1000))) - 1 / 1000
      ≤ -(-2 * cs / (1 + sn / (2 * (707 / 1000)))) ∧
    -(-2 * cs / (1 + sn / (2 * (707 / 1000))))
      ≤ 1 + (1 - sn / (2 * (707 / 1000))) / (1 + sn / (2 * (707 / 1000))) := by
  have hal0 : 0 ≤ sn / (2 * (707 / 1000)) := div_nonneg hs1 (by norm_num)
  have hal1 : sn / (2 * (707 / 1000)) ≤ 78 / 10000 := by
    rw [div_le_iff₀ (by norm_num)]
    linarith only [hs2]
  generalize sn / (2 * (707 / 1000)) = al at hal0 hal1
  have hA : 0 < 1 + al := by linarith only [hal0]
  have hAne : 1 + al ≠ 0 := ne_of_gt hA
  have e2 : (1 - al) / (1 + al) = 2 / (1 + al) - 1 := by
    field_simp
    ring
  have e1 : -(-2 * cs / (1 + al)) = 2 * cs / (1 + al) := by ring
  have hinv0 : 0 < 1 / (1 + al) := div_pos one_pos hA
  have hinv1 : 1 / (1 + al) ≤ 1 := by
    rw [div_le_one hA]
    linarith only [hal0]
  have hinv2 : 1 - 78 / 10000 ≤ 1 / (1 + al) := by
    rw [le_div_iff₀ hA]
    nlinarith only [hal0, hal1]
  have d1 : 2 / (1 + al) = 2 * (1 / (1 + al)) := by ring
  have d2 : 2 * cs / (1 + al) = 2 * cs * (1 / (1 + al)) := by ring
  have d3 : (1 + cs) / 2 / (1 + al) = (1 + cs) / 2 * (1 / (1 + al)) := by ring
  refine ⟨by ring, ?_, ?_, ?_, ?_, ?_, ?_, ?_⟩
  · rw [d3]
    nlinarith only [hinv2, hc1, hinv0]
  · rw [d3]
    nlinarith only [hinv1, hc2, hinv0, hc1]
  · rw [e2, d1]
    linarith only [hinv2]
  · rw [e2, d1]
    linarith only [hinv1]
  · rw [e2, d1]
    linarith only [hinv2]
  · rw [e1, e2, d1, d2]
    nlinarith only [hinv0, hinv1, hinv2, hc1, hc2]
  · rw [e1, e2, d1, d2]
    nlinarith only [hinv0, hc2]

/-- The kernel of the scenario: the initialised fresh kernel with the five
parameters set. -/
theorem scenarioKernel_eq (ctx : E.ContextBlock) (neutral : E.TubeSaturation)
    (warm : E.TaylorWarmTube) (aggressive : E.TaylorAggressiveTube) :
    scenarioKernel E ctx neutral warm aggressive
      = { initializeKernel (Kernel.fresh E ctx neutral warm aggressive) 1 1 44100 with
          mTubeGain := 3 / 2, mNeutralTubeAmount := 0, mWarmTubeAmount := 0,
          mAggressiveTubeAmount := 0, mOutputVolume := 1 } := by
  obtain ⟨h0, h1, h2, h3, h4, -⟩ := E.labels_ne
  simp [scenarioKernel, setParameters, setParameter, tubegain, bypass, neutraltube, warmtube,
    aggressivetube, Ne.symm h0, Ne.symm h2, Ne.symm h3, Ne.symm h4]

/-- A block of one channel, bypass off: the outer loop runs the inner loop once
for channel 0. -/
theorem process_single_channel (k : Kernel E) (buffer : Nat → ℚ) (frameCount : Nat)
    (hb : k.mBypassed = false) :
    process k [buffer] frameCount
      = ([(processSamples 0 k (readFrames buffer frameCount)).1],
         (processSamples 0 k (readFrames buffer frameCount)).2) := by
  simp only [process, hb, processChannels]
  rfl

theorem processSamples_length (c : Nat) (inputs : List ℚ) (k : Kernel E) :
    (processSamples c k inputs).1.length = inputs.length := by
  induction inputs generalizing k with
  | nil => rfl
  | cons x rest ih => simp only [processSamples, List.length_cons, ih]

/-- C13: the end-to-end scenario.  A freshly constructed kernel is initialised
at 44100 Hz with one channel, tube gain is set to 1.5, the three tube amounts
to 0 and the output volume to 1.0, and a block of 10 samples all equal to 1.0
is processed.  With `std::cos` in `[0.9995, 1]` and `std::sin` in `[0, 0.011]`
at the angle `w0 = 2 * M_PI * 75 / 44100` (about 0.0107), the block yields 10
output samples, none of which exceeds `positiveThreshold * 2.5` in magnitude,
where `positiveThreshold = 0.7 - 0.60 * 0.25 = 0.55`, that is the bound
1.375. -/
theorem end_to_end_scenario (ctx : E.ContextBlock) (neutral : E.TubeSaturation)
    (warm : E.TaylorWarmTube) (aggressive : E.TaylorAggressiveTube) (buffer : Nat → ℚ)
    (hcos : 9995 / 10000 ≤ E.cos (2 * M_PI * (75 / 44100)) ∧
      E.cos (2 * M_PI * (75 / 44100)) ≤ 1)
    (hsin : 0 ≤ E.sin (2 * M_PI * (75 / 44100)) ∧
      E.sin (2 * M_PI * (75 / 44100)) ≤ 11 / 1000)
    (hin : ∀ i, i < 10 → buffer i = 1) :
    specPositiveThreshold (3 / 2) = 55 / 100 ∧
    specPositiveThreshold (3 / 2) * (25 / 10) = 1375 / 1000 ∧
    ∃ outs : List ℚ,
      (process (scenarioKernel E ctx neutral warm aggressive) [buffer] 10).1 = [outs] ∧
      outs.length = 10 ∧
      ∀ o ∈ outs, |o| ≤ specPositiveThreshold (3 / 2) * (25 / 10) := by
  have hpos : specPositiveThreshold (3 / 2) = 55 / 100 := by
    simp only [specPositiveThreshold, specDriveAmount]
    norm_num
  have hbound : specPositiveThreshold (3 / 2) * (25 / 10) = 1375 / 1000 := by
    rw [hpos]
    norm_num
  refine ⟨hpos, hbound, ?_⟩
  obtain ⟨c0, c1, c2, c3, c4, c5, c6, c7⟩ :=
    scenario_coefficients _ _ hcos.1 hcos.2 hsin.1 hsin.2
  have hk := scenarioKernel_eq ctx neutral warm aggressive
  have hs : ScenarioSettings (scenarioKernel E ctx neutral warm aggressive) := by
    rw [hk]
    exact ⟨rfl, rfl, rfl, rfl, rfl, rfl, c0, rfl, c1, c2, c3, c4, c5, c6, c7⟩
  have hz : ZeroHistory (scenarioKernel E ctx neutral warm aggressive) 0 := by
    rw [hk]
    exact ⟨rfl, rfl, rfl, rfl, rfl, rfl, rfl⟩
  have hread : readFrames buffer 10 = List.replicate 10 1 := by
    have e : List.replicate 10 (1 : ℚ) = (List.range 10).map (fun _ => (1 : ℚ)) := by
      simp [List.range, List.range.loop]
    rw [e]
    unfold readFrames
    apply List.map_congr_left
    intro i hi
    exact hin i (List.mem_range.mp hi)
  generalize scenarioKernel E ctx neutral warm aggressive = k at hs hz
  have hp := process_single_channel k buffer 10 hs.1
  rw [hread] at hp
  refine ⟨(processSamples 0 k (List.replicate 10 1)).1, ?_, ?_, ?_⟩
  · rw [hp]
  · rw [processSamples_length]
    simp
  · intro o ho
    obtain ⟨o0, o1⟩ := scenario_samples k hs hz o ho
    rw [hbound, abs_le]
    constructor <;> linarith only [o0, o1]

/-- Witness of `end_to_end_scenario`: the environment `demoEnv`, whose `cos`
and `sin` at `w0` are about 0.99994 and 0.010685. -/
theorem end_to_end_scenario_witness :
    (9995 / 10000 ≤ demoEnv.cos (2 * M_PI * (75 / 44100)) ∧
      demoEnv.cos (2 * M_PI * (75 / 44100)) ≤ 1) ∧
    (0 ≤ demoEnv.sin (2 * M_PI * (75 / 44100)) ∧
      demoEnv.sin (2 * M_PI * (75 / 44100)) ≤ 11 / 1000) ∧
    (∀ i, i < 10 → (fun _ : Nat => (1 : ℚ)) i = 1) ∧
    ∃ outs : List ℚ,
      (process (scenarioKernel demoEnv () (0 : ℚ) (0 : ℚ) (0 : ℚ)) [fun _ => 1] 10).1 = [outs] ∧
      outs.length = 10 ∧
      ∀ o ∈ outs, |o| ≤ specPositiveThreshold (3 / 2) * (25 / 10) :=
  have hcos : 9995 / 10000 ≤ demoEnv.cos (2 * M_PI * (75 / 44100)) ∧
      demoEnv.cos (2 * M_PI * (75 / 44100)) ≤ 1 := by
    simp only [demoEnv, M_PI]
    norm_num
  have hsin : 0 ≤ demoEnv.sin (2 * M_PI * (75 / 44100)) ∧
      demoEnv.sin (2 * M_PI * (75 / 44100)) ≤ 11 / 1000 := by
    simp only [demoEnv, M_PI]
    norm_num
  have hin : ∀ i, i < 10 → (fun _ : Nat => (1 : ℚ)) i = 1 := fun _ _ => rfl
  ⟨hcos, hsin, hin,
    (@end_to_end_scenario demoEnv () (0 : ℚ) (0 : ℚ) (0 : ℚ) (fun _ => 1) hcos hsin hin).2.2⟩

end TubeCity
